import Mathlib

/-!
# nunchux: configuration model, shortcut validation, item registry, menu composition

A shallow embedding of the Go packages `internal/config`, `internal/items` and
`internal/ui`.  Go strings are modelled as Lean strings (valid UTF-8 text): the byte
length `len(s)` is `String.utf8ByteSize`, the rune count `len([]rune(s))` is
`String.length`, and the byte-wise order `s < t` of Go coincides with the
code-point order of Lean on such text.  Go maps are association lists in
which a key is bound at most once (`mapSet` replaces an existing binding).
-/

namespace Nunchux

/-! ## internal/config/types.go -/

/-- The launch action type of `types.go`: `type Action string`. -/
abbrev Action := String

def ActionPopup : Action := "popup"
def ActionWindow : Action := "window"
def ActionBackgroundWindow : Action := "background_window"
def ActionPaneRight : Action := "pane_right"
def ActionPaneLeft : Action := "pane_left"
def ActionPaneAbove : Action := "pane_above"
def ActionPaneBelow : Action := "pane_below"

/-- Global configuration, field for field as in `types.go`. -/
structure Settings where
  IconRunning : String
  IconStopped : String
  MenuWidth : String
  MenuHeight : String
  MaxMenuWidth : String
  MaxMenuHeight : String
  PopupWidth : String
  PopupHeight : String
  MaxPopupWidth : String
  MaxPopupHeight : String
  PrimaryKey : String
  SecondaryKey : String
  PrimaryAction : Action
  SecondaryAction : Action
  PopupKey : String
  WindowKey : String
  BackgroundWindowKey : String
  PaneRightKey : String
  PaneLeftKey : String
  PaneAboveKey : String
  PaneBelowKey : String
  ActionMenuKey : String
  ToggleShortcutsKey : String
  Label : String
  ShowHelp : Bool
  ShowCwd : Bool
  CacheTTL : Int
  FzfPrompt : String
  FzfPointer : String
  FzfBorder : String
  FzfColors : String
  ExcludePatterns : String
  BinDir : String
  TaskrunnerIconRunning : String
  TaskrunnerIconSuccess : String
  TaskrunnerIconFailed : String
  deriving DecidableEq, Repr

/-- A configured application. -/
structure App where
  Name : String
  Cmd : String
  Desc : String
  Width : String
  Height : String
  Status : String
  StatusScript : String
  OnExit : String
  Shortcut : String
  PrimaryAction : Action
  SecondaryAction : Action
  Parent : String
  deriving DecidableEq, Repr

/-- A submenu. -/
structure Menu where
  Name : String
  Desc : String
  Status : String
  CacheTTL : Int
  Shortcut : String
  deriving DecidableEq, Repr

/-- A directory browser configuration (`SortPolicy` is the Go field `Sort`, a
reserved word here). -/
structure Dirbrowser where
  Name : String
  Directory : String
  Depth : Int
  SortPolicy : String
  SortDirection : String
  Glob : String
  Width : String
  Height : String
  CacheTTL : Int
  Shortcut : String
  PrimaryAction : Action
  SecondaryAction : Action
  deriving DecidableEq, Repr

/-- Task-runner settings. -/
structure TaskrunnerConfig where
  Name : String
  Enabled : Bool
  Icon : String
  Label : String
  PrimaryAction : Action
  SecondaryAction : Action
  deriving DecidableEq, Repr

/-- Ordering configuration: the main order and one order list per submenu
(`map[string][]string` as an association list). -/
structure OrderConfig where
  Main : List String
  Submenus : List (String × List String)
  deriving DecidableEq, Repr

/-- All parsed configuration. -/
structure Config where
  Settings : Settings
  Apps : List App
  Menus : List Menu
  Dirbrowsers : List Dirbrowser
  Taskrunners : List TaskrunnerConfig
  Order : OrderConfig
  deriving DecidableEq, Repr

/-! ## internal/config/defaults.go -/

/-- Settings with all default values. -/
def DefaultSettings : Settings where
  IconRunning := "●"
  IconStopped := "○"
  MenuWidth := "60%"
  MenuHeight := "50%"
  MaxMenuWidth := ""
  MaxMenuHeight := ""
  PopupWidth := "90%"
  PopupHeight := "90%"
  MaxPopupWidth := ""
  MaxPopupHeight := ""
  PrimaryKey := "enter"
  SecondaryKey := "ctrl-o"
  PrimaryAction := ActionPopup
  SecondaryAction := ActionWindow
  PopupKey := ""
  WindowKey := ""
  BackgroundWindowKey := ""
  PaneRightKey := ""
  PaneLeftKey := ""
  PaneAboveKey := ""
  PaneBelowKey := ""
  ActionMenuKey := "ctrl-j"
  ToggleShortcutsKey := "ctrl-/"
  Label := "nunchux"
  ShowHelp := false
  ShowCwd := true
  CacheTTL := 60
  FzfPrompt := ""
  FzfPointer := "▌"
  FzfBorder := "rounded"
  FzfColors := "fg+:white:bold,bg+:237,hl:214,hl+:214:bold,pointer:white,marker:green,header:gray,border:gray"
  ExcludePatterns := ".git, node_modules, Cache, cache, .cache, GPUCache, CachedData, blob_storage, Code Cache, Session Storage, Local Storage, IndexedDB, databases, *.db, *.db-*, *.sqlite*, *.log, *.png, *.jpg, *.jpeg, *.gif, *.ico, *.webp, *.woff*, *.ttf, *.lock, lock, *.pid"
  BinDir := ""
  TaskrunnerIconRunning := "🔄"
  TaskrunnerIconSuccess := "✅"
  TaskrunnerIconFailed := "❌"

/-- Keys that fzf supports. -/
def SupportedFzfKeys : List String := [
  "enter", "space", "tab", "esc", "backspace", "delete", "insert",
  "up", "down", "left", "right", "home", "end", "page-up", "page-down",
  "f1", "f2", "f3", "f4", "f5", "f6", "f7", "f8", "f9", "f10", "f11", "f12",
  "ctrl-a", "ctrl-b", "ctrl-c", "ctrl-d", "ctrl-e", "ctrl-f", "ctrl-g", "ctrl-h",
  "ctrl-i", "ctrl-j", "ctrl-k", "ctrl-l", "ctrl-m", "ctrl-n", "ctrl-o", "ctrl-p",
  "ctrl-q", "ctrl-r", "ctrl-s", "ctrl-t", "ctrl-u", "ctrl-v", "ctrl-w", "ctrl-x",
  "ctrl-y", "ctrl-z", "ctrl-space", "ctrl-delete", "ctrl-backspace",
  "ctrl-up", "ctrl-down", "ctrl-left", "ctrl-right",
  "alt-a", "alt-b", "alt-c", "alt-d", "alt-e", "alt-f", "alt-g", "alt-h",
  "alt-i", "alt-j", "alt-k", "alt-l", "alt-m", "alt-n", "alt-o", "alt-p",
  "alt-q", "alt-r", "alt-s", "alt-t", "alt-u", "alt-v", "alt-w", "alt-x",
  "alt-y", "alt-z", "alt-enter", "alt-space", "alt-backspace", "alt-delete",
  "alt-up", "alt-down", "alt-left", "alt-right", "alt-page-up", "alt-page-down",
  "shift-tab", "shift-up", "shift-down", "shift-left", "shift-right",
  "shift-home", "shift-end", "shift-delete", "shift-page-up", "shift-page-down",
  "double-click", "ctrl-/"]

/-- Keys that cannot be used as shortcuts. -/
def ReservedFzfKeys : List String := ["enter", "esc", "ctrl-x"]

/-! ## Go maps and string helpers -/

/-- Map read `m[k]` with the comma-ok form: `none` when the key is absent. -/
def mapGet {β : Type} (m : List (String × β)) (k : String) : Option β :=
  match m with
  | [] => none
  | (k', v) :: rest => if k' = k then some v else mapGet rest k

/-- Map write `m[k] = v`: replaces the binding of `k` or adds one. -/
def mapSet {β : Type} (m : List (String × β)) (k : String) (v : β) : List (String × β) :=
  match m with
  | [] => [(k, v)]
  | (k', v') :: rest => if k' = k then (k, v) :: rest else (k', v') :: mapSet rest k v

/-- The Go call `unicode.ToLower` as far as the result is an ASCII character: the
letters `A` to `Z`, the Kelvin sign U+212A (lower case `k`) and the dotted capital
I U+0130 (lower case `i`) are the only characters with an ASCII lower case.  Every
other character beyond ASCII has a lower case beyond ASCII, for which the character
itself stands: no key of the whitelist holds such a character. -/
def toLowerRune (c : Char) : Char :=
  if c = '\u212A' then 'k' else if c = '\u0130' then 'i' else c.toLower

/-- The Go call `strings.ToLower`: the text mapped character by character. -/
def ToLower (s : String) : String := String.mk (s.data.map toLowerRune)

/-! ## internal/config/validation.go -/

/-- A shortcut validation error. -/
structure ValidationError where
  Key : String
  ItemName : String
  Message : String
  deriving DecidableEq, Repr

/-- Whether a key is a recognized fzf key: the lookup `supportedKeysSet[strings.ToLower(key)]`
in the set that `init` fills from `SupportedFzfKeys`. -/
def IsValidFzfKey (key : String) : Bool := decide (ToLower key ∈ SupportedFzfKeys)

/-- All reserved keys with the reason of each: the static ones, then every
non-empty configured key, a later write replacing an earlier one. -/
def GetReservedKeys (settings : Settings) : List (String × String) :=
  let reserved := ReservedFzfKeys.foldl (fun m k => mapSet m k "reserved by nunchux") []
  let reserved := if settings.PrimaryKey ≠ "" then
    mapSet reserved settings.PrimaryKey "primary_key" else reserved
  let reserved := if settings.SecondaryKey ≠ "" then
    mapSet reserved settings.SecondaryKey "secondary_key" else reserved
  let reserved := if settings.ActionMenuKey ≠ "" then
    mapSet reserved settings.ActionMenuKey "action_menu_key" else reserved
  let reserved := if settings.ToggleShortcutsKey ≠ "" then
    mapSet reserved settings.ToggleShortcutsKey "toggle_shortcuts_key" else reserved
  let reserved := if settings.PopupKey ≠ "" then
    mapSet reserved settings.PopupKey "popup_key" else reserved
  let reserved := if settings.WindowKey ≠ "" then
    mapSet reserved settings.WindowKey "window_key" else reserved
  let reserved := if settings.BackgroundWindowKey ≠ "" then
    mapSet reserved settings.BackgroundWindowKey "background_window_key" else reserved
  let reserved := if settings.PaneRightKey ≠ "" then
    mapSet reserved settings.PaneRightKey "pane_right_key" else reserved
  let reserved := if settings.PaneLeftKey ≠ "" then
    mapSet reserved settings.PaneLeftKey "pane_left_key" else reserved
  let reserved := if settings.PaneAboveKey ≠ "" then
    mapSet reserved settings.PaneAboveKey "pane_above_key" else reserved
  let reserved := if settings.PaneBelowKey ≠ "" then
    mapSet reserved settings.PaneBelowKey "pane_below_key" else reserved
  reserved

/-- Validation of a single shortcut key: `none` is Go's `nil` (valid). -/
def ValidateShortcut (key itemName : String) (settings : Settings)
    (registered : List (String × String)) : Option ValidationError :=
  if key = "" then none
  else
    let normalizedKey := ToLower key
    if ¬ IsValidFzfKey normalizedKey then
      some { Key := key, ItemName := itemName,
             Message := "'" ++ key ++ "' is not a valid fzf key" }
    else
      match mapGet (GetReservedKeys settings) normalizedKey with
      | some reason =>
        some { Key := key, ItemName := itemName,
               Message := "'" ++ key ++ "' is reserved (" ++ reason ++ ")" }
      | none =>
        match mapGet registered normalizedKey with
        | some existingItem =>
          some { Key := key, ItemName := itemName,
                 Message := "'" ++ key ++ "' is already used by '" ++ existingItem ++ "'" }
        | none => none

/-- The validator state: settings, registered shortcuts (normalized key to item
name) and the errors collected so far. -/
structure ShortcutValidator where
  settings : Settings
  registered : List (String × String)
  errors : List ValidationError
  deriving DecidableEq, Repr

/-- A new validator. -/
def NewShortcutValidator (settings : Settings) : ShortcutValidator :=
  { settings := settings, registered := [], errors := [] }

/-- Validate and register a shortcut: the returned error (if any) and the validator
afterwards. -/
def ShortcutValidator.Register (v : ShortcutValidator) (key itemName : String) :
    Option ValidationError × ShortcutValidator :=
  if key = "" then (none, v)
  else
    match ValidateShortcut key itemName v.settings v.registered with
    | some err => (some err, { v with errors := v.errors ++ [err] })
    | none => (none, { v with registered := mapSet v.registered (ToLower key) itemName })

/-- All validation errors collected. -/
def ShortcutValidator.Errors (v : ShortcutValidator) : List ValidationError := v.errors

/-- The map of validated shortcuts. -/
def ShortcutValidator.Shortcuts (v : ShortcutValidator) : List (String × String) := v.registered

/-- Whether any validation error was found. -/
def ShortcutValidator.HasErrors (v : ShortcutValidator) : Bool := decide (v.errors.length > 0)

/-- Lexicographic comparison of two texts, character by character. -/
def ltChars : List Char → List Char → Bool
  | [], [] => false
  | [], _ :: _ => true
  | _ :: _, [] => false
  | a :: as, b :: bs => if a < b then true else if b < a then false else ltChars as bs

/-- The Go comparison `s < t` on strings: Go compares the UTF-8 bytes, which orders
valid text by code point. -/
def strLess (s t : String) : Bool := ltChars s.data t.data

/-- The Go call `strings.Split(s, sep)` for a one-character separator, on
character lists: the text between the separators, at least one field. -/
def splitOn (sep : Char) : List Char → List (List Char)
  | [] => [[]]
  | c :: cs =>
    if c = sep then [] :: splitOn sep cs
    else match splitOn sep cs with
      | [] => [[c]]
      | field :: fields => (c :: field) :: fields

/-- The tab-separated fields of a menu line: `strings.Split(line, "\t")`. -/
def SplitTab (line : String) : List String := (splitOn '\t' line.data).map String.mk

/-- The Go call `strings.TrimPrefix`. -/
def TrimPrefix (s pre : String) : String :=
  if pre.data.isPrefixOf s.data then String.mk (s.data.drop pre.data.length) else s

/-- The verb `%-*s` of `fmt`: the text left-justified in a field of `width` runes,
padded with spaces on the right (never truncated). -/
def padRight (s : List Char) (width : Nat) : List Char :=
  s ++ List.replicate (width - s.length) ' '

/-- External collaborators of rendering: `shell binDir cmd` is the trimmed standard
output of `bash -c cmd` run with `binDir` on the PATH (empty on error or timeout);
`fileCount` is the number of lines printed by the `find` call of a directory browser. -/
structure Env where
  shell : String → String → String
  fileCount : Dirbrowser → Settings → Nat

/-! ## internal/config/config.go -/

/-- The Go predicate `unicode.IsSpace`: the Latin-1 white space and the characters
with the Unicode property White_Space. -/
def isSpace (c : Char) : Bool :=
  c = '\t' || c = '\n' || c = '\x0b' || c = '\x0c' || c = '\r' || c = ' ' ||
  c.toNat = 0x85 || c.toNat = 0xA0 || c.toNat = 0x1680 ||
  (0x2000 ≤ c.toNat && c.toNat ≤ 0x200a) || c.toNat = 0x2028 || c.toNat = 0x2029 ||
  c.toNat = 0x202f || c.toNat = 0x205f || c.toNat = 0x3000

/-- Leading white space removed. -/
def trimLeft (s : List Char) : List Char := s.dropWhile isSpace

/-- Trailing white space removed. -/
def trimRight (s : List Char) : List Char := (s.reverse.dropWhile isSpace).reverse

/-- The Go call `strings.TrimSpace`. -/
def TrimSpace (s : String) : String := String.mk (trimRight (trimLeft s.data))

/-- The Go call `strings.HasPrefix`. -/
def HasPrefix (s pre : String) : Bool := pre.data.isPrefixOf s.data

/-- The Go call `strings.HasSuffix`. -/
def HasSuffix (s suf : String) : Bool := suf.data.reverse.isPrefixOf s.data.reverse

/-- The Go call `strings.TrimSuffix`. -/
def TrimSuffix (s suf : String) : String :=
  if HasSuffix s suf then String.mk (s.data.take (s.data.length - suf.data.length)) else s

/-- The largest and smallest values of the Go type `int` (64 bits). -/
def maxInt : Int := 9223372036854775807

def minInt : Int := -9223372036854775808

/-- The largest value of the Go type `uint64`. -/
def maxUint64 : Nat := 18446744073709551615

/-- The digit loop of `strconv.ParseUint` in base 10, with the value `n` read so far:
a character that is no digit ends it with a syntax error (`none`); the digit with
which the value leaves the range of `uint64` ends it with the largest value and a
range error, the rest of the text unread. -/
def parseUintLoop : Nat → List Char → Option Nat
  | n, [] => some n
  | n, c :: cs =>
    if c.isDigit then
      if n * 10 + (c.toNat - '0'.toNat) > maxUint64 then some maxUint64
      else parseUintLoop (n * 10 + (c.toNat - '0'.toNat)) cs
    else none

/-- The first result of `strconv.ParseUint(s, 10, 0)` unless the error is a syntax
error (`none`), as for the empty text. -/
def parseDigits (s : List Char) : Option Nat :=
  if s = [] then none else parseUintLoop 0 s

/-- The first result of `strconv.Atoi`, the one the parser keeps: the value of an
optionally signed decimal number, clamped to the range of `int` on a range error;
0 on a syntax error. -/
def Atoi (s : String) : Int :=
  match s.data with
  | '-' :: ds =>
    match parseDigits ds with
    | some n => if -(n : Int) < minInt then minInt else -(n : Int)
    | none => 0
  | '+' :: ds =>
    match parseDigits ds with
    | some n => if (n : Int) > maxInt then maxInt else (n : Int)
    | none => 0
  | ds =>
    match parseDigits ds with
    | some n => if (n : Int) > maxInt then maxInt else (n : Int)
    | none => 0

/-- The match of `sectionRegex`, `^\[([^\]]+)\]$`: the text between the brackets. -/
def matchSection (s : String) : Option String :=
  match s.data with
  | '[' :: rest =>
    match rest.reverse with
    | ']' :: innerRev =>
      if innerRev ≠ [] ∧ ']' ∉ innerRev then some (String.mk innerRev.reverse) else none
    | _ => none
  | _ => none

/-- The match of `keyValueRegex`, `^([^=]+)=(.*)$`: the text before the first `=`,
which is not empty, and the text after it, which holds no newline. -/
def matchKeyValue (s : String) : Option (String × String) :=
  match s.data.span (fun c => c != '=') with
  | (_, []) => none
  | (key, _ :: value) =>
    if key ≠ [] ∧ '\n' ∉ value then some (String.mk key, String.mk value) else none

/-- The section type and name of a header `type` or `type:name`. -/
def parseSection (s : String) : String × String :=
  match s.data.span (fun c => c != ':') with
  | (_, []) => (s, "")
  | (ty, _ :: name) => (String.mk ty, String.mk name)

def parseApp (name : String) (data : List (String × String)) : App :=
  data.foldl (fun (app : App) kv =>
    if kv.1 = "cmd" then { app with Cmd := kv.2 }
    else if kv.1 = "desc" then { app with Desc := kv.2 }
    else if kv.1 = "width" then { app with Width := kv.2 }
    else if kv.1 = "height" then { app with Height := kv.2 }
    else if kv.1 = "status" then { app with Status := kv.2 }
    else if kv.1 = "status_script" then { app with StatusScript := kv.2 }
    else if kv.1 = "on_exit" then { app with OnExit := kv.2 }
    else if kv.1 = "shortcut" then { app with Shortcut := kv.2 }
    else if kv.1 = "primary_action" then { app with PrimaryAction := kv.2 }
    else if kv.1 = "secondary_action" then { app with SecondaryAction := kv.2 }
    else app)
    { Name := name, Cmd := "", Desc := "", Width := "", Height := "", Status := "",
      StatusScript := "", OnExit := "", Shortcut := "", PrimaryAction := "",
      SecondaryAction := "", Parent := "" }

def parseMenu (name : String) (data : List (String × String)) : Menu :=
  data.foldl (fun (menu : Menu) kv =>
    if kv.1 = "desc" then { menu with Desc := kv.2 }
    else if kv.1 = "status" then { menu with Status := kv.2 }
    else if kv.1 = "cache_ttl" then { menu with CacheTTL := Atoi kv.2 }
    else if kv.1 = "shortcut" then { menu with Shortcut := kv.2 }
    else menu)
    { Name := name, Desc := "", Status := "", CacheTTL := 0, Shortcut := "" }

/-- A dirbrowser with default values. -/
def DefaultDirbrowser : Dirbrowser :=
  { Name := "", Directory := "", Depth := 1, SortPolicy := "modified",
    SortDirection := "descending", Glob := "", Width := "90%", Height := "80%",
    CacheTTL := 300, Shortcut := "", PrimaryAction := ActionPopup,
    SecondaryAction := ActionWindow }

/-- A taskrunner config with default values. -/
def DefaultTaskrunner : TaskrunnerConfig :=
  { Name := "", Enabled := false, Icon := "", Label := "", PrimaryAction := ActionWindow,
    SecondaryAction := ActionBackgroundWindow }

/-- A leading `~/` replaced by the home directory; `joinHome rest` stands for
`filepath.Join(home, rest)` with the home directory of the user. -/
def expandHome (joinHome : String → String) (path : String) : String :=
  if HasPrefix path "~/" then joinHome (String.mk (path.data.drop 2)) else path

def parseDirbrowser (joinHome : String → String) (name : String)
    (data : List (String × String)) : Dirbrowser :=
  data.foldl (fun (db : Dirbrowser) kv =>
    if kv.1 = "directory" then { db with Directory := expandHome joinHome kv.2 }
    else if kv.1 = "depth" then { db with Depth := Atoi kv.2 }
    else if kv.1 = "sort" then { db with SortPolicy := kv.2 }
    else if kv.1 = "sort_direction" then { db with SortDirection := kv.2 }
    else if kv.1 = "glob" then { db with Glob := kv.2 }
    else if kv.1 = "width" then { db with Width := kv.2 }
    else if kv.1 = "height" then { db with Height := kv.2 }
    else if kv.1 = "cache_ttl" then { db with CacheTTL := Atoi kv.2 }
    else if kv.1 = "shortcut" then { db with Shortcut := kv.2 }
    else if kv.1 = "primary_action" then { db with PrimaryAction := kv.2 }
    else if kv.1 = "secondary_action" then { db with SecondaryAction := kv.2 }
    else db)
    { DefaultDirbrowser with Name := name }

def parseTaskrunner (name : String) (data : List (String × String)) : TaskrunnerConfig :=
  data.foldl (fun (tr : TaskrunnerConfig) kv =>
    if kv.1 = "enabled" then { tr with Enabled := decide (kv.2 = "true") }
    else if kv.1 = "icon" then { tr with Icon := kv.2 }
    else if kv.1 = "label" then { tr with Label := kv.2 }
    else if kv.1 = "primary_action" then { tr with PrimaryAction := kv.2 }
    else if kv.1 = "secondary_action" then { tr with SecondaryAction := kv.2 }
    else tr)
    { DefaultTaskrunner with Name := name, Label := name }

def applySettings (s : Settings) (key value : String) : Settings :=
  if key = "icon_running" then { s with IconRunning := value }
  else if key = "icon_stopped" then { s with IconStopped := value }
  else if key = "menu_width" then { s with MenuWidth := value }
  else if key = "menu_height" then { s with MenuHeight := value }
  else if key = "max_menu_width" then { s with MaxMenuWidth := value }
  else if key = "max_menu_height" then { s with MaxMenuHeight := value }
  else if key = "popup_width" then { s with PopupWidth := value }
  else if key = "popup_height" then { s with PopupHeight := value }
  else if key = "max_popup_width" then { s with MaxPopupWidth := value }
  else if key = "max_popup_height" then { s with MaxPopupHeight := value }
  else if key = "primary_key" then { s with PrimaryKey := value }
  else if key = "secondary_key" then { s with SecondaryKey := value }
  else if key = "primary_action" then { s with PrimaryAction := value }
  else if key = "secondary_action" then { s with SecondaryAction := value }
  else if key = "popup_key" then { s with PopupKey := value }
  else if key = "window_key" then { s with WindowKey := value }
  else if key = "background_window_key" then { s with BackgroundWindowKey := value }
  else if key = "pane_right_key" then { s with PaneRightKey := value }
  else if key = "pane_left_key" then { s with PaneLeftKey := value }
  else if key = "pane_above_key" then { s with PaneAboveKey := value }
  else if key = "pane_below_key" then { s with PaneBelowKey := value }
  else if key = "action_menu_key" then { s with ActionMenuKey := value }
  else if key = "toggle_shortcuts_key" then { s with ToggleShortcutsKey := value }
  else if key = "label" then { s with Label := value }
  else if key = "show_help" then { s with ShowHelp := decide (value = "true") }
  else if key = "show_cwd" then { s with ShowCwd := decide (value = "true") }
  else if key = "cache_ttl" then { s with CacheTTL := Atoi value }
  else if key = "fzf_prompt" then { s with FzfPrompt := value }
  else if key = "fzf_pointer" then { s with FzfPointer := value }
  else if key = "fzf_border" then { s with FzfBorder := value }
  else if key = "fzf_colors" then { s with FzfColors := value }
  else if key = "exclude_patterns" then { s with ExcludePatterns := value }
  else s

def applyTaskrunnerGlobalSettings (s : Settings) (key value : String) : Settings :=
  if key = "icon_running" then { s with TaskrunnerIconRunning := value }
  else if key = "icon_success" then { s with TaskrunnerIconSuccess := value }
  else if key = "icon_failed" then { s with TaskrunnerIconFailed := value }
  else s

def flushSection (joinHome : String → String) (cfg : Config) (sectionType name : String)
    (data : List (String × String)) : Config :=
  if sectionType = "" ∨ (data.length = 0 ∧ sectionType ≠ "order") then cfg
  else if sectionType = "app" then { cfg with Apps := cfg.Apps ++ [parseApp name data] }
  else if sectionType = "menu" then { cfg with Menus := cfg.Menus ++ [parseMenu name data] }
  else if sectionType = "dirbrowser" then
    { cfg with Dirbrowsers := cfg.Dirbrowsers ++ [parseDirbrowser joinHome name data] }
  else if sectionType = "taskrunner" then
    if name ≠ "" then { cfg with Taskrunners := cfg.Taskrunners ++ [parseTaskrunner name data] }
    else cfg
  else cfg

def handleOrderLine (cfg : Config) (section_ line : String) : Config :=
  let item := TrimSpace line
  if item = "" then cfg
  else if section_ = "order" then
    { cfg with Order := { cfg.Order with Main := cfg.Order.Main ++ [item] } }
  else if HasPrefix section_ "order:" then
    let submenuName := TrimPrefix section_ "order:"
    { cfg with Order := { cfg.Order with
        Submenus := mapSet cfg.Order.Submenus submenuName
          (((mapGet cfg.Order.Submenus submenuName).getD []) ++ [item]) } }
  else cfg

/-- The local variables of `Load` that live across the lines of the file. -/
structure LoadState where
  cfg : Config
  currentSection : String
  sectionType : String
  sectionName : String
  sectionData : List (String × String)
  continuationKey : String
  continuationValue : String
  deriving DecidableEq, Repr

/-- One iteration of the scanner loop of `Load`, on the line `line`. -/
def Load.step (joinHome : String → String) (st : LoadState) (line : String) : LoadState :=
  let trimmed := TrimSpace line
  if trimmed = "" ∨ HasPrefix trimmed "#" then st
  else if st.continuationKey ≠ "" then
    let lineContent := TrimSpace line
    if HasSuffix lineContent "\\" then
      { st with continuationValue := st.continuationValue ++ TrimSuffix lineContent "\\" ++ " " }
    else
      { st with
        sectionData := mapSet st.sectionData st.continuationKey
          (st.continuationValue ++ lineContent)
        continuationKey := ""
        continuationValue := "" }
  else
    match matchSection trimmed with
    | some inner =>
      { st with
        cfg := flushSection joinHome st.cfg st.sectionType st.sectionName st.sectionData
        sectionData := []
        currentSection := inner
        sectionType := (parseSection inner).1
        sectionName := (parseSection inner).2 }
    | none =>
      match matchKeyValue trimmed with
      | some (m1, m2) =>
        let key := TrimSpace m1
        let value := TrimSpace m2
        if HasSuffix value "\\" then
          { st with
            continuationKey := key
            continuationValue := st.continuationValue ++ TrimSuffix value "\\" ++ " " }
        else if st.currentSection = "settings" then
          { st with cfg := { st.cfg with Settings := applySettings st.cfg.Settings key value } }
        else if st.currentSection = "taskrunner" then
          { st with cfg := { st.cfg with
              Settings := applyTaskrunnerGlobalSettings st.cfg.Settings key value } }
        else { st with sectionData := mapSet st.sectionData key value }
      | none =>
        if st.currentSection = "order" ∨ HasPrefix st.currentSection "order:" then
          { st with cfg := handleOrderLine st.cfg st.currentSection trimmed }
        else st

/-- The state of `Load` before the first line. -/
def Load.init : LoadState :=
  { cfg := { Settings := DefaultSettings, Apps := [], Menus := [], Dirbrowsers := [],
             Taskrunners := [], Order := { Main := [], Submenus := [] } }
    currentSection := "", sectionType := "", sectionName := "", sectionData := []
    continuationKey := "", continuationValue := "" }

/-- The post-processing of `Load`: the parent of an app whose name holds a `/` is the
text before the first one. -/
def Load.setParent (app : App) : App :=
  match app.Name.data.span (fun c => c != '/') with
  | (_, []) => app
  | (parent, _ :: _) => { app with Parent := String.mk parent }

/-- The largest physical line, in bytes without its newline, that `bufio.Scanner`
reads: the line and its newline have to fit the buffer of at most 64 KiB
(`MaxScanTokenSize`), and a last line without newline has to leave one byte free
for the scanner to meet the end of the file. -/
def maxLineBytes : Nat := 65535

/-- Whether `bufio.Scanner` reads the text to its end: no physical line is longer
than `maxLineBytes`.  Otherwise `scanner.Err()` is `ErrTooLong`. -/
def scanFits (content : String) : Bool :=
  (splitOn '\n' content.data).all (fun l => decide ((String.mk l).utf8ByteSize ≤ maxLineBytes))

/-- The lines that `bufio.Scanner` yields for a text that it reads to its end: the
text between the newlines, one trailing carriage return dropped, no empty last
line. -/
def scanLines (content : String) : List String :=
  let pieces := splitOn '\n' content.data
  let tokens := match pieces.reverse with
    | last :: r => if last = [] then r.reverse else pieces
    | [] => pieces
  tokens.map (fun l =>
    match l.reverse with
    | '\r' :: r => String.mk r.reverse
    | _ => String.mk l)

/-- The config that `Load` builds from the scanned lines: the loop over the lines,
the final flush and the post-processing of the app names. -/
def Load.ofLines (joinHome : String → String) (lines : List String) : Config :=
  let st := lines.foldl (Load.step joinHome) Load.init
  let cfg := flushSection joinHome st.cfg st.sectionType st.sectionName st.sectionData
  { cfg with Apps := cfg.Apps.map Load.setParent }

/-- The parser `Load` on the text of a config file that can be opened: the config
built from the lines, or `none` for the result `(nil, err)` when the scanner stops
with an error at a line that is too long. -/
def Load (joinHome : String → String) (content : String) : Option Config :=
  if scanFits content then some (Load.ofLines joinHome (scanLines content)) else none

/-! ## internal/items: app.go, menu.go, dirbrowser.go, taskrunner.go -/

/-- An app menu item. -/
structure AppItem where
  App : App
  Settings : Settings
  deriving DecidableEq, Repr

/-- A submenu item. -/
structure MenuItem where
  Menu : Menu
  Settings : Settings
  deriving DecidableEq, Repr

/-- A directory browser menu item. -/
structure DirbrowserItem where
  Dirbrowser : Dirbrowser
  Settings : Settings
  deriving DecidableEq, Repr

/-- A single task from a task runner. -/
structure TaskrunnerTask where
  TaskName : String
  Cmd : String
  Description : String
  deriving DecidableEq, Repr

/-- A task-runner task as a menu item. -/
structure TaskrunnerItem where
  Runner : String
  Task : TaskrunnerTask
  Config : TaskrunnerConfig
  Settings : Settings
  Icon : String
  Label : String
  deriving DecidableEq, Repr

/-- A divider line in the menu. -/
structure TaskrunnerDivider where
  Runner : String
  Icon : String
  Label : String
  deriving DecidableEq, Repr

def AppItem.Name (a : AppItem) : String := a.App.Name

def AppItem.Shortcut (a : AppItem) : String := a.App.Shortcut

def AppItem.Parent (a : AppItem) : String := a.App.Parent

/-- The name to show in the menu. -/
def AppItem.DisplayName (a : AppItem) : String :=
  if a.App.Parent ≠ "" then TrimPrefix a.App.Name (a.App.Parent ++ "/") else a.App.Name

def AppItem.getStatus (env : Env) (a : AppItem) : String :=
  let statusCmd := if a.App.StatusScript ≠ "" then "source " ++ a.App.StatusScript else a.App.Status
  if statusCmd = "" then "" else env.shell a.Settings.BinDir statusCmd

def AppItem.FormatLine (env : Env) (a : AppItem) (isRunning : Bool) : String :=
  let icon := if isRunning then a.Settings.IconRunning else a.Settings.IconStopped
  let status := a.getStatus env
  let desc := if status ≠ "" then
      (if a.App.Desc ≠ "" then a.App.Desc ++ " " ++ status else status)
    else a.App.Desc
  let display := icon ++ " " ++ a.DisplayName ++ "\x00" ++ desc
  display ++ "\t" ++ a.App.Shortcut ++ "\t" ++ a.App.Name

def AppItem.GetPrimaryAction (a : AppItem) : Action :=
  if a.App.PrimaryAction ≠ "" then a.App.PrimaryAction else a.Settings.PrimaryAction

def AppItem.GetSecondaryAction (a : AppItem) : Action :=
  if a.App.SecondaryAction ≠ "" then a.App.SecondaryAction else a.Settings.SecondaryAction

def MenuItem.Name (m : MenuItem) : String := m.Menu.Name

def MenuItem.Shortcut (m : MenuItem) : String := m.Menu.Shortcut

/-- Menus are always top-level. -/
def MenuItem.Parent (_m : MenuItem) : String := ""

def MenuItem.DisplayName (m : MenuItem) : String := m.Menu.Name

def MenuItem.getStatus (env : Env) (m : MenuItem) : String :=
  if m.Menu.Status = "" then "" else env.shell m.Settings.BinDir m.Menu.Status

/-- The icon literal of `MenuItem.FormatLine` as it stands in `menu.go`: the three
characters U+00E2, U+2013, U+00B8. -/
def MenuItem.icon : String := "â–¸"

def MenuItem.FormatLine (env : Env) (m : MenuItem) (_isRunning : Bool) : String :=
  let icon := MenuItem.icon
  let status := m.getStatus env
  let desc := if status ≠ "" then
      (if m.Menu.Desc ≠ "" then m.Menu.Desc ++ " " ++ status else status)
    else m.Menu.Desc
  let display := icon ++ " " ++ m.Menu.Name ++ "\x00" ++ desc
  display ++ "\t" ++ m.Menu.Shortcut ++ "\t" ++ m.Menu.Name

def DirbrowserItem.Name (d : DirbrowserItem) : String := d.Dirbrowser.Name

def DirbrowserItem.Shortcut (d : DirbrowserItem) : String := d.Dirbrowser.Shortcut

/-- Dirbrowsers are always top-level. -/
def DirbrowserItem.Parent (_d : DirbrowserItem) : String := ""

def DirbrowserItem.DisplayName (d : DirbrowserItem) : String := d.Dirbrowser.Name

def DirbrowserItem.getFileCount (env : Env) (d : DirbrowserItem) : Nat :=
  env.fileCount d.Dirbrowser d.Settings

/-- The icon literal of `DirbrowserItem.FormatLine`: the single character U+25B8. -/
def DirbrowserItem.icon : String := "▸"

def DirbrowserItem.FormatLine (env : Env) (d : DirbrowserItem) (_isRunning : Bool) : String :=
  let icon := DirbrowserItem.icon
  let fileCount := d.getFileCount env
  let countStr :=
    if fileCount > 1000 then "(1000+ files)"
    else if fileCount = 1 then "(1 file)"
    else "(" ++ toString fileCount ++ " files)"
  let display := icon ++ " " ++ d.Dirbrowser.Name ++ "\x00" ++ countStr
  display ++ "\t" ++ d.Dirbrowser.Shortcut ++ "\t" ++ ("dirbrowser:" ++ d.Dirbrowser.Name)

def DirbrowserItem.GetPrimaryAction (d : DirbrowserItem) : Action :=
  if d.Dirbrowser.PrimaryAction ≠ "" then d.Dirbrowser.PrimaryAction else d.Settings.PrimaryAction

def DirbrowserItem.GetSecondaryAction (d : DirbrowserItem) : Action :=
  if d.Dirbrowser.SecondaryAction ≠ "" then d.Dirbrowser.SecondaryAction
  else d.Settings.SecondaryAction

def TaskrunnerItem.Name (t : TaskrunnerItem) : String := t.Runner ++ ":" ++ t.Task.TaskName

/-- The formatted display name (label and task). -/
def TaskrunnerItem.DisplayName (t : TaskrunnerItem) : String := t.Label ++ " " ++ t.Task.TaskName

/-- The window name for tmux. -/
def TaskrunnerItem.WindowName (t : TaskrunnerItem) : String := t.Runner ++ " » " ++ t.Task.TaskName

def TaskrunnerItem.FormatLine (t : TaskrunnerItem) (isRunning : Bool) : String :=
  let icon := if isRunning then t.Settings.TaskrunnerIconRunning else t.Settings.IconStopped
  let display := icon ++ " " ++ t.DisplayName ++ "\x00" ++ t.Task.Description
  display ++ "\t\t" ++ t.Name ++ "\t" ++ t.Task.Cmd

def TaskrunnerDivider.Name (d : TaskrunnerDivider) : String := "divider:" ++ d.Runner

def TaskrunnerDivider.FormatLine (d : TaskrunnerDivider) (_isRunning : Bool) : String :=
  let iconPart := if d.Icon ≠ "" then " " ++ d.Icon else ""
  let content := d.Label ++ iconPart
  let contentLen : Int := content.utf8ByteSize + 2
  let tailLen : Int := 24 - contentLen
  let tailLen : Int := if tailLen < 3 then 3 else tailLen
  let tail := String.mk (List.replicate tailLen.toNat '─')
  let display := "   ─── " ++ d.Label ++ iconPart ++ " " ++ tail
  display ++ "\t\t\t"

/-- A file in the dirbrowser listing; `ModTime` is the instant of the Go `time.Time`,
in seconds since the Unix epoch (the listing builds it with `time.Unix(sec, 0)`). -/
structure FileEntry where
  Path : String
  RelPath : String
  Folder : String
  Filename : String
  ModTime : Int
  deriving DecidableEq, Repr

/-- The instant of the zero `time.Time`, which a Go map of times gives for a missing
key: January 1 of year 1, in seconds since the Unix epoch. -/
def zeroTime : Int := -62135596800

/-- The inner loop `for j := i + 1; j < len(entries); j++` of `sortEntries`: `x` is
`entries[i]`, the list is `entries[i+1:]`; every element is compared with the
current `entries[i]` and the two are exchanged when `less` is false.  The result is
the final `entries[i]` and the final `entries[i+1:]`. -/
def exchangePass {α : Type} (less : α → α → Bool) (x : α) : List α → α × List α
  | [] => (x, [])
  | y :: ys =>
    if less x y then ((exchangePass less x ys).1, y :: (exchangePass less x ys).2)
    else ((exchangePass less y ys).1, x :: (exchangePass less y ys).2)

/-- The outer loop `for i := 0; i < len(entries)-1; i++` of `sortEntries`, with the
number of iterations left as first argument. -/
def exchangeLoop {α : Type} (less : α → α → Bool) : Nat → List α → List α
  | 0, l => l
  | _ + 1, [] => []
  | n + 1, x :: rest =>
    (exchangePass less x rest).1 :: exchangeLoop less n (exchangePass less x rest).2

/-- The two nested loops of `sortEntries` for one comparison. -/
def exchangeSort {α : Type} (less : α → α → Bool) (entries : List α) : List α :=
  exchangeLoop less (entries.length - 1) entries

/-- The map `folderMaxTime` of the mode `modified-folder`. -/
def folderMaxTime (entries : List FileEntry) : List (String × Int) :=
  entries.foldl (fun m e =>
    match mapGet m e.Folder with
    | some t => if e.ModTime > t then mapSet m e.Folder e.ModTime else m
    | none => mapSet m e.Folder e.ModTime) []

/-- The file entries sorted by the configured sort mode. -/
def DirbrowserItem.sortEntries (d : DirbrowserItem) (entries : List FileEntry) :
    List FileEntry :=
  let sortMode := if d.Dirbrowser.SortPolicy = "" then "modified" else d.Dirbrowser.SortPolicy
  let sortDir :=
    if d.Dirbrowser.SortDirection = "" then "descending" else d.Dirbrowser.SortDirection
  let descending := decide (sortDir = "descending")
  if sortMode = "alphabetical" then
    exchangeSort (fun ei ej =>
      let less := strLess ei.RelPath ej.RelPath
      if descending then !less else less) entries
  else if sortMode = "modified-folder" then
    let folderMax := folderMaxTime entries
    exchangeSort (fun ei ej =>
      let ti := (mapGet folderMax ei.Folder).getD zeroTime
      let tj := (mapGet folderMax ej.Folder).getD zeroTime
      let less := if ti = tj then decide (ei.ModTime < ej.ModTime) else decide (ti < tj)
      if descending then !less else less) entries
  else
    exchangeSort (fun ei ej =>
      let less := decide (ei.ModTime < ej.ModTime)
      if descending then !less else less) entries

/-- The nearest float64 of a rational, ties to even: the 53-digit binary mantissa
`n` of the magnitude is rounded to a whole number.  For magnitudes in the normal
range of float64, which all values met here are. -/
def roundFloat64 (q : ℚ) : ℚ :=
  if q = 0 then 0
  else
    let e : Int := Int.log 2 |q|
    let n : ℚ := |q| * (2 : ℚ) ^ (52 - e)
    let f : Int := ⌊n⌋
    let r : Int :=
      if n - f < 1 / 2 then f
      else if 1 / 2 < n - f then f + 1
      else if f % 2 = 0 then f else f + 1
    let v : ℚ := r * (2 : ℚ) ^ (e - 52)
    if q < 0 then -v else v

/-- The Go constant `time.Second`, in nanoseconds. -/
def Second : Int := 1000000000

/-- The Go method `Duration.Seconds` of a duration in nanoseconds:
`float64(sec) + float64(nsec)/1e9` with `sec = d / Second` and `nsec = d % Second`,
every conversion and operation rounded to float64. -/
def Duration.Seconds (d : Int) : ℚ :=
  let sec := Int.tdiv d Second
  let nsec := Int.tmod d Second
  roundFloat64 (roundFloat64 sec + roundFloat64 (roundFloat64 nsec / 1000000000))

/-- The Go conversion `int(x)` of a float64 within the range of `int`: the fraction
is dropped. -/
def truncInt (x : ℚ) : Int := if 0 ≤ x then ⌊x⌋ else ⌈x⌉

/-- A duration as a readable "ago" text. -/
def formatAgo (d : Int) : String :=
  let secs := truncInt (Duration.Seconds d)
  if secs < 60 then toString secs ++ "s ago"
  else if secs < 3600 then toString (Int.tdiv secs 60) ++ "m ago"
  else if secs < 86400 then toString (Int.tdiv secs 3600) ++ "h ago"
  else toString (Int.tdiv secs 86400) ++ "d ago"

/-! ## internal/items/item.go -/

/-- The menu items: the implementations of the Go interface `Item`. -/
inductive Item where
  | app (a : AppItem)
  | menu (m : MenuItem)
  | dirbrowser (d : DirbrowserItem)
  | taskrunner (t : TaskrunnerItem)
  | divider (d : TaskrunnerDivider)
  deriving DecidableEq, Repr

def Item.Name : Item → String
  | .app a => a.Name
  | .menu m => m.Name
  | .dirbrowser d => d.Name
  | .taskrunner t => t.Name
  | .divider d => d.Name

def Item.Shortcut : Item → String
  | .app a => a.Shortcut
  | .menu m => m.Shortcut
  | .dirbrowser d => d.Shortcut
  | .taskrunner _ => ""
  | .divider _ => ""

def Item.Parent : Item → String
  | .app a => a.Parent
  | .menu m => m.Parent
  | .dirbrowser d => d.Parent
  | .taskrunner _ => ""
  | .divider _ => ""

def Item.DisplayName : Item → String
  | .app a => a.DisplayName
  | .menu m => m.DisplayName
  | .dirbrowser d => d.DisplayName
  | .taskrunner t => t.DisplayName
  | .divider _ => ""

def Item.FormatLine (env : Env) (item : Item) (isRunning : Bool) : String :=
  match item with
  | .app a => a.FormatLine env isRunning
  | .menu m => m.FormatLine env isRunning
  | .dirbrowser d => d.FormatLine env isRunning
  | .taskrunner t => t.FormatLine isRunning
  | .divider d => d.FormatLine isRunning

/-! ## internal/items/registry.go -/

/-- Formatted item data for sorting. -/
structure menuResult where
  name : String
  line : String
  deriving DecidableEq, Repr

/-- All configured items. -/
structure Registry where
  Items : List Item
  TaskrunnerItems : List Item
  TaskrunnerConfig : List TaskrunnerConfig
  Settings : Settings
  Order : OrderConfig
  Shortcuts : List (String × String)
  ValidationErrors : List ValidationError
  deriving DecidableEq, Repr

/-- The three loops of `NewRegistry`, each appending one item and registering the
entity's shortcut: the items and the validator after the loops. -/
def NewRegistry.loops (cfg : Config) : List Item × ShortcutValidator :=
  let validator := NewShortcutValidator cfg.Settings
  let st := cfg.Apps.foldl (fun (st : List Item × ShortcutValidator) app =>
    (st.1 ++ [Item.app { App := app, Settings := cfg.Settings }],
     (st.2.Register app.Shortcut app.Name).2)) ([], validator)
  let st := cfg.Menus.foldl (fun (st : List Item × ShortcutValidator) menu =>
    (st.1 ++ [Item.menu { Menu := menu, Settings := cfg.Settings }],
     (st.2.Register menu.Shortcut menu.Name).2)) st
  let st := cfg.Dirbrowsers.foldl (fun (st : List Item × ShortcutValidator) db =>
    (st.1 ++ [Item.dirbrowser { Dirbrowser := db, Settings := cfg.Settings }],
     (st.2.Register db.Shortcut db.Name).2)) st
  st

/-- A registry from a config. -/
def NewRegistry (cfg : Config) : Registry :=
  let st := NewRegistry.loops cfg
  { Items := st.1
    TaskrunnerItems := []
    TaskrunnerConfig := cfg.Taskrunners
    Settings := cfg.Settings
    Order := cfg.Order
    Shortcuts := st.2.Shortcuts
    ValidationErrors := st.2.Errors }

/-- The filter loop of `BuildMenu`: the items of the current menu. -/
def Registry.filtered (r : Registry) (currentMenu : String) : List Item :=
  r.Items.filter (fun item =>
    if currentMenu = "" then decide (item.Parent = "") else decide (item.Parent = currentMenu))

/-- The width loops of `BuildMenu`: the largest `len(item.DisplayName())`, a length in
bytes, over the filtered items and, in the main menu, the task-runner items. -/
def Registry.maxWidth (r : Registry) (currentMenu : String) : Nat :=
  let step := fun (maxWidth : Nat) (item : Item) =>
    if item.DisplayName.utf8ByteSize > maxWidth then item.DisplayName.utf8ByteSize else maxWidth
  let maxWidth := (r.filtered currentMenu).foldl step 0
  if currentMenu = "" then r.TaskrunnerItems.foldl step maxWidth else maxWidth

/-- The display column re-aligned to the specified width.
Line format: "icon name\x00desc\t..." becomes "icon name<padding>  desc\t...". -/
def alignDisplayColumn (line : String) (maxWidth : Nat) : String :=
  match line.data.span (fun c => c != '\t') with
  | (_, []) => line
  | (display, _ :: rest) =>
    match display.span (fun c => c != '\x00') with
    | (_, []) => line
    | (pre, _ :: desc) =>
      if pre.length > 2 then
        let icon := pre.take 2
        let name := pre.drop 2
        let newDisplay := icon ++ padRight name maxWidth ++ [' ', ' '] ++ desc
        String.mk (newDisplay ++ ['\t'] ++ rest)
      else line

/-- A shortcut prefix prepended to a menu line. -/
def addShortcutPrefix (line : String) : String :=
  match line.data.span (fun c => c != '\t') with
  | (_, []) => line
  | (display, _ :: afterDisplay) =>
    let shortcut := (afterDisplay.span (fun c => c != '\t')).1
    let rest := match (afterDisplay.span (fun c => c != '\t')).2 with
      | [] => []
      | _ :: r => r
    if shortcut ≠ [] then
      let pre := "\x1b[38;5;244m".data ++ padRight (['['] ++ shortcut ++ [']']) 9 ++ "\x1b[0m│ ".data
      String.mk (pre ++ display ++ ['\t'] ++ shortcut ++ ['\t'] ++ rest)
    else
      String.mk ("         │ ".data ++ display ++ ['\t'] ++ shortcut ++ ['\t'] ++ rest)

/-- The order list that `sortResults` uses for the current menu. -/
def Registry.orderList (r : Registry) (currentMenu : String) : List String :=
  if currentMenu = "" then r.Order.Main
  else match mapGet r.Order.Submenus currentMenu with
    | some submenuOrder => submenuOrder
    | none => []

/-- The position map of `sortResults`: `orderMap[name] = i` for every index. -/
def orderMap (orderList : List String) : List (String × Nat) :=
  orderList.enum.foldl (fun m p => mapSet m p.2 p.1) []

/-- The comparison function that `sortResults` hands to `sort.Slice`. -/
def sortLess (om : List (String × Nat)) (x y : menuResult) : Bool :=
  match mapGet om x.name, mapGet om y.name with
  | some posI, some posJ => decide (posI < posJ)
  | some _, none => true
  | none, some _ => false
  | none, none => strLess x.name y.name

/-- The inner loop of insertion sort: `x` moves left past every element it is
less than; the sorted prefix is held in reverse, last element first. -/
def sinkLeft {α : Type} (less : α → α → Bool) (x : α) : List α → List α
  | [] => [x]
  | y :: ys => if less x y then y :: sinkLeft less x ys else x :: y :: ys

/-- The library call `sort.Slice`, which promises a permutation sorted by `less`:
modelled by insertion sort, the algorithm Go runs on slices of up to 12
elements.  On longer slices Go runs pattern-defeating quicksort, which is not
stable: elements that compare equal (here, results of the same name) may then
come out in another order than in this model, every other pair in the same
order. -/
def sortSlice {α : Type} (less : α → α → Bool) (data : List α) : List α :=
  (data.foldl (fun sortedRev x => sinkLeft less x sortedRev) []).reverse

/-- The results sorted by the order config. -/
def Registry.sortResults (r : Registry) (results : List menuResult) (currentMenu : String) :
    List menuResult :=
  sortSlice (sortLess (orderMap (r.orderList currentMenu))) results

/-- The results of the parallel formatting step, one per filtered item, by index. -/
def Registry.results (r : Registry) (env : Env) (runningWindows : String → Bool)
    (currentMenu : String) : List menuResult :=
  (r.filtered currentMenu).map (fun item =>
    { name := item.Name, line := item.FormatLine env (runningWindows item.Name) })

/-- The aligned (and, with `ShowHelp`, prefixed) lines of the regular items. -/
def Registry.regularLines (r : Registry) (env : Env) (runningWindows : String → Bool)
    (currentMenu : String) : List String :=
  (r.sortResults (r.results env runningWindows currentMenu) currentMenu).map (fun res =>
    let line := alignDisplayColumn res.line (r.maxWidth currentMenu)
    if r.Settings.ShowHelp then addShortcutPrefix line else line)

/-- The lines of the task-runner items, added in the main menu only. -/
def Registry.taskrunnerLines (r : Registry) (env : Env) (runningWindows : String → Bool)
    (currentMenu : String) : List String :=
  if currentMenu = "" ∧ r.TaskrunnerItems.length > 0 then
    r.TaskrunnerItems.map (fun item =>
      let isRunning := match item with
        | .taskrunner trItem => runningWindows trItem.WindowName
        | _ => false
      let line := item.FormatLine env isRunning
      let line := match item with
        | .divider _ => line
        | _ => alignDisplayColumn line (r.maxWidth currentMenu)
      if r.Settings.ShowHelp then addShortcutPrefix line else line)
  else []

/-- The menu content for fzf; `currentMenu` is empty for the main menu, or the
submenu name.  `runningWindows` is the lookup in the Go map (false when absent). -/
def Registry.BuildMenu (r : Registry) (env : Env) (runningWindows : String → Bool)
    (currentMenu : String) : String :=
  String.intercalate "\n"
    (r.regularLines env runningWindows currentMenu ++
     r.taskrunnerLines env runningWindows currentMenu)

/-- The item name for a shortcut key (the empty string when the key is absent). -/
def Registry.GetItemByShortcut (r : Registry) (key : String) : String :=
  (mapGet r.Shortcuts key).getD ""

/-- The results of `LoadTaskrunnerTasks`, which queries the provider script of a task
runner: the tasks, the icon, the label, and whether an error is returned. -/
structure ProviderResult where
  tasks : List TaskrunnerTask
  icon : String
  label : String
  err : Bool

/-- Task-runner items loaded from the provider scripts; `load` stands for the call
`LoadTaskrunnerTasks(ctx, cfg, r.Settings)`. -/
def Registry.LoadTaskrunners (r : Registry)
    (load : Nunchux.TaskrunnerConfig → Nunchux.Settings → ProviderResult) : Registry :=
  { r with
    TaskrunnerItems := r.TaskrunnerConfig.foldl (fun (items : List Item) cfg =>
      if !cfg.Enabled then items
      else if (load cfg r.Settings).err ∨ (load cfg r.Settings).tasks.length = 0 then items
      else
        (load cfg r.Settings).tasks.foldl (fun (items : List Item) task =>
          items ++ [Item.taskrunner
            { Runner := cfg.Name, Task := task, Config := cfg, Settings := r.Settings,
              Icon := (load cfg r.Settings).icon, Label := (load cfg r.Settings).label }])
          (items ++ [Item.divider
            { Runner := cfg.Name, Icon := (load cfg r.Settings).icon,
              Label := (load cfg r.Settings).label }])) [] }

/-! ## internal/fzf/runner.go -/

/-- The fzf selection result. -/
structure Selection where
  Key : String
  Line : String
  Fields : List String
  Canceled : Bool
  deriving DecidableEq, Repr

/-- The Go call `strings.SplitN(s, sep, n)` for a one-character separator and a
count `n` that is not negative, on character lists: at most `n` fields, the last
one the unsplit rest. -/
def SplitN (sep : Char) : Nat → List Char → List (List Char)
  | 0, _ => []
  | 1, s => [s]
  | n + 2, s =>
    match s.span (fun c => c != sep) with
    | (_, []) => [s]
    | (before, _ :: after) => before :: SplitN sep (n + 1) after

/-- The selection that an output of fzf stands for: the first line is the key
pressed, the second line is the selected menu line.  The error result of the Go
function is always nil. -/
def ParseOutput (output : String) : Selection :=
  let output := TrimSuffix output "\n"
  let lines := (SplitN '\n' 2 output.data).map String.mk
  if lines.length = 0 ∨ (lines.length = 1 ∧ lines.getD 0 "" = "") then
    { Key := "", Line := "", Fields := [], Canceled := true }
  else
    let sel : Selection := { Key := lines.getD 0 "", Line := "", Fields := [], Canceled := false }
    if lines.length ≥ 2 then
      { sel with Line := lines.getD 1 "", Fields := SplitTab (lines.getD 1 "") }
    else sel

/-! ## internal/ui/menu.go -/

/-- The action for the key pressed.  A Go `switch` with non-constant cases takes
the first case, top to bottom, whose expression equals the tag. -/
def resolveAction (key : String) (settings : Settings) : Action :=
  if key = settings.PopupKey then ActionPopup
  else if key = settings.WindowKey then ActionWindow
  else if key = settings.BackgroundWindowKey then ActionBackgroundWindow
  else if key = settings.PaneRightKey then ActionPaneRight
  else if key = settings.PaneLeftKey then ActionPaneLeft
  else if key = settings.PaneAboveKey then ActionPaneAbove
  else if key = settings.PaneBelowKey then ActionPaneBelow
  else if key = settings.SecondaryKey then settings.SecondaryAction
  else if key = "" ∨ key = settings.PrimaryKey then settings.PrimaryAction
  else settings.PrimaryAction

/-! ## Notions used to state the properties -/

/-- The outcome "rejected with a reserved error": `ValidateShortcut` returns the
error whose message is "'key' is reserved (reason)" for some reason. -/
def RejectedAsReserved (k n : String) (s : Settings) (registered : List (String × String)) :
    Prop :=
  ∃ reason, ValidateShortcut k n s registered =
    some { Key := k, ItemName := n, Message := "'" ++ k ++ "' is reserved (" ++ reason ++ ")" }

/-- The configured (shortcut, name) pairs in registration order: all apps, then all
menus, then all dirbrowsers. -/
def Config.entities (cfg : Config) : List (String × String) :=
  cfg.Apps.map (fun a => (a.Shortcut, a.Name)) ++
  cfg.Menus.map (fun m => (m.Shortcut, m.Name)) ++
  cfg.Dirbrowsers.map (fun d => (d.Shortcut, d.Name))

/-- The sort key that `sortLess` compares by: the position in the order list for a
listed name, the name itself (after every position) for an unlisted one. -/
def nameKey (om : List (String × Nat)) (n : String) : Lex (Nat ⊕ String) :=
  match mapGet om n with
  | some pos => toLex (Sum.inl pos)
  | none => toLex (Sum.inr n)

/-- The order of the specification: the listed names in list order, then the
unlisted names in ascending order. -/
def expectedOrder (orderList names : List String) : List String :=
  orderList.filter (fun n => decide (n ∈ names)) ++
    List.insertionSort (fun a b => a ≤ b) (names.filter (fun n => decide (n ∉ orderList)))

/-- An app entity with the given name, description and shortcut and all other
fields empty, as `parseApp` builds it from a section with these keys. -/
def sampleApp (name desc shortcut : String) : App :=
  { Name := name, Cmd := "", Desc := desc, Width := "", Height := "", Status := "",
    StatusScript := "", OnExit := "", Shortcut := shortcut, PrimaryAction := "",
    SecondaryAction := "", Parent := "" }

/-- A config with the given settings, apps, menus, dirbrowsers and main order. -/
def sampleConfig (settings : Settings) (apps : List App) (menus : List Menu)
    (dirbrowsers : List Dirbrowser) (mainOrder : List String) : Config :=
  { Settings := settings, Apps := apps, Menus := menus, Dirbrowsers := dirbrowsers,
    Taskrunners := [], Order := { Main := mainOrder, Submenus := [] } }

/-- Collaborators that report no status and three files per directory. -/
def sampleEnv : Env := { shell := fun _ _ => "", fileCount := fun _ _ => 3 }

/-- A menu entity with the given name and description and no status or shortcut. -/
def sampleMenu (name desc : String) : Menu :=
  { Name := name, Desc := desc, Status := "", CacheTTL := 0, Shortcut := "" }

/-- A dirbrowser entity with the given name and the defaults of `DefaultDirbrowser`. -/
def sampleDirbrowser (name : String) : Dirbrowser :=
  { DefaultDirbrowser with Name := name }

/-- The text holds no tab character. -/
def noTab (s : String) : Prop := '\t' ∉ s.data

/-- The end of `Load` after the last line: the final flush and the post-processing
of the app names. -/
def Load.finish (joinHome : String → String) (st : LoadState) : Config :=
  { flushSection joinHome st.cfg st.sectionType st.sectionName st.sectionData with
    Apps := (flushSection joinHome st.cfg st.sectionType st.sectionName
      st.sectionData).Apps.map Load.setParent }

/-- The property that `Load` keeps while it reads the rest of the file: the open
section is the app section `name` with stored keys, or an app `name` has been
added. -/
def appPending (name : String) (st : LoadState) : Prop :=
  (st.sectionType = "app" ∧ st.sectionName = name ∧ st.sectionData ≠ []) ∨
  (∃ a ∈ st.cfg.Apps, a.Name = name ∧ a.Parent = "")

/-- The items that one task runner contributes: its divider, then one item per task
in provider order. -/
def runnerItems (settings : Settings) (load : TaskrunnerConfig → Settings → ProviderResult)
    (cfg : TaskrunnerConfig) : List Item :=
  Item.divider { Runner := cfg.Name, Icon := (load cfg settings).icon,
                 Label := (load cfg settings).label } ::
    (load cfg settings).tasks.map (fun task =>
      Item.taskrunner { Runner := cfg.Name, Task := task, Config := cfg, Settings := settings,
                        Icon := (load cfg settings).icon, Label := (load cfg settings).label })

/-- A directory browser item with the given sort mode and sort direction. -/
def sortItem (mode dir : String) : DirbrowserItem :=
  { Dirbrowser := { sampleDirbrowser "d" with SortPolicy := mode, SortDirection := dir },
    Settings := DefaultSettings }

/-- Five files, two in each of two folders and one at the top level (whose folder is its
file name, as `ListFiles` sets it), with modification times in seconds. -/
def sampleEntries : List FileEntry :=
  [ { Path := "/r/A/y", RelPath := "A/y", Folder := "A", Filename := "y", ModTime := 5 },
    { Path := "/r/c", RelPath := "c", Folder := "c", Filename := "c", ModTime := 8 },
    { Path := "/r/B/z", RelPath := "B/z", Folder := "B", Filename := "z", ModTime := 10 },
    { Path := "/r/A/x", RelPath := "A/x", Folder := "A", Filename := "x", ModTime := 10 },
    { Path := "/r/B/w", RelPath := "B/w", Folder := "B", Filename := "w", ModTime := 7 } ]

/-- What the map `folderMaxTime` holds after the entries `processed`: a folder is
bound exactly when an entry lies in it, and it is bound to the latest modification
time of its entries. -/
def folderMaxOf (m : List (String × Int)) (processed : List FileEntry) : Prop :=
  (∀ f t, mapGet m f = some t →
    (∃ x ∈ processed, x.Folder = f ∧ x.ModTime = t) ∧
    ∀ x ∈ processed, x.Folder = f → x.ModTime ≤ t) ∧
  (∀ x ∈ processed, ∃ t, mapGet m x.Folder = some t)

/-- The Go call `unicode.ToUpper` as far as the result is an ASCII character: the
letters `a` to `z`, the dotless i U+0131 (upper case `I`) and the long s U+017F
(upper case `S`) are the only characters with an ASCII upper case.  Every other
character beyond ASCII has an upper case beyond ASCII, for which the character
itself stands. -/
def toUpperRune (c : Char) : Char :=
  if c = 'ı' then 'I' else if c = 'ſ' then 'S' else c.toUpper

/-- The Go call `strings.ToUpper`: the text mapped character by character. -/
def ToUpper (s : String) : String := String.mk (s.data.map toUpperRune)

/-- The entries of every folder lie next to each other: once neighbours in the same
folder are merged, no folder occurs twice. -/
def groupedByFolder (l : List FileEntry) : Bool :=
  decide ((l.map (fun e => e.Folder)).destutter (fun a b => a ≠ b)).Nodup

/-- A line that is neither a section header nor a `key = value` line: a blank line,
a comment, or a bare line. -/
def isBareLine (l : String) : Prop :=
  (TrimSpace l = "" ∨ HasPrefix (TrimSpace l) "#" = true) ∨
  (matchSection (TrimSpace l) = none ∧ matchKeyValue (TrimSpace l) = none)

/-- A config with the apps `sys/a`, `sys/b`, `sys/c` of the submenu `sys` and the app
`top`, the main order `[top, sys/b]` and the order `[sys/c, sys/a]` of the submenu
`sys`. -/
def sampleSubmenuConfig : Config :=
  { Settings := DefaultSettings
    Apps := [{ sampleApp "sys/a" "" "" with Parent := "sys" },
             { sampleApp "sys/b" "" "" with Parent := "sys" },
             { sampleApp "sys/c" "" "" with Parent := "sys" }, sampleApp "top" "" ""]
    Menus := [], Dirbrowsers := [], Taskrunners := []
    Order := { Main := ["top", "sys/b"], Submenus := [("sys", ["sys/c", "sys/a"])] } }

/-- The text of a file with the given physical lines, each ended by a newline. -/
def joinLines (lines : List String) : String :=
  String.mk (lines.map (fun l => l.data ++ ['\n'])).flatten

/-- A line without one trailing carriage return, as `bufio.ScanLines` yields it. -/
def dropCR (l : List Char) : String :=
  match l.reverse with
  | '\r' :: r => String.mk r.reverse
  | _ => String.mk l

/-- A comment line of 70000 bytes: `#` followed by 69999 times `x`. -/
def longComment : String := String.mk ('#' :: List.replicate 69999 'x')

/-! ## Theorems -/

/-! ### Maps and lower-casing -/

theorem mapGet_mapSet {β : Type} (m : List (String × β)) (k k' : String) (v : β) :
    mapGet (mapSet m k v) k' = if k = k' then some v else mapGet m k' := by
  induction m with
  | nil => simp [mapSet, mapGet]
  | cons p rest ih =>
    obtain ⟨a, b⟩ := p
    by_cases h : a = k
    · subst h
      by_cases h2 : a = k' <;> simp [mapSet, mapGet, h2]
    · by_cases h2 : a = k'
      · subst h2
        simp [mapSet, mapGet, h, Ne.symm h]
      · simp [mapSet, mapGet, h, h2, ih]

theorem toLower_char_idem (c : Char) : c.toLower.toLower = c.toLower := by
  by_cases h : c.toNat ≥ 65 ∧ c.toNat ≤ 90
  · have e1 : c.toLower = Char.ofNat (c.toNat + 32) := by simp [Char.toLower, h]
    have hv : Nat.isValidChar (c.toNat + 32) := Or.inl (by omega)
    have e2 : (Char.ofNat (c.toNat + 32)).toNat = c.toNat + 32 := by
      unfold Char.ofNat
      rw [dif_pos hv]
      simp [Char.toNat, Char.ofNatAux, UInt32.toNat]
    rw [e1]
    unfold Char.toLower
    simp only [e2]
    rw [if_neg (by omega)]
  · have : c.toLower = c := by simp [Char.toLower, h]
    rw [this, this]

theorem toLowerRune_idem (c : Char) : toLowerRune (toLowerRune c) = toLowerRune c := by
  unfold toLowerRune
  by_cases h1 : c = '\u212A'
  · rw [if_pos h1]
    decide
  · rw [if_neg h1]
    by_cases h2 : c = '\u0130'
    · rw [if_pos h2]
      decide
    · rw [if_neg h2]
      have hsame : c.toLower = c ∨ c.toLower.toNat ≤ 122 := by
        by_cases h : c.toNat ≥ 65 ∧ c.toNat ≤ 90
        · right
          have e1 : c.toLower = Char.ofNat (c.toNat + 32) := by simp [Char.toLower, h]
          have hv : Nat.isValidChar (c.toNat + 32) := Or.inl (by omega)
          have e2 : (Char.ofNat (c.toNat + 32)).toNat = c.toNat + 32 := by
            unfold Char.ofNat
            rw [dif_pos hv]
            simp [Char.toNat, Char.ofNatAux, UInt32.toNat]
          rw [e1, e2]
          omega
        · left
          simp [Char.toLower, h]
      have h3 : c.toLower ≠ '\u212A' := by
        rcases hsame with h | h
        · rw [h]
          exact h1
        · intro he
          rw [he] at h
          exact absurd h (by decide)
      have h4 : c.toLower ≠ '\u0130' := by
        rcases hsame with h | h
        · rw [h]
          exact h2
        · intro he
          rw [he] at h
          exact absurd h (by decide)
      rw [if_neg h3, if_neg h4]
      exact toLower_char_idem c

theorem ToLower_idem (s : String) : ToLower (ToLower s) = ToLower s := by
  have : toLowerRune ∘ toLowerRune = toLowerRune := funext toLowerRune_idem
  simp [ToLower, this]

theorem ToLower_eq_empty (s : String) (h : ToLower s = "") : s = "" := by
  have := congrArg String.data h
  simp [ToLower] at this
  exact String.ext this

theorem empty_not_supported : "" ∉ SupportedFzfKeys := by decide

theorem IsValidFzfKey_ToLower (k : String) : IsValidFzfKey (ToLower k) = IsValidFzfKey k := by
  simp [IsValidFzfKey, ToLower_idem]

/-- The keys that `GetReservedKeys` binds: the static ones and every non-empty
configured key. -/
theorem mapGet_GetReservedKeys_isSome (s : Settings) (x : String) :
    (mapGet (GetReservedKeys s) x).isSome = true ↔
      (x ∈ ReservedFzfKeys ∨
        (s.PrimaryKey ≠ "" ∧ x = s.PrimaryKey) ∨ (s.SecondaryKey ≠ "" ∧ x = s.SecondaryKey) ∨
        (s.ActionMenuKey ≠ "" ∧ x = s.ActionMenuKey) ∨
        (s.ToggleShortcutsKey ≠ "" ∧ x = s.ToggleShortcutsKey) ∨
        (s.PopupKey ≠ "" ∧ x = s.PopupKey) ∨ (s.WindowKey ≠ "" ∧ x = s.WindowKey) ∨
        (s.BackgroundWindowKey ≠ "" ∧ x = s.BackgroundWindowKey) ∨
        (s.PaneRightKey ≠ "" ∧ x = s.PaneRightKey) ∨ (s.PaneLeftKey ≠ "" ∧ x = s.PaneLeftKey) ∨
        (s.PaneAboveKey ≠ "" ∧ x = s.PaneAboveKey) ∨ (s.PaneBelowKey ≠ "" ∧ x = s.PaneBelowKey)) := by
  have step : ∀ (m : List (String × String)) (k v : String),
      (mapGet (if k ≠ "" then mapSet m k v else m) x).isSome = true ↔
        ((mapGet m x).isSome = true ∨ (k ≠ "" ∧ x = k)) := by
    intro m k v
    by_cases hk : k = ""
    · simp [hk]
    · by_cases hx : k = x
      · subst hx
        simp [hk, mapGet_mapSet]
      · have hx' : ¬ x = k := fun h => hx h.symm
        simp [hk, mapGet_mapSet, hx, hx']
  have base : (mapGet (ReservedFzfKeys.foldl (fun m k => mapSet m k "reserved by nunchux") []) x).isSome = true
      ↔ x ∈ ReservedFzfKeys := by
    simp only [ReservedFzfKeys, List.foldl, mapGet_mapSet]
    have e1 : ("enter" = x) = (x = "enter") := propext eq_comm
    have e2 : ("esc" = x) = (x = "esc") := propext eq_comm
    have e3 : ("ctrl-x" = x) = (x = "ctrl-x") := propext eq_comm
    simp only [e1, e2, e3, List.mem_cons, List.mem_singleton]
    split_ifs <;> simp_all [mapGet]
  unfold GetReservedKeys
  simp only [step, base, or_assoc]

/-! ### C1: the empty key -/

/-- C1 (failing input): with the default settings and only the primary action
changed to `window` (the config text `[settings]`, `primary_action = window`), the
empty key resolves to `popup`, because the unset (empty) popup key is the first
`switch` case and equals the empty key; the primary action `window` is not
returned. -/
theorem resolveAction_empty_key_default_popup :
    (Load id "[settings]\nprimary_action = window\n").map (fun cfg => cfg.Settings) =
      some { DefaultSettings with PrimaryAction := ActionWindow } ∧
    resolveAction "" { DefaultSettings with PrimaryAction := ActionWindow } = ActionPopup ∧
    resolveAction "" { DefaultSettings with PrimaryAction := ActionWindow } ≠
      ({ DefaultSettings with PrimaryAction := ActionWindow } : Settings).PrimaryAction := by
  refine ⟨rfl, ?_⟩
  decide

/-! ### C4, C5: validation of one shortcut -/

theorem used_message_inj (k X Y : String)
    (h : "'" ++ k ++ "' is already used by '" ++ X ++ "'" =
         "'" ++ k ++ "' is already used by '" ++ Y ++ "'") : X = Y := by
  have h2 := congrArg String.data h
  simp only [String.data_append, List.append_assoc, List.append_cancel_left_eq] at h2
  have h3 := List.append_cancel_right h2
  exact String.ext h3

theorem reserved_message_ne_used (k r X : String) :
    "'" ++ k ++ "' is reserved (" ++ r ++ ")" ≠
      "'" ++ k ++ "' is already used by '" ++ X ++ "'" := by
  intro h
  have h2 := congrArg String.data h
  simp only [String.data_append, List.append_assoc, List.append_cancel_left_eq] at h2
  simp at h2

/-- C4 (counterexample): the key `alt-b` is whitelisted, not reserved under the
default settings and registered to `myapp` itself, yet validating it for
`myapp` returns the "already used by 'myapp'" error instead of nil. -/
theorem validateShortcut_same_name_rejected :
    ToLower "alt-b" ∈ SupportedFzfKeys ∧
    mapGet (GetReservedKeys DefaultSettings) (ToLower "alt-b") = none ∧
    mapGet [("alt-b", "myapp")] (ToLower "alt-b") = some "myapp" ∧
    ValidateShortcut "alt-b" "myapp" DefaultSettings [("alt-b", "myapp")] =
      some { Key := "alt-b", ItemName := "myapp",
             Message := "'alt-b' is already used by 'myapp'" } ∧
    ValidateShortcut "alt-b" "myapp" DefaultSettings [("alt-b", "myapp")] ≠ none := by
  decide

/-- C4 (amended): for a key whose lower-cased form is whitelisted and not reserved,
`ValidateShortcut` returns the "already used by X" error exactly when the
lower-cased key is registered to X (whether or not X is the item itself), and
returns nil exactly when the lower-cased key is unregistered. -/
theorem validateShortcut_duplicate_iff (settings : Settings)
    (registered : List (String × String)) (n k : String)
    (hw : ToLower k ∈ SupportedFzfKeys)
    (hr : mapGet (GetReservedKeys settings) (ToLower k) = none) :
    (∀ X, ValidateShortcut k n settings registered =
        some { Key := k, ItemName := n,
               Message := "'" ++ k ++ "' is already used by '" ++ X ++ "'" } ↔
      mapGet registered (ToLower k) = some X) ∧
    (ValidateShortcut k n settings registered = none ↔
      mapGet registered (ToLower k) = none) := by
  have hk : k ≠ "" := by
    intro h
    subst h
    exact empty_not_supported hw
  have hv : IsValidFzfKey (ToLower k) = true := by
    simp [IsValidFzfKey, ToLower_idem, hw]
  unfold ValidateShortcut
  simp only [hk, if_false, hv, not_true_eq_false, hr]
  cases hreg : mapGet registered (ToLower k) with
  | none => simp
  | some Y =>
    simp only [Option.some.injEq, ValidationError.mk.injEq, true_and, reduceCtorEq, and_true]
    intro X
    constructor
    · intro h
      exact used_message_inj k Y X h
    · intro h
      rw [h]

/-- C4 (witness): the amended statement at the key `ALT-B` for the item `myapp`,
with `alt-b` registered to `otherapp`. -/
theorem validateShortcut_duplicate_iff_witness :
    ToLower "ALT-B" ∈ SupportedFzfKeys ∧
    mapGet (GetReservedKeys DefaultSettings) (ToLower "ALT-B") = none ∧
    ((∀ X, ValidateShortcut "ALT-B" "myapp" DefaultSettings [("alt-b", "otherapp")] =
        some { Key := "ALT-B", ItemName := "myapp",
               Message := "'" ++ "ALT-B" ++ "' is already used by '" ++ X ++ "'" } ↔
      mapGet [("alt-b", "otherapp")] (ToLower "ALT-B") = some X) ∧
    (ValidateShortcut "ALT-B" "myapp" DefaultSettings [("alt-b", "otherapp")] = none ↔
      mapGet [("alt-b", "otherapp")] (ToLower "ALT-B") = none)) :=
  ⟨by decide, by decide,
   validateShortcut_duplicate_iff DefaultSettings [("alt-b", "otherapp")] "myapp" "ALT-B"
     (by decide) (by decide)⟩

theorem rejectedAsReserved_iff_isSome (s : Settings) (k n : String)
    (registered : List (String × String)) (hk : IsValidFzfKey k = true) :
    RejectedAsReserved k n s registered ↔
      (mapGet (GetReservedKeys s) (ToLower k)).isSome = true := by
  have hne : k ≠ "" := by
    intro h
    subst h
    revert hk
    decide
  have hv : IsValidFzfKey (ToLower k) = true := by rw [IsValidFzfKey_ToLower]; exact hk
  unfold RejectedAsReserved ValidateShortcut
  simp only [hne, if_false, hv, not_true_eq_false]
  cases hres : mapGet (GetReservedKeys s) (ToLower k) with
  | some reason =>
    simp only [Option.isSome_some, iff_true]
    exact ⟨reason, rfl⟩
  | none =>
    simp only [Option.isSome_none, Bool.false_eq_true, iff_false]
    rintro ⟨reason, h⟩
    cases hreg : mapGet registered (ToLower k) with
    | none => simp [hreg] at h
    | some X =>
      simp only [hreg, Option.some.injEq, ValidationError.mk.injEq, true_and] at h
      exact reserved_message_ne_used k reason X h.symm

/-- C5: for a whitelisted key, `ValidateShortcut` rejects it as reserved exactly when
its lower-cased form is `enter`, `esc`, `ctrl-x` or a non-empty configured key of
the settings, that is, a key of `GetReservedKeys`, whatever the registered map
holds; with only `SecondaryKey` changed from `ctrl-o` to `alt-z` in the default
settings, `alt-z` is rejected as reserved and `ctrl-o` no longer is. -/
theorem validateShortcut_reserved_iff (s : Settings) (k n : String)
    (registered : List (String × String)) (hk : IsValidFzfKey k = true) :
    (RejectedAsReserved k n s registered ↔
      (ToLower k = "enter" ∨ ToLower k = "esc" ∨ ToLower k = "ctrl-x" ∨
        (s.PrimaryKey ≠ "" ∧ ToLower k = s.PrimaryKey) ∨
        (s.SecondaryKey ≠ "" ∧ ToLower k = s.SecondaryKey) ∨
        (s.ActionMenuKey ≠ "" ∧ ToLower k = s.ActionMenuKey) ∨
        (s.ToggleShortcutsKey ≠ "" ∧ ToLower k = s.ToggleShortcutsKey) ∨
        (s.PopupKey ≠ "" ∧ ToLower k = s.PopupKey) ∨
        (s.WindowKey ≠ "" ∧ ToLower k = s.WindowKey) ∨
        (s.BackgroundWindowKey ≠ "" ∧ ToLower k = s.BackgroundWindowKey) ∨
        (s.PaneRightKey ≠ "" ∧ ToLower k = s.PaneRightKey) ∨
        (s.PaneLeftKey ≠ "" ∧ ToLower k = s.PaneLeftKey) ∨
        (s.PaneAboveKey ≠ "" ∧ ToLower k = s.PaneAboveKey) ∨
        (s.PaneBelowKey ≠ "" ∧ ToLower k = s.PaneBelowKey))) ∧
    (RejectedAsReserved k n s registered ↔
      (mapGet (GetReservedKeys s) (ToLower k)).isSome = true) ∧
    (RejectedAsReserved k n s registered ↔ RejectedAsReserved k n s []) ∧
    RejectedAsReserved "ctrl-o" n DefaultSettings registered ∧
    ¬ RejectedAsReserved "alt-z" n DefaultSettings registered ∧
    RejectedAsReserved "alt-z" n { DefaultSettings with SecondaryKey := "alt-z" } registered ∧
    ¬ RejectedAsReserved "ctrl-o" n { DefaultSettings with SecondaryKey := "alt-z" }
        registered := by
  refine ⟨?_, rejectedAsReserved_iff_isSome s k n registered hk, ?_, ?_, ?_, ?_, ?_⟩
  · rw [rejectedAsReserved_iff_isSome s k n registered hk, mapGet_GetReservedKeys_isSome]
    simp only [ReservedFzfKeys, List.mem_cons, List.mem_singleton, List.mem_nil_iff, or_false,
      or_assoc]
  · rw [rejectedAsReserved_iff_isSome s k n registered hk,
      rejectedAsReserved_iff_isSome s k n [] hk]
  · rw [rejectedAsReserved_iff_isSome _ _ _ _ (by decide)]
    decide
  · rw [rejectedAsReserved_iff_isSome _ _ _ _ (by decide)]
    decide
  · rw [rejectedAsReserved_iff_isSome _ _ _ _ (by decide)]
    decide
  · rw [rejectedAsReserved_iff_isSome _ _ _ _ (by decide)]
    decide

/-- C5 (witness): the statement at the key `CTRL-O` under the default settings. -/
theorem validateShortcut_reserved_iff_witness :
    IsValidFzfKey "CTRL-O" = true ∧
    RejectedAsReserved "CTRL-O" "myapp" DefaultSettings [] ∧
    (mapGet (GetReservedKeys DefaultSettings) (ToLower "CTRL-O")).isSome = true :=
  ⟨by decide,
   (validateShortcut_reserved_iff DefaultSettings "CTRL-O" "myapp" [] (by decide)).2.1.mpr
     (by decide),
   by decide⟩

/-! ### C6: the shortcut map of a registry -/

theorem register_settings (v : ShortcutValidator) (sc name : String) :
    (v.Register sc name).2.settings = v.settings := by
  unfold ShortcutValidator.Register
  split_ifs
  · rfl
  · split <;> rfl

/-- One call of `Register`, read at a key `k`. -/
theorem register_mapGet (v : ShortcutValidator) (sc name k : String) :
    mapGet (v.Register sc name).2.registered k =
      match mapGet v.registered k with
      | some n => some n
      | none =>
        if ToLower sc = k ∧ k ∈ SupportedFzfKeys ∧ mapGet (GetReservedKeys v.settings) k = none
        then some name else none := by
  unfold ShortcutValidator.Register
  by_cases hsc : sc = ""
  · subst hsc
    have : ¬ (ToLower "" = k ∧ k ∈ SupportedFzfKeys ∧
        mapGet (GetReservedKeys v.settings) k = none) := by
      rintro ⟨h1, h2, _⟩
      rw [← h1] at h2
      exact empty_not_supported h2
    simp only [if_true, this, if_false]
    cases mapGet v.registered k <;> rfl
  · simp only [hsc, if_false]
    unfold ValidateShortcut
    simp only [hsc, if_false, IsValidFzfKey_ToLower]
    by_cases hv : IsValidFzfKey sc = true
    · simp only [hv, not_true_eq_false, if_false]
      have hsup : ToLower sc ∈ SupportedFzfKeys := by simpa [IsValidFzfKey] using hv
      cases hres : mapGet (GetReservedKeys v.settings) (ToLower sc) with
      | some reason =>
        have : ¬ (ToLower sc = k ∧ k ∈ SupportedFzfKeys ∧
            mapGet (GetReservedKeys v.settings) k = none) := by
          rintro ⟨h1, _, h3⟩
          rw [← h1, hres] at h3
          cases h3
        simp only [this, if_false]
        cases mapGet v.registered k <;> rfl
      | none =>
        cases hreg : mapGet v.registered (ToLower sc) with
        | some X =>
          by_cases hk : ToLower sc = k
          · subst hk
            simp [hreg]
          · simp only [hk, false_and, if_false]
            cases mapGet v.registered k <;> rfl
        | none =>
          simp only [mapGet_mapSet]
          by_cases hk : ToLower sc = k
          · subst hk
            simp [hreg, hsup, hres]
          · simp only [hk, false_and, if_false]
            cases mapGet v.registered k <;> rfl
    · have : ¬ (ToLower sc = k ∧ k ∈ SupportedFzfKeys ∧
          mapGet (GetReservedKeys v.settings) k = none) := by
        rintro ⟨h1, h2, _⟩
        apply hv
        rw [← h1] at h2
        simpa [IsValidFzfKey] using h2
      simp only [hv, this, if_false]
      simp
      cases mapGet v.registered k <;> rfl

/-- A run of `Register` calls, read at a key `k`. -/
theorem registerAll_mapGet (es : List (String × String)) (v : ShortcutValidator) (k : String) :
    mapGet (es.foldl (fun v e => (v.Register e.1 e.2).2) v).registered k =
      match mapGet v.registered k with
      | some n => some n
      | none =>
        if k ∈ SupportedFzfKeys ∧ mapGet (GetReservedKeys v.settings) k = none
        then (es.find? (fun e => decide (ToLower e.1 = k))).map (fun e => e.2) else none := by
  induction es generalizing v with
  | nil =>
    simp only [List.foldl_nil, List.find?_nil, Option.map_none', ite_self]
    cases mapGet v.registered k <;> rfl
  | cons e rest ih =>
    rw [List.foldl_cons, ih, register_mapGet, register_settings]
    cases hreg : mapGet v.registered k with
    | some n => rfl
    | none =>
      by_cases hk : ToLower e.1 = k
      · by_cases hc : k ∈ SupportedFzfKeys ∧ mapGet (GetReservedKeys v.settings) k = none
        · simp [hk, hc]
        · have hc' : ¬ (ToLower e.1 = k ∧ k ∈ SupportedFzfKeys ∧
              mapGet (GetReservedKeys v.settings) k = none) := fun h => hc h.2
          simp only [hc', hc, if_false]
          simp
      · simp [hk]

theorem foldl_pair_snd {α : Type} (l : List α) (f : α → Item) (sc nm : α → String)
    (st : List Item × ShortcutValidator) :
    (l.foldl (fun (st : List Item × ShortcutValidator) a =>
      (st.1 ++ [f a], (st.2.Register (sc a) (nm a)).2)) st).2 =
    (l.map (fun a => (sc a, nm a))).foldl (fun v e => (v.Register e.1 e.2).2) st.2 := by
  induction l generalizing st with
  | nil => rfl
  | cons a rest ih => simp only [List.foldl_cons, List.map_cons, ih]

theorem loops_validator (cfg : Config) :
    (NewRegistry.loops cfg).2 =
      cfg.entities.foldl (fun v e => (v.Register e.1 e.2).2) (NewShortcutValidator cfg.Settings) := by
  unfold NewRegistry.loops Config.entities
  simp only [foldl_pair_snd, List.foldl_append]

/-- C6: the shortcut map of `NewRegistry` binds `k` to `n` exactly when `k` is
lower-case, whitelisted, not reserved under the settings of the config, and `n`
is the name of the first entity (apps, then menus, then dirbrowsers, in
configuration order) whose shortcut lower-cases to `k`; every other key is
unbound. -/
theorem newRegistry_shortcuts_iff (cfg : Config) (k n : String) :
    mapGet (NewRegistry cfg).Shortcuts k = some n ↔
      (ToLower k = k ∧ k ∈ SupportedFzfKeys ∧
       mapGet (GetReservedKeys cfg.Settings) k = none ∧
       (cfg.entities.find? (fun e => decide (ToLower e.1 = k))).map (fun e => e.2) = some n) := by
  have h : (NewRegistry cfg).Shortcuts =
      (cfg.entities.foldl (fun v e => (v.Register e.1 e.2).2)
        (NewShortcutValidator cfg.Settings)).registered := by
    simp only [NewRegistry, ShortcutValidator.Shortcuts, loops_validator]
  rw [h, registerAll_mapGet]
  simp only [NewShortcutValidator, mapGet]
  constructor
  · intro hh
    split_ifs at hh with hc
    · refine ⟨?_, hc.1, hc.2, hh⟩
      obtain ⟨e, he, _⟩ := Option.map_eq_some'.mp hh
      have := List.find?_some he
      simp only [decide_eq_true_eq] at this
      rw [← this, ToLower_idem]
  · rintro ⟨_, h2, h3, h4⟩
    simp only [h2, h3, and_self, if_true, h4]

/-! ### The order that sortResults yields (lemmas for C2) -/

theorem ltChars_iff (l₁ l₂ : List Char) :
    ltChars l₁ l₂ = true ↔ List.Lex (fun a b => a < b) l₁ l₂ := by
  induction l₁ generalizing l₂ with
  | nil =>
    cases l₂ with
    | nil => simp [ltChars]
    | cons b bs => simp [ltChars, List.Lex.nil]
  | cons a as ih =>
    cases l₂ with
    | nil => simp [ltChars]
    | cons b bs =>
      unfold ltChars
      by_cases hab : a < b
      · simp [hab, List.Lex.rel hab]
      · by_cases hba : b < a
        · simp only [hab, hba, if_false, if_true, Bool.false_eq_true, false_iff]
          intro h
          cases h with
          | cons h' => exact lt_irrefl _ hba
          | rel h' => exact hab h'
        · have heq : a = b := le_antisymm (not_lt.mp hba) (not_lt.mp hab)
          subst heq
          simp only [hab, if_false, ih]
          constructor
          · intro h
            exact List.Lex.cons h
          · intro h
            cases h with
            | cons h' => exact h'
            | rel h' => exact absurd h' hab

theorem strLess_iff (s t : String) : strLess s t = true ↔ s < t := by
  rw [String.lt_iff_toList_lt]
  exact ltChars_iff s.data t.data

theorem sortLess_iff (om : List (String × Nat)) (x y : menuResult) :
    sortLess om x y = true ↔ nameKey om x.name < nameKey om y.name := by
  unfold sortLess nameKey
  cases mapGet om x.name <;> cases mapGet om y.name <;>
    simp [Sum.Lex.inl_lt_inl_iff, Sum.Lex.inr_lt_inr_iff, Sum.Lex.inl_lt_inr,
      Sum.Lex.not_inr_lt_inl, strLess_iff]

section InsertionSort

variable {α β : Type} [LinearOrder β] (less : α → α → Bool) (key : α → β)

theorem sinkLeft_perm (x : α) (l : List α) : (sinkLeft less x l).Perm (x :: l) := by
  induction l with
  | nil => exact List.Perm.refl _
  | cons y ys ih =>
    unfold sinkLeft
    split_ifs
    · exact (List.Perm.cons y ih).trans (List.Perm.swap x y ys)
    · exact List.Perm.refl _

theorem sinkLeft_sorted (hless : ∀ a b, less a b = true ↔ key a < key b) (x : α) (l : List α)
    (hl : l.Pairwise (fun a b => key b ≤ key a)) :
    (sinkLeft less x l).Pairwise (fun a b => key b ≤ key a) := by
  induction l with
  | nil => simp [sinkLeft]
  | cons y ys ih =>
    rw [List.pairwise_cons] at hl
    unfold sinkLeft
    split_ifs with h
    · rw [List.pairwise_cons]
      refine ⟨?_, ih hl.2⟩
      intro z hz
      rcases List.mem_cons.mp ((sinkLeft_perm less x ys).mem_iff.mp hz) with hzx | hzy
      · rw [hzx]
        exact le_of_lt ((hless x y).mp h)
      · exact hl.1 z hzy
    · have hyx : key y ≤ key x := not_lt.mp (fun hlt => h ((hless x y).mpr hlt))
      rw [List.pairwise_cons]
      refine ⟨?_, List.pairwise_cons.mpr hl⟩
      intro z hz
      rcases List.mem_cons.mp hz with hzy | hzy
      · rw [hzy]
        exact hyx
      · exact le_trans (hl.1 z hzy) hyx

theorem foldl_sinkLeft_perm (data acc : List α) :
    (data.foldl (fun sortedRev x => sinkLeft less x sortedRev) acc).Perm (data ++ acc) := by
  induction data generalizing acc with
  | nil => exact List.Perm.refl _
  | cons x xs ih =>
    rw [List.foldl_cons]
    refine (ih _).trans ?_
    refine (List.Perm.append_left xs (sinkLeft_perm less x acc)).trans ?_
    exact List.perm_middle

theorem foldl_sinkLeft_sorted (hless : ∀ a b, less a b = true ↔ key a < key b)
    (data acc : List α) (hacc : acc.Pairwise (fun a b => key b ≤ key a)) :
    (data.foldl (fun sortedRev x => sinkLeft less x sortedRev) acc).Pairwise
      (fun a b => key b ≤ key a) := by
  induction data generalizing acc with
  | nil => exact hacc
  | cons x xs ih =>
    rw [List.foldl_cons]
    exact ih _ (sinkLeft_sorted less key hless x acc hacc)

/-- The contract of `sort.Slice`, first half: the result is a permutation. -/
theorem sortSlice_perm (data : List α) : (sortSlice less data).Perm data := by
  unfold sortSlice
  refine (List.reverse_perm _).trans ?_
  simpa using foldl_sinkLeft_perm less data []

/-- The contract of `sort.Slice`, second half: the result is sorted by `less`. -/
theorem sortSlice_sorted (hless : ∀ a b, less a b = true ↔ key a < key b) (data : List α) :
    (sortSlice less data).Pairwise (fun a b => key a ≤ key b) := by
  unfold sortSlice
  rw [List.pairwise_reverse]
  exact foldl_sinkLeft_sorted less key hless data [] List.Pairwise.nil

end InsertionSort

theorem foldl_orderMap_mapGet (l : List String) (hl : l.Nodup) (m0 : List (String × Nat))
    (k : Nat) (n : String) :
    mapGet ((l.enumFrom k).foldl (fun m p => mapSet m p.2 p.1) m0) n =
      if n ∈ l then some (k + l.indexOf n) else mapGet m0 n := by
  induction l generalizing m0 k with
  | nil => simp
  | cons a t ih =>
    rw [List.nodup_cons] at hl
    rw [List.enumFrom_cons, List.foldl_cons, ih hl.2, mapGet_mapSet]
    by_cases hna : a = n
    · subst hna
      simp [hl.1]
    · have hna' : ¬ n = a := fun h => hna h.symm
      by_cases hnt : n ∈ t
      · simp [hnt, hna, List.indexOf_cons_ne _ hna]
        omega
      · simp [hnt, hna, hna']

theorem orderMap_mapGet (l : List String) (hl : l.Nodup) (n : String) :
    mapGet (orderMap l) n = if n ∈ l then some (l.indexOf n) else none := by
  unfold orderMap List.enum
  rw [foldl_orderMap_mapGet l hl [] 0 n]
  simp [mapGet]

theorem nameKey_listed (l : List String) (hl : l.Nodup) (n : String) (hn : n ∈ l) :
    nameKey (orderMap l) n = toLex (Sum.inl (l.indexOf n)) := by
  simp [nameKey, orderMap_mapGet l hl, hn]

theorem nameKey_unlisted (l : List String) (hl : l.Nodup) (n : String) (hn : n ∉ l) :
    nameKey (orderMap l) n = toLex (Sum.inr n) := by
  simp [nameKey, orderMap_mapGet l hl, hn]

theorem nameKey_injective (l : List String) (hl : l.Nodup) (a b : String)
    (h : nameKey (orderMap l) a = nameKey (orderMap l) b) : a = b := by
  by_cases ha : a ∈ l <;> by_cases hb : b ∈ l
  · rw [nameKey_listed l hl a ha, nameKey_listed l hl b hb] at h
    have h2 : l.indexOf a = l.indexOf b := by simpa using h
    exact (List.indexOf_inj ha hb).mp h2
  · rw [nameKey_listed l hl a ha, nameKey_unlisted l hl b hb] at h
    simp at h
  · rw [nameKey_unlisted l hl a ha, nameKey_listed l hl b hb] at h
    simp at h
  · rw [nameKey_unlisted l hl a ha, nameKey_unlisted l hl b hb] at h
    simpa using h

theorem expectedOrder_perm (orderList names : List String) (ho : orderList.Nodup)
    (hn : names.Nodup) : (expectedOrder orderList names).Perm names := by
  unfold expectedOrder
  have h1 : (orderList.filter (fun n => decide (n ∈ names))).Perm
      (names.filter (fun n => decide (n ∈ orderList))) := by
    rw [List.perm_ext_iff_of_nodup (ho.filter _) (hn.filter _)]
    intro a
    simp [and_comm]
  have h2 : (List.insertionSort (fun a b => a ≤ b)
      (names.filter (fun n => decide (n ∉ orderList)))).Perm
      (names.filter (fun n => !decide (n ∈ orderList))) := by
    refine (List.perm_insertionSort _ _).trans ?_
    simp
  exact (List.Perm.append h1 h2).trans (List.filter_append_perm _ names)

theorem orderList_sorted (l : List String) (hl : l.Nodup) :
    l.Pairwise (fun a b => nameKey (orderMap l) a ≤ nameKey (orderMap l) b) := by
  rw [List.pairwise_iff_getElem]
  intro i j hi hj hij
  rw [nameKey_listed l hl _ (List.getElem_mem hi), nameKey_listed l hl _ (List.getElem_mem hj),
    Sum.Lex.inl_le_inl_iff, List.indexOf_getElem hl, List.indexOf_getElem hl]
  exact le_of_lt hij

theorem expectedOrder_sorted (orderList names : List String) (ho : orderList.Nodup) :
    (expectedOrder orderList names).Pairwise
      (fun a b => nameKey (orderMap orderList) a ≤ nameKey (orderMap orderList) b) := by
  unfold expectedOrder
  rw [List.pairwise_append]
  refine ⟨(orderList_sorted orderList ho).sublist (List.filter_sublist _), ?_, ?_⟩
  · have hs : (List.insertionSort (fun a b : String => a ≤ b)
        (names.filter (fun n => decide (n ∉ orderList)))).Pairwise (fun a b => a ≤ b) :=
      List.sorted_insertionSort _ _
    refine hs.imp_of_mem ?_
    intro a b ha hb hab
    have ha' : a ∉ orderList := by
      have := (List.perm_insertionSort _ _).mem_iff.mp ha
      simpa using (List.mem_filter.mp this).2
    have hb' : b ∉ orderList := by
      have := (List.perm_insertionSort _ _).mem_iff.mp hb
      simpa using (List.mem_filter.mp this).2
    rw [nameKey_unlisted _ ho a ha', nameKey_unlisted _ ho b hb', Sum.Lex.inr_le_inr_iff]
    exact hab
  · intro a ha b hb
    have ha' : a ∈ orderList := (List.mem_filter.mp ha).1
    have hb' : b ∉ orderList := by
      have := (List.perm_insertionSort _ _).mem_iff.mp hb
      simpa using (List.mem_filter.mp this).2
    rw [nameKey_listed _ ho a ha', nameKey_unlisted _ ho b hb']
    exact Sum.Lex.inl_le_inr _ _

/-- Every permutation of the results that is sorted by `sortLess` (what `sort.Slice`
promises) lists the names in the expected order. -/
theorem sorted_names_unique (orderList : List String) (ho : orderList.Nodup)
    (results out : List menuResult) (hn : (results.map (fun x => x.name)).Nodup)
    (hperm : out.Perm results)
    (hsorted : out.Pairwise (fun a b => sortLess (orderMap orderList) b a = false)) :
    out.map (fun x => x.name) = expectedOrder orderList (results.map (fun x => x.name)) := by
  haveI : IsAntisymm String
      (fun a b => nameKey (orderMap orderList) a ≤ nameKey (orderMap orderList) b) :=
    ⟨fun a b hab hba => nameKey_injective orderList ho a b (le_antisymm hab hba)⟩
  refine List.eq_of_perm_of_sorted ?_ ?_ (expectedOrder_sorted orderList _ ho)
  · exact (hperm.map _).trans (expectedOrder_perm orderList _ ho hn).symm
  · rw [List.Sorted, List.pairwise_map]
    refine hsorted.imp ?_
    intro a b hab
    rw [← not_lt, ← sortLess_iff]
    simp [hab]

/-! ### C7, C8, C10: column alignment in BuildMenu -/

/-- C7 (failing input): default settings, overlay off, an app `abc` and a menu
`abcdefghij` at root.  The width is 10; the description of the app starts at
column 14, that of the menu at column 16, because the icon literal of the menu has
three characters, of which the alignment keeps two and counts the third and the
blank as part of the name.  A dirbrowser of the same name, whose icon is the single
character, is aligned at column 14.  The first conjunct gives a config text that
`Load` parses to this config. -/
theorem buildMenu_menu_description_column :
    Load id "[app:abc]\ndesc = x\n[menu:abcdefghij]\ndesc = y\n" =
      some (sampleConfig DefaultSettings [sampleApp "abc" "x" ""]
        [sampleMenu "abcdefghij" "y"] [] []) ∧
    (NewRegistry (sampleConfig DefaultSettings [sampleApp "abc" "x" ""]
        [sampleMenu "abcdefghij" "y"] [] [])).Settings.ShowHelp = false ∧
    (NewRegistry (sampleConfig DefaultSettings [sampleApp "abc" "x" ""]
        [sampleMenu "abcdefghij" "y"] [] [])).maxWidth "" = 10 ∧
    (NewRegistry (sampleConfig DefaultSettings [sampleApp "abc" "x" ""]
        [sampleMenu "abcdefghij" "y"] [] [])).BuildMenu sampleEnv (fun _ => false) "" =
      String.intercalate "\n"
        [String.mk ("○ abc".data ++ List.replicate 9 ' ' ++ "x\t\tabc".data),
         String.mk ("â–¸ abcdefghij".data ++ List.replicate 2 ' ' ++ "y\t\tabcdefghij".data)] ∧
    ("○ abc".data ++ List.replicate 9 ' ').length = 14 ∧
    ("â–¸ abcdefghij".data ++ List.replicate 2 ' ').length = 16 ∧
    (NewRegistry (sampleConfig DefaultSettings [sampleApp "abc" "x" ""] []
        [sampleDirbrowser "abcdefghij"] [])).BuildMenu sampleEnv (fun _ => false) "" =
      String.intercalate "\n"
        [String.mk ("○ abc".data ++ List.replicate 9 ' ' ++ "x\t\tabc".data),
         String.mk ("▸ abcdefghij".data ++ List.replicate 2 ' ' ++
           "(3 files)\t\tdirbrowser:abcdefghij".data)] ∧
    ("▸ abcdefghij".data ++ List.replicate 2 ' ').length = 14 := by
  refine ⟨rfl, ?_⟩
  decide

/-- C8 (failing input): default settings and one app with the empty name (section
`[app]`): no configured string holds a NUL, the display prefix has two
characters, `alignDisplayColumn` returns the line unchanged and the output of
`BuildMenu` holds the NUL separator.  The same happens for an app named `x` when
the stopped icon is configured empty.  The first two conjuncts give config texts
that `Load` parses to these configs. -/
theorem buildMenu_keeps_nul :
    Load id "[app]\ndesc = d\n" =
      some (sampleConfig DefaultSettings [sampleApp "" "d" ""] [] [] []) ∧
    Load id "[settings]\nicon_stopped =\n[app:x]\ndesc = d\n" =
      some (sampleConfig { DefaultSettings with IconStopped := "" } [sampleApp "x" "d" ""]
        [] [] []) ∧
    '\x00' ∉ (sampleApp "" "d" "").Name.data ∧ '\x00' ∉ (sampleApp "" "d" "").Desc.data ∧
    '\x00' ∉ DefaultSettings.IconStopped.data ∧ '\x00' ∉ DefaultSettings.IconRunning.data ∧
    (NewRegistry (sampleConfig DefaultSettings [sampleApp "" "d" ""] [] [] [])).BuildMenu
      sampleEnv (fun _ => false) "" = "○ \x00d\t\t" ∧
    '\x00' ∈ ((NewRegistry (sampleConfig DefaultSettings [sampleApp "" "d" ""] [] [] [])).BuildMenu
      sampleEnv (fun _ => false) "").data ∧
    (NewRegistry (sampleConfig { DefaultSettings with IconStopped := "" }
      [sampleApp "x" "d" ""] [] [] [])).BuildMenu sampleEnv (fun _ => false) "" =
      " x\x00d\t\tx" := by
  refine ⟨rfl, rfl, ?_⟩
  decide

/-- C10 (failing input): default settings and one app named `é` (one character, two
bytes in UTF-8): the width that `BuildMenu` pads to is 2, the byte length, and the
line of this longest name has three blanks between the name and the description
(one of padding and the gutter of two).  The first conjunct gives a config text
that `Load` parses to this config. -/
theorem buildMenu_width_counts_bytes :
    Load id "[app:é]\ndesc = d\n" =
      some (sampleConfig DefaultSettings [sampleApp "é" "d" ""] [] [] []) ∧
    (sampleApp "é" "d" "").Name.length = 1 ∧
    (NewRegistry (sampleConfig DefaultSettings [sampleApp "é" "d" ""] [] [] [])).maxWidth "" = 2 ∧
    (NewRegistry (sampleConfig DefaultSettings [sampleApp "é" "d" ""] [] [] [])).BuildMenu
      sampleEnv (fun _ => false) "" =
      String.mk ("○ é".data ++ List.replicate 3 ' ' ++ "d\t\té".data) := by
  refine ⟨rfl, ?_⟩
  decide

/-! ### C9: the fields of a menu line -/

theorem splitOn_no_sep (sep : Char) (a : List Char) (h : sep ∉ a) : splitOn sep a = [a] := by
  induction a with
  | nil => rfl
  | cons c cs ih =>
    rw [List.mem_cons, not_or] at h
    have hc : ¬ c = sep := fun e => h.1 e.symm
    simp [splitOn, hc, ih h.2]

theorem splitOn_append_sep (sep : Char) (a b : List Char) (h : sep ∉ a) :
    splitOn sep (a ++ sep :: b) = a :: splitOn sep b := by
  induction a with
  | nil => simp [splitOn]
  | cons c cs ih =>
    rw [List.mem_cons, not_or] at h
    have hc : ¬ c = sep := fun e => h.1 e.symm
    simp [splitOn, hc, ih h.2]

/-- A line `display\tshortcut\tname` without further tabs splits into its three
fields. -/
theorem splitTab_three (display shortcut name : String) (hd : noTab display)
    (hs : noTab shortcut) (hn : noTab name) :
    SplitTab (display ++ "\t" ++ shortcut ++ "\t" ++ name) = [display, shortcut, name] := by
  unfold SplitTab
  have e : (display ++ "\t" ++ shortcut ++ "\t" ++ name).data =
      display.data ++ '\t' :: (shortcut.data ++ '\t' :: name.data) := by
    simp [String.data_append]
  rw [e, splitOn_append_sep _ _ _ hd, splitOn_append_sep _ _ _ hs, splitOn_no_sep _ _ hn]
  rfl

theorem noTab_append (s t : String) (hs : noTab s) (ht : noTab t) : noTab (s ++ t) := by
  unfold noTab at *
  simp [String.data_append, hs, ht]

theorem noTab_TrimPrefix (s pre : String) (hs : noTab s) : noTab (TrimPrefix s pre) := by
  unfold TrimPrefix
  split_ifs
  · intro h
    exact hs (List.mem_of_mem_drop h)
  · exact hs

theorem noTab_display (icon name desc : String) (hi : noTab icon) (hn : noTab name)
    (hd : noTab desc) : noTab (icon ++ " " ++ name ++ "\x00" ++ desc) := by
  refine noTab_append _ _ (noTab_append _ _ (noTab_append _ _ (noTab_append _ _ hi ?_) hn) ?_) hd
  · unfold noTab; decide
  · unfold noTab; decide

theorem noTab_desc (desc status : String) (hd : noTab desc) (hs : noTab status) :
    noTab (if status ≠ "" then (if desc ≠ "" then desc ++ " " ++ status else status)
      else desc) := by
  split_ifs
  · exact noTab_append _ _ (noTab_append _ _ hd (by unfold noTab; decide)) hs
  · exact hs
  · exact hd

theorem digitChar_ne_tab (d : Nat) (h : d < 10) : Nat.digitChar d ≠ '\t' := by
  interval_cases d <;> decide

theorem toDigitsCore_noTab (fuel n : Nat) (ds : List Char) (h : '\t' ∉ ds) :
    '\t' ∉ Nat.toDigitsCore 10 fuel n ds := by
  induction fuel generalizing n ds with
  | zero => simpa [Nat.toDigitsCore] using h
  | succ f ih =>
    have hcons : '\t' ∉ Nat.digitChar (n % 10) :: ds := by
      rw [List.mem_cons, not_or]
      exact ⟨fun e => digitChar_ne_tab _ (Nat.mod_lt _ (by decide)) e.symm, h⟩
    unfold Nat.toDigitsCore
    simp only
    split_ifs
    · exact hcons
    · exact ih _ _ hcons

theorem noTab_toString_nat (n : Nat) : noTab (toString n) := by
  unfold noTab
  show '\t' ∉ (Nat.repr n).data
  unfold Nat.repr Nat.toDigits
  exact toDigitsCore_noTab _ _ _ (by simp)

/-- C9 (counterexample): for the dirbrowser `d` the third field of `FormatLine` is
`dirbrowser:d`, not the item name `d`; and an app line has four fields when the
configured icon holds a tab. -/
theorem formatLine_dirbrowser_third_field :
    SplitTab ((DirbrowserItem.mk (sampleDirbrowser "d") DefaultSettings).FormatLine
      sampleEnv false) = ["▸ d\x00(3 files)", "", "dirbrowser:d"] ∧
    (DirbrowserItem.mk (sampleDirbrowser "d") DefaultSettings).Name = "d" ∧
    SplitTab ((AppItem.mk (sampleApp "a" "" "") { DefaultSettings with IconStopped := "\t" }).FormatLine
      sampleEnv false) = ["", " a\x00", "", "a"] := by
  decide

/-- C9 (amended): when the icons, name, shortcut, description and status hold no
tab, `FormatLine` of an app and of a menu splits into exactly three fields,
display, `Shortcut()` and `Name()`; `FormatLine` of a dirbrowser whose name and
shortcut hold no tab splits into exactly three fields, display, `Shortcut()` and
`dirbrowser:` followed by `Name()`. -/
theorem formatLine_three_fields (env : Env) (isRunning : Bool) (a : AppItem) (m : MenuItem)
    (d : DirbrowserItem)
    (hai : noTab a.Settings.IconRunning ∧ noTab a.Settings.IconStopped)
    (han : noTab a.App.Name ∧ noTab a.App.Shortcut)
    (had : noTab a.App.Desc ∧ noTab (a.getStatus env))
    (hmn : noTab m.Menu.Name ∧ noTab m.Menu.Shortcut)
    (hmd : noTab m.Menu.Desc ∧ noTab (m.getStatus env))
    (hdn : noTab d.Dirbrowser.Name ∧ noTab d.Dirbrowser.Shortcut) :
    (∃ display, SplitTab (a.FormatLine env isRunning) = [display, a.Shortcut, a.Name]) ∧
    (∃ display, SplitTab (m.FormatLine env isRunning) = [display, m.Shortcut, m.Name]) ∧
    (∃ display, SplitTab (d.FormatLine env isRunning) =
      [display, d.Shortcut, "dirbrowser:" ++ d.Name]) := by
  refine ⟨⟨_, splitTab_three _ _ _ ?_ han.2 han.1⟩, ⟨_, splitTab_three _ _ _ ?_ hmn.2 hmn.1⟩,
    ⟨_, splitTab_three _ _ _ ?_ hdn.2 ?_⟩⟩
  · refine noTab_display _ _ _ ?_ ?_ (noTab_desc _ _ had.1 had.2)
    · split_ifs
      · exact hai.1
      · exact hai.2
    · unfold AppItem.DisplayName
      split_ifs
      · exact noTab_TrimPrefix _ _ han.1
      · exact han.1
  · exact noTab_display _ _ _ (by unfold noTab; decide) hmn.1 (noTab_desc _ _ hmd.1 hmd.2)
  · refine noTab_display _ _ _ (by unfold noTab; decide) hdn.1 ?_
    split_ifs
    · unfold noTab; decide
    · unfold noTab; decide
    · exact noTab_append _ _ (noTab_append _ _ (by unfold noTab; decide)
        (noTab_toString_nat _)) (by unfold noTab; decide)
  · exact noTab_append _ _ (by unfold noTab; decide) hdn.1

/-- C9 (witness): the amended statement at the app `a` with shortcut `alt-a`, the
menu `m` and the dirbrowser `d`, under the default settings. -/
theorem formatLine_three_fields_witness :
    (∃ display, SplitTab ((AppItem.mk (sampleApp "a" "x" "alt-a") DefaultSettings).FormatLine
      sampleEnv false) = [display, "alt-a", "a"]) ∧
    (∃ display, SplitTab ((MenuItem.mk (sampleMenu "m" "y") DefaultSettings).FormatLine
      sampleEnv false) = [display, "", "m"]) ∧
    (∃ display, SplitTab ((DirbrowserItem.mk (sampleDirbrowser "d") DefaultSettings).FormatLine
      sampleEnv false) = [display, "", "dirbrowser:d"]) :=
  formatLine_three_fields sampleEnv false (AppItem.mk (sampleApp "a" "x" "alt-a") DefaultSettings)
    (MenuItem.mk (sampleMenu "m" "y") DefaultSettings)
    (DirbrowserItem.mk (sampleDirbrowser "d") DefaultSettings)
    ⟨by unfold noTab; decide, by unfold noTab; decide⟩
    ⟨by unfold noTab; decide, by unfold noTab; decide⟩
    ⟨by unfold noTab; decide, by unfold noTab; decide⟩
    ⟨by unfold noTab; decide, by unfold noTab; decide⟩
    ⟨by unfold noTab; decide, by unfold noTab; decide⟩
    ⟨by unfold noTab; decide, by unfold noTab; decide⟩

/-! ### C3: a value continued over three lines -/

theorem dropWhile_append_stop {p : Char → Bool} (a b : List Char) (c : Char) (hc : p c = false) :
    (a ++ c :: b).dropWhile p = a.dropWhile p ++ c :: b := by
  induction a with
  | nil => simp [List.dropWhile, hc]
  | cons x xs ih =>
    by_cases hx : p x = true
    · simp [List.dropWhile, hx, ih]
    · simp [List.dropWhile, hx]

theorem dropWhile_head_false {p : Char → Bool} (l : List Char) (c : Char) (r : List Char)
    (h : l.dropWhile p = c :: r) : p c = false := by
  induction l with
  | nil => simp at h
  | cons x xs ih =>
    by_cases hx : p x = true
    · simp only [List.dropWhile, hx] at h
      exact ih h
    · simp only [List.dropWhile, hx] at h
      injection h with h1 h2
      rw [← h1]
      simpa using hx

theorem trimLeft_append_stop (a b : List Char) (c : Char) (hc : isSpace c = false) :
    trimLeft (a ++ c :: b) = trimLeft a ++ c :: b :=
  dropWhile_append_stop a b c hc

theorem trimRight_append_stop (a : List Char) (c : Char) (hc : isSpace c = false) :
    trimRight (a ++ [c]) = a ++ [c] := by
  simp [trimRight, List.dropWhile, hc]

theorem trimRight_cons_stop (a : List Char) (c : Char) (hc : isSpace c = false) :
    trimRight (c :: a) = c :: trimRight a := by
  unfold trimRight
  rw [List.reverse_cons, ← List.nil_append [c], ← List.append_assoc,
    show a.reverse ++ [] ++ [c] = a.reverse ++ c :: [] by simp,
    dropWhile_append_stop _ _ _ hc]
  simp

theorem trimRight_append_space (a : List Char) (s : Char) (hs : isSpace s = true) :
    trimRight (a ++ [s]) = trimRight a := by
  simp [trimRight, List.dropWhile, hs]

theorem span_append_stop {p : Char → Bool} (a b : List Char) (c : Char)
    (ha : ∀ x ∈ a, p x = true) (hc : p c = false) : (a ++ c :: b).span p = (a, c :: b) := by
  induction a with
  | nil => simp [List.span_eq_take_drop, List.takeWhile, List.dropWhile, hc]
  | cons x xs ih =>
    have hx : p x = true := ha x (List.mem_cons_self _ _)
    have ih' := ih (fun y hy => ha y (List.mem_cons_of_mem _ hy))
    simp only [List.span_eq_take_drop] at ih' ⊢
    injection ih' with h1 h2
    simp [List.takeWhile, List.dropWhile, hx, h1, h2]

theorem backslash_not_space : isSpace '\\' = false := by decide

theorem space_isSpace : isSpace ' ' = true := by decide

theorem dropWhile_append_of_cons {p : Char → Bool} (a b : List Char) (c : Char) (r : List Char)
    (h : a.dropWhile p = c :: r) : (a ++ b).dropWhile p = c :: r ++ b := by
  induction a with
  | nil => simp at h
  | cons x xs ih =>
    by_cases hx : p x = true
    · simp only [List.dropWhile, hx] at h
      simp [List.dropWhile, hx, ih h]
    · simp only [List.dropWhile, hx] at h
      injection h with h1 h2
      subst h1 h2
      simp [List.dropWhile, hx]

theorem trimSpace_first_line (key f1 : String) (c : Char) (r : List Char)
    (hK : trimLeft key.data = c :: r) :
    TrimSpace (key ++ " = " ++ f1 ++ "\\") =
      String.mk ((c :: r ++ [' ']) ++ '=' :: (' ' :: f1.data ++ ['\\'])) := by
  unfold TrimSpace
  have e : (key ++ " = " ++ f1 ++ "\\").data =
      key.data ++ (' ' :: '=' :: ' ' :: f1.data ++ ['\\']) := by
    simp [String.data_append]
  rw [e]
  unfold trimLeft at hK ⊢
  rw [dropWhile_append_of_cons _ _ _ _ hK]
  have e2 : c :: r ++ (' ' :: '=' :: ' ' :: f1.data ++ ['\\']) =
      (c :: r ++ ' ' :: '=' :: ' ' :: f1.data) ++ ['\\'] := by simp
  rw [e2, trimRight_append_stop _ _ backslash_not_space]
  simp

theorem trimSpace_key_part (key : String) (c : Char) (r : List Char)
    (hK : trimLeft key.data = c :: r) :
    TrimSpace (String.mk (c :: r ++ [' '])) = TrimSpace key := by
  have hc : isSpace c = false := dropWhile_head_false _ _ _ hK
  unfold TrimSpace
  rw [hK]
  have : trimLeft (String.mk (c :: r ++ [' '])).data = c :: r ++ [' '] := by
    simp [trimLeft, List.dropWhile, hc]
  rw [this, trimRight_append_space _ _ space_isSpace]

theorem trimSpace_value_part (f : List Char) :
    TrimSpace (String.mk (' ' :: f ++ ['\\'])) = String.mk (trimLeft f ++ ['\\']) := by
  unfold TrimSpace
  have h1 : trimLeft (String.mk (' ' :: f ++ ['\\'])).data = trimLeft f ++ ['\\'] := by
    show trimLeft (' ' :: (f ++ ['\\'])) = _
    rw [show trimLeft (' ' :: (f ++ ['\\'])) = trimLeft (f ++ ['\\']) by
      simp [trimLeft, List.dropWhile, space_isSpace]]
    exact trimLeft_append_stop f [] '\\' backslash_not_space
  rw [h1, trimRight_append_stop _ _ backslash_not_space]

theorem trimSpace_continued_line (f : String) :
    TrimSpace (f ++ "\\") = String.mk (trimLeft f.data ++ ['\\']) := by
  unfold TrimSpace
  have e : (f ++ "\\").data = f.data ++ ['\\'] := by simp [String.data_append]
  rw [e, trimLeft_append_stop f.data [] '\\' backslash_not_space,
    trimRight_append_stop _ _ backslash_not_space]

theorem hasSuffix_backslash (a : List Char) : HasSuffix (String.mk (a ++ ['\\'])) "\\" = true := by
  simp [HasSuffix, List.isPrefixOf]

theorem trimSuffix_backslash (a : List Char) :
    TrimSuffix (String.mk (a ++ ['\\'])) "\\" = String.mk a := by
  unfold TrimSuffix
  rw [hasSuffix_backslash]
  simp

theorem matchSection_backslash (a : List Char) : matchSection (String.mk (a ++ ['\\'])) = none := by
  unfold matchSection
  cases a with
  | nil => simp
  | cons x xs =>
    simp only [List.cons_append]
    split
    · rename_i rest heq
      injection heq with h1 h2
      rw [← h2, List.reverse_append]
      simp
    · rfl

/-- The first physical line `key = f1\` read outside a continuation: the key and the
start of the value are kept for the lines that follow. -/
theorem step_first_line (joinHome : String → String) (st : LoadState) (key f1 : String)
    (hst : st.continuationKey = "")
    (hk1 : TrimSpace key ≠ "") (hk2 : '=' ∉ key.data)
    (hk3 : HasPrefix (TrimSpace key) "#" = false) (hf1 : '\n' ∉ f1.data) :
    Load.step joinHome st (key ++ " = " ++ f1 ++ "\\") =
      { st with
        continuationKey := TrimSpace key
        continuationValue := st.continuationValue ++ String.mk (trimLeft f1.data) ++ " " } := by
  obtain ⟨c, r, hK⟩ : ∃ c r, trimLeft key.data = c :: r := by
    cases h : trimLeft key.data with
    | nil =>
      exfalso
      apply hk1
      simp [TrimSpace, h, trimRight]
    | cons c r => exact ⟨c, r, rfl⟩
  have hc : isSpace c = false := dropWhile_head_false _ _ _ hK
  have hcne : c ≠ '#' := by
    intro e
    have : TrimSpace key = String.mk (c :: trimRight r) := by
      simp [TrimSpace, hK, trimRight_cons_stop _ _ hc]
    rw [this, e] at hk3
    simp [HasPrefix, List.isPrefixOf] at hk3
  have hmem : ∀ x ∈ c :: r ++ [' '], (x != '=') = true := by
    intro x hx
    rw [List.mem_append] at hx
    rcases hx with hx | hx
    · have : x ∈ key.data := by
        rw [← hK] at hx
        exact (List.dropWhile_sublist _).subset hx
      simp only [bne_iff_ne, ne_eq]
      intro e
      exact hk2 (e ▸ this)
    · simp only [List.mem_singleton] at hx
      rw [hx]
      decide
  unfold Load.step
  simp only [trimSpace_first_line key f1 c r hK]
  have h1 : ¬ (String.mk ((c :: r ++ [' ']) ++ '=' :: (' ' :: f1.data ++ ['\\'])) = "" ∨
      HasPrefix (String.mk ((c :: r ++ [' ']) ++ '=' :: (' ' :: f1.data ++ ['\\']))) "#" = true) := by
    rw [not_or]
    constructor
    · intro h
      have := congrArg String.data h
      simp at this
    · simp [HasPrefix, List.isPrefixOf, hcne.symm]
  have h2 : matchSection (String.mk ((c :: r ++ [' ']) ++ '=' :: (' ' :: f1.data ++ ['\\']))) =
      none := by
    have := matchSection_backslash ((c :: r ++ [' ']) ++ '=' :: ' ' :: f1.data)
    simpa using this
  have h3 : matchKeyValue (String.mk ((c :: r ++ [' ']) ++ '=' :: (' ' :: f1.data ++ ['\\']))) =
      some (String.mk (c :: r ++ [' ']), String.mk (' ' :: f1.data ++ ['\\'])) := by
    unfold matchKeyValue
    simp only [span_append_stop (p := fun c => c != '=') (c :: r ++ [' '])
      (' ' :: f1.data ++ ['\\']) '=' hmem (by decide)]
    have : '\n' ∉ ' ' :: f1.data ++ ['\\'] := by
      simp [hf1]
    simp [this, hf1]
  simp only [h1, if_false, hst, ne_eq, not_true_eq_false, h2, h3,
    trimSpace_key_part key c r hK, trimSpace_value_part, hasSuffix_backslash, if_true,
    trimSuffix_backslash]

/-- A middle physical line `f2\` of a continued value. -/
theorem step_middle_line (joinHome : String → String) (st : LoadState) (f2 : String)
    (hst : st.continuationKey ≠ "")
    (hf2 : HasPrefix (TrimSpace (f2 ++ "\\")) "#" = false) :
    Load.step joinHome st (f2 ++ "\\") =
      { st with
        continuationValue := st.continuationValue ++ String.mk (trimLeft f2.data) ++ " " } := by
  unfold Load.step
  have h1 : ¬ (TrimSpace (f2 ++ "\\") = "" ∨ HasPrefix (TrimSpace (f2 ++ "\\")) "#" = true) := by
    rw [not_or]
    constructor
    · rw [trimSpace_continued_line]
      intro h
      have := congrArg String.data h
      simp at this
    · simp [hf2]
  simp only [h1, if_false, hst, ne_eq, not_false_eq_true, if_true]
  simp only [trimSpace_continued_line, hasSuffix_backslash, if_true, trimSuffix_backslash]

/-- The last physical line of a continued value. -/
theorem step_last_line (joinHome : String → String) (st : LoadState) (f3 : String)
    (hst : st.continuationKey ≠ "")
    (hf3a : TrimSpace f3 ≠ "") (hf3b : HasPrefix (TrimSpace f3) "#" = false)
    (hf3c : HasSuffix (TrimSpace f3) "\\" = false) :
    Load.step joinHome st f3 =
      { st with
        sectionData := mapSet st.sectionData st.continuationKey
          (st.continuationValue ++ TrimSpace f3)
        continuationKey := ""
        continuationValue := "" } := by
  unfold Load.step
  simp [hf3a, hf3b, hf3c, hst]

/-- C3 (failing input): in the section `[app:x]` the three physical lines
`cmd = a \`, `b \` and `c` give the command `a  b  c`, with two blanks at each
joint, not the trimmed fragments joined by one blank, `a b c`: the blank before a
backslash is kept and the joining blank is added to it.  (A backslash inside a
fragment remains; only the trailing one of a line is removed.) -/
theorem load_continuation_keeps_blanks :
    (Load id "[app:x]\ncmd = a \\\nb \\\nc\n").map
      (fun cfg => cfg.Apps.map (fun a => a.Cmd)) = some ["a  b  c"] ∧
    (TrimSpace "a " ++ " " ++ TrimSpace "b " ++ " " ++ TrimSpace "c") = "a b c" ∧
    (Load id "[app:x]\ncmd = a\\b\\\nc\\\nd\n").map
      (fun cfg => cfg.Apps.map (fun a => a.Cmd)) = some ["a\\b c d"] := by
  decide

/-- The extent of the defect of C3, in general: read outside a continued value, the
three physical lines `key = f1\`, `f2\`, `f3` (a key that is not blank, holds no `=` and does not start a
comment; second and third line no comment; third line not blank and not ending in
a backslash) store under the trimmed key one value: the first two fragments with
their leading white space removed, white space before the backslash kept, and the
third fragment trimmed, joined by one blank each; only the final backslash of the
first two lines is removed. -/
theorem load_continuation_three_lines (joinHome : String → String) (st : LoadState)
    (key f1 f2 f3 : String)
    (hst : st.continuationKey = "" ∧ st.continuationValue = "")
    (hk1 : TrimSpace key ≠ "") (hk2 : '=' ∉ key.data)
    (hk3 : HasPrefix (TrimSpace key) "#" = false) (hf1 : '\n' ∉ f1.data)
    (hf2 : HasPrefix (TrimSpace (f2 ++ "\\")) "#" = false)
    (hf3a : TrimSpace f3 ≠ "") (hf3b : HasPrefix (TrimSpace f3) "#" = false)
    (hf3c : HasSuffix (TrimSpace f3) "\\" = false) :
    [key ++ " = " ++ f1 ++ "\\", f2 ++ "\\", f3].foldl (Load.step joinHome) st =
      { st with
        sectionData := mapSet st.sectionData (TrimSpace key)
          (String.mk (trimLeft f1.data) ++ " " ++ String.mk (trimLeft f2.data) ++ " " ++
            TrimSpace f3) } := by
  simp only [List.foldl_cons, List.foldl_nil]
  rw [step_first_line joinHome st key f1 hst.1 hk1 hk2 hk3 hf1]
  rw [step_middle_line joinHome _ f2 hk1 hf2]
  rw [step_last_line joinHome _ f3 hk1 hf3a hf3b hf3c]
  obtain ⟨h1, h2⟩ := hst
  cases st
  simp only at h1 h2
  subst h1 h2
  simp [String.append_assoc]

/-- An instance of the general form: after the header `[app:x]`, the lines
`cmd = a \`, ` b\` and ` c ` store the value `a  b c` under `cmd`. -/
theorem load_continuation_three_lines_witness :
    ["cmd" ++ " = " ++ "a " ++ "\\", " b" ++ "\\", " c "].foldl (Load.step id)
        (["[app:x]"].foldl (Load.step id) Load.init) =
      { (["[app:x]"].foldl (Load.step id) Load.init) with
        sectionData := mapSet (["[app:x]"].foldl (Load.step id) Load.init).sectionData
          (TrimSpace "cmd")
          (String.mk (trimLeft "a ".data) ++ " " ++ String.mk (trimLeft " b".data) ++ " " ++
            TrimSpace " c ") } ∧
    (String.mk (trimLeft "a ".data) ++ " " ++ String.mk (trimLeft " b".data) ++ " " ++
            TrimSpace " c ") = "a  b c" :=
  ⟨load_continuation_three_lines id (["[app:x]"].foldl (Load.step id) Load.init)
    "cmd" "a " " b" " c " (by decide) (by decide) (by decide) (by decide) (by decide)
    (by decide) (by decide) (by decide) (by decide), by decide⟩

/-! ### C14: the action chain for a pressed key -/

/-- C14: for a non-empty key, `resolveAction` is the first match of the fixed chain:
the seven direct actions in the order popup, window, background window, pane
right, left, above, below, then the secondary action for the secondary key, else
the primary action; with `PaneRightKey = ctrl-l` and the other six direct-action
keys unset, `ctrl-l` resolves to `pane_right` whatever the actions are. -/
theorem resolveAction_chain (settings : Settings) (k : String) (hk : k ≠ "") :
    resolveAction k settings =
      (if k = settings.PopupKey then ActionPopup
       else if k = settings.WindowKey then ActionWindow
       else if k = settings.BackgroundWindowKey then ActionBackgroundWindow
       else if k = settings.PaneRightKey then ActionPaneRight
       else if k = settings.PaneLeftKey then ActionPaneLeft
       else if k = settings.PaneAboveKey then ActionPaneAbove
       else if k = settings.PaneBelowKey then ActionPaneBelow
       else if k = settings.SecondaryKey then settings.SecondaryAction
       else settings.PrimaryAction) ∧
    (settings.PaneRightKey = "ctrl-l" → settings.PopupKey = "" → settings.WindowKey = "" →
      settings.BackgroundWindowKey = "" → settings.PaneLeftKey = "" →
      settings.PaneAboveKey = "" → settings.PaneBelowKey = "" →
      resolveAction "ctrl-l" settings = ActionPaneRight) := by
  constructor
  · unfold resolveAction
    simp only [hk, false_or, ite_self]
  · intro h1 h2 h3 h4 _ _ _
    have hne : ¬ ("ctrl-l" = "") := by decide
    unfold resolveAction
    simp only [h1, h2, h3, h4, hne, if_false, if_true]

/-- C14 (witness): the key `ctrl-l` under the default settings with
`pane_right_key = ctrl-l` resolves to `pane_right`. -/
theorem resolveAction_chain_witness :
    resolveAction "ctrl-l" { DefaultSettings with PaneRightKey := "ctrl-l" } = ActionPaneRight :=
  (resolveAction_chain { DefaultSettings with PaneRightKey := "ctrl-l" } "ctrl-l"
    (by decide)).2 rfl rfl rfl rfl rfl rfl rfl

/-! ### C15, C16: errors and shortcuts of the validator -/

theorem mapSet_length_of_absent {β : Type} (m : List (String × β)) (k : String) (v : β)
    (h : mapGet m k = none) : (mapSet m k v).length = m.length + 1 := by
  induction m with
  | nil => rfl
  | cons p rest ih =>
    obtain ⟨a, b⟩ := p
    by_cases hak : a = k
    · simp [mapGet, hak] at h
    · simp only [mapGet, hak, if_false] at h
      simp [mapSet, hak, ih h]

theorem validateShortcut_none_absent (key name : String) (s : Settings)
    (registered : List (String × String)) (hk : key ≠ "")
    (h : ValidateShortcut key name s registered = none) :
    mapGet registered (ToLower key) = none := by
  unfold ValidateShortcut at h
  simp only [hk, if_false] at h
  split_ifs at h
  split at h
  · cases h
  · split at h
    · cases h
    · assumption

/-- One call of `Register` adds one error or one shortcut when the key is not
empty, and nothing when it is. -/
theorem register_count (v : ShortcutValidator) (sc name : String) :
    (v.Register sc name).2.errors.length + (v.Register sc name).2.registered.length =
      v.errors.length + v.registered.length + (if sc = "" then 0 else 1) := by
  unfold ShortcutValidator.Register
  by_cases hsc : sc = ""
  · simp [hsc]
  · simp only [hsc, if_false]
    cases hv : ValidateShortcut sc name v.settings v.registered with
    | some err =>
      simp only [List.length_append, List.length_singleton]
      omega
    | none =>
      simp only [mapSet_length_of_absent _ _ _ (validateShortcut_none_absent _ _ _ _ hsc hv)]
      omega

theorem registerAll_count (es : List (String × String)) (v : ShortcutValidator) :
    (es.foldl (fun v e => (v.Register e.1 e.2).2) v).errors.length +
      (es.foldl (fun v e => (v.Register e.1 e.2).2) v).registered.length =
    v.errors.length + v.registered.length + (es.filter (fun e => decide (e.1 ≠ ""))).length := by
  induction es generalizing v with
  | nil => simp
  | cons e rest ih =>
    rw [List.foldl_cons, ih, register_count]
    by_cases he : e.1 = ""
    · simp [he]
    · simp [he]
      omega

theorem foldl_pair_fst {α : Type} (l : List α) (f : α → Item) (sc nm : α → String)
    (st : List Item × ShortcutValidator) :
    (l.foldl (fun (st : List Item × ShortcutValidator) a =>
      (st.1 ++ [f a], (st.2.Register (sc a) (nm a)).2)) st).1 = st.1 ++ l.map f := by
  induction l generalizing st with
  | nil => simp
  | cons a rest ih => simp only [List.foldl_cons, List.map_cons, ih, List.append_assoc,
      List.singleton_append]

/-- C15: whatever shortcuts are rejected, the items of `NewRegistry` are one per app,
then one per menu, then one per dirbrowser, in configuration order, and the
number of validation errors plus the number of registered shortcuts is the
number of entities whose shortcut is not empty. -/
theorem newRegistry_items_and_counts (cfg : Config) :
    (NewRegistry cfg).Items =
      cfg.Apps.map (fun app => Item.app { App := app, Settings := cfg.Settings }) ++
      cfg.Menus.map (fun menu => Item.menu { Menu := menu, Settings := cfg.Settings }) ++
      cfg.Dirbrowsers.map (fun db =>
        Item.dirbrowser { Dirbrowser := db, Settings := cfg.Settings }) ∧
    (NewRegistry cfg).ValidationErrors.length + (NewRegistry cfg).Shortcuts.length =
      (cfg.Apps.filter (fun a => decide (a.Shortcut ≠ ""))).length +
      (cfg.Menus.filter (fun m => decide (m.Shortcut ≠ ""))).length +
      (cfg.Dirbrowsers.filter (fun d => decide (d.Shortcut ≠ ""))).length := by
  constructor
  · simp only [NewRegistry, NewRegistry.loops, foldl_pair_fst, List.nil_append]
  · have h1 : (NewRegistry cfg).ValidationErrors = (NewRegistry.loops cfg).2.errors := rfl
    have h2 : (NewRegistry cfg).Shortcuts = (NewRegistry.loops cfg).2.registered := rfl
    rw [h1, h2, loops_validator, registerAll_count]
    simp only [NewShortcutValidator, List.length_nil, Config.entities, List.filter_append,
      List.length_append, List.filter_map, List.length_map, Function.comp_def]
    omega

/-- For a whitelisted key that is not reserved, `ValidateShortcut` is decided by the
registered map alone. -/
theorem validateShortcut_of_valid (settings : Settings) (registered : List (String × String))
    (n k : String) (hw : ToLower k ∈ SupportedFzfKeys)
    (hr : mapGet (GetReservedKeys settings) (ToLower k) = none) :
    ValidateShortcut k n settings registered =
      match mapGet registered (ToLower k) with
      | some existingItem =>
        some { Key := k, ItemName := n,
               Message := "'" ++ k ++ "' is already used by '" ++ existingItem ++ "'" }
      | none => none := by
  have hk : k ≠ "" := by
    intro h
    subst h
    exact empty_not_supported hw
  have hv : IsValidFzfKey (ToLower k) = true := by
    simp [IsValidFzfKey, ToLower_idem, hw]
  unfold ValidateShortcut
  simp only [hk, if_false, hv, not_true_eq_false, hr]

/-- C16: on a fresh validator, for a whitelisted key that is not reserved and two
different item names, the first `Register` returns nil, the second returns the
"already used by" error naming the first item, `Errors` holds exactly that error,
and `Shortcuts` is unchanged by the rejected call and maps the lower-cased key to
the first item. -/
theorem register_twice (settings : Settings) (k a b : String) (_hab : a ≠ b)
    (hw : ToLower k ∈ SupportedFzfKeys)
    (hr : mapGet (GetReservedKeys settings) (ToLower k) = none) :
    ((NewShortcutValidator settings).Register k a).1 = none ∧
    (((NewShortcutValidator settings).Register k a).2.Register k b).1 =
      some { Key := k, ItemName := b,
             Message := "'" ++ k ++ "' is already used by '" ++ a ++ "'" } ∧
    (((NewShortcutValidator settings).Register k a).2.Register k b).2.Errors =
      [{ Key := k, ItemName := b,
         Message := "'" ++ k ++ "' is already used by '" ++ a ++ "'" }] ∧
    (((NewShortcutValidator settings).Register k a).2.Register k b).2.Shortcuts =
      ((NewShortcutValidator settings).Register k a).2.Shortcuts ∧
    mapGet (((NewShortcutValidator settings).Register k a).2.Register k b).2.Shortcuts
      (ToLower k) = some a := by
  have hk : k ≠ "" := by
    intro h
    subst h
    exact empty_not_supported hw
  have hv1 : ValidateShortcut k a settings [] = none := by
    rw [validateShortcut_of_valid settings [] a k hw hr]
    rfl
  have e1 : (NewShortcutValidator settings).Register k a =
      (none, { settings := settings, registered := [(ToLower k, a)], errors := [] }) := by
    simp [ShortcutValidator.Register, NewShortcutValidator, hk, hv1, mapSet]
  have hv2 : ValidateShortcut k b settings [(ToLower k, a)] =
      some { Key := k, ItemName := b,
             Message := "'" ++ k ++ "' is already used by '" ++ a ++ "'" } := by
    rw [validateShortcut_of_valid settings [(ToLower k, a)] b k hw hr]
    simp [mapGet]
  have e2 : ({ settings := settings, registered := [(ToLower k, a)], errors := [] } :
      ShortcutValidator).Register k b =
      (some { Key := k, ItemName := b,
              Message := "'" ++ k ++ "' is already used by '" ++ a ++ "'" },
       { settings := settings, registered := [(ToLower k, a)],
         errors := [{ Key := k, ItemName := b,
                      Message := "'" ++ k ++ "' is already used by '" ++ a ++ "'" }] }) := by
    simp [ShortcutValidator.Register, hk, hv2]
  rw [e1]
  simp only [e2, ShortcutValidator.Errors, ShortcutValidator.Shortcuts, mapGet, if_true,
    and_self]

/-- C16 (witness): the key `ALT-A` registered for `app1` and then for `app3` under the
default settings. -/
theorem register_twice_witness :
    ((NewShortcutValidator DefaultSettings).Register "ALT-A" "app1").1 = none ∧
    (((NewShortcutValidator DefaultSettings).Register "ALT-A" "app1").2.Register
        "ALT-A" "app3").1 =
      some { Key := "ALT-A", ItemName := "app3",
             Message := "'" ++ "ALT-A" ++ "' is already used by '" ++ "app1" ++ "'" } ∧
    mapGet (((NewShortcutValidator DefaultSettings).Register "ALT-A" "app1").2.Register
        "ALT-A" "app3").2.Shortcuts "alt-a" = some "app1" :=
  have h := register_twice DefaultSettings "ALT-A" "app1" "app3" (by decide) (by decide)
    (by decide)
  ⟨h.1, h.2.1, h.2.2.2.2⟩

/-! ### C11: the width of the shortcut label -/

/-- C11 (failing input): the whitelisted key `ctrl-space`, which no default setting
reserves.  `addShortcutPrefix` gives it the label `[ctrl-space]`, 12 characters
wide, while `alt-a` gets the label `[alt-a]` padded to 9 characters and a line
without shortcut gets 9 blanks; in the menu of a config with `show_help = true`
and apps with the shortcuts `alt-a`, `ctrl-space` and none, the display text of
the second line starts three columns to the right of the others. -/
theorem addShortcutPrefix_long_key :
    "ctrl-space" ∈ SupportedFzfKeys ∧
    ValidateShortcut "ctrl-space" "b" DefaultSettings [] = none ∧
    addShortcutPrefix "x\tctrl-space\tname" =
      String.mk ("\x1b[38;5;244m".data ++ "[ctrl-space]".data ++ "\x1b[0m│ ".data ++
        "x\tctrl-space\tname".data) ∧
    "[ctrl-space]".length = 12 ∧
    addShortcutPrefix "x\talt-a\tname" =
      String.mk ("\x1b[38;5;244m".data ++ "[alt-a]  ".data ++ "\x1b[0m│ ".data ++
        "x\talt-a\tname".data) ∧
    "[alt-a]  ".length = 9 ∧
    addShortcutPrefix "x\t\tname" = String.mk ("         ".data ++ "│ ".data ++ "x\t\tname".data) ∧
    "         ".length = 9 ∧
    (Load id ("[settings]\nshow_help = true\n[app:a]\nshortcut = alt-a\n" ++
        "[app:b]\nshortcut = ctrl-space\n[app:c]\ndesc = x\n")).map
        (fun cfg => (NewRegistry cfg).BuildMenu sampleEnv (fun _ => false) "") =
      some (String.intercalate "\n"
        ["\x1b[38;5;244m[alt-a]  \x1b[0m│ ○ a  \talt-a\ta",
         "\x1b[38;5;244m[ctrl-space]\x1b[0m│ ○ b  \tctrl-space\tb",
         "         │ ○ c  x\t\tc"]) := by
  decide

/-! ### Blank lines and comments among the scanned lines (lemmas for C19) -/

theorem ofLines_eq_finish (joinHome : String → String) (lines : List String) :
    Load.ofLines joinHome lines = Load.finish joinHome (lines.foldl (Load.step joinHome) Load.init) :=
  rfl

theorem step_skip (joinHome : String → String) (st : LoadState) (l : String)
    (hl : TrimSpace l = "" ∨ HasPrefix (TrimSpace l) "#" = true) :
    Load.step joinHome st l = st := by
  unfold Load.step
  simp only [hl, if_true]

/-! ### The app of an open app section (lemmas for C20) -/

theorem parseApp_name_parent (name : String) (data : List (String × String)) :
    (parseApp name data).Name = name ∧ (parseApp name data).Parent = "" := by
  induction data using List.reverseRecOn with
  | nil => exact ⟨rfl, rfl⟩
  | append_singleton l kv ih =>
    unfold parseApp at ih ⊢
    rw [List.foldl_append, List.foldl_cons, List.foldl_nil]
    constructor
    · simp only [apply_ite App.Name, ite_self]
      exact ih.1
    · simp only [apply_ite App.Parent, ite_self]
      exact ih.2

theorem flushSection_apps (joinHome : String → String) (cfg : Config) (ty name : String)
    (data : List (String × String)) :
    (flushSection joinHome cfg ty name data).Apps =
      cfg.Apps ++ (if ty = "app" ∧ data ≠ [] then [parseApp name data] else []) := by
  unfold flushSection
  by_cases h0 : ty = "" ∨ (data.length = 0 ∧ ty ≠ "order")
  · rw [if_pos h0]
    have hn : ¬ (ty = "app" ∧ data ≠ []) := by
      rintro ⟨hty, hd⟩
      rcases h0 with h | ⟨h, _⟩
      · rw [hty] at h
        exact absurd h (by decide)
      · exact hd (List.length_eq_zero.mp h)
    rw [if_neg hn, List.append_nil]
  · rw [if_neg h0]
    by_cases hty : ty = "app"
    · have hp : ty = "app" ∧ data ≠ [] :=
        ⟨hty, fun hd => h0 (Or.inr ⟨by rw [hd]; rfl, by rw [hty]; decide⟩)⟩
      rw [if_pos hty, if_pos hp]
    · rw [if_neg hty, if_neg (fun h : ty = "app" ∧ data ≠ [] => hty h.1), List.append_nil]
      simp only [apply_ite Config.Apps, ite_self]

theorem mapSet_ne_nil {β : Type} (m : List (String × β)) (k : String) (v : β) :
    mapSet m k v ≠ [] := by
  cases m with
  | nil => simp [mapSet]
  | cons p rest =>
    obtain ⟨a, b⟩ := p
    unfold mapSet
    split_ifs <;> simp

theorem handleOrderLine_apps (cfg : Config) (s l : String) :
    (handleOrderLine cfg s l).Apps = cfg.Apps := by
  unfold handleOrderLine
  simp only
  split_ifs <;> rfl

theorem appPending_of_same (name : String) (st st' : LoadState) (h : appPending name st)
    (h1 : st'.sectionType = st.sectionType) (h2 : st'.sectionName = st.sectionName)
    (h3 : st.sectionData ≠ [] → st'.sectionData ≠ []) (h4 : st'.cfg.Apps = st.cfg.Apps) :
    appPending name st' := by
  rcases h with h | h
  · exact Or.inl ⟨h1.trans h.1, h2.trans h.2.1, h3 h.2.2⟩
  · right
    rw [h4]
    exact h

theorem step_appPending (joinHome : String → String) (name : String) (st : LoadState)
    (l : String) (h : appPending name st) : appPending name (Load.step joinHome st l) := by
  unfold Load.step
  by_cases h1 : TrimSpace l = "" ∨ HasPrefix (TrimSpace l) "#" = true
  · rw [if_pos h1]
    exact h
  rw [if_neg h1]
  by_cases h2 : st.continuationKey ≠ ""
  · rw [if_pos h2]
    dsimp only
    split_ifs
    · exact appPending_of_same name st _ h rfl rfl id rfl
    · exact appPending_of_same name st _ h rfl rfl (fun _ => mapSet_ne_nil _ _ _) rfl
  rw [if_neg h2]
  split
  · right
    simp only [flushSection_apps]
    rcases h with h | ⟨a, ha, hn⟩
    · refine ⟨parseApp st.sectionName st.sectionData, ?_, ?_⟩
      · simp [h.1, h.2.2]
      · rw [h.2.1.symm]
        exact parseApp_name_parent _ _
    · exact ⟨a, List.mem_append_left _ ha, hn⟩
  · split
    · dsimp only
      split_ifs
      · exact appPending_of_same name st _ h rfl rfl id rfl
      · exact appPending_of_same name st _ h rfl rfl id rfl
      · exact appPending_of_same name st _ h rfl rfl id rfl
      · exact appPending_of_same name st _ h rfl rfl (fun _ => mapSet_ne_nil _ _ _) rfl
    · split_ifs
      · exact appPending_of_same name st _ h rfl rfl id (handleOrderLine_apps _ _ _)
      · exact h

theorem foldl_appPending (joinHome : String → String) (name : String) (post : List String)
    (st : LoadState) (h : appPending name st) :
    appPending name (post.foldl (Load.step joinHome) st) := by
  induction post generalizing st with
  | nil => exact h
  | cons l rest ih => exact ih _ (step_appPending joinHome name st l h)

theorem finish_appPending (joinHome : String → String) (name : String) (st : LoadState)
    (h : appPending name st) :
    ∃ a, a.Name = name ∧ a.Parent = "" ∧ Load.setParent a ∈ (Load.finish joinHome st).Apps := by
  unfold Load.finish
  simp only [flushSection_apps, List.map_append, List.mem_append, List.mem_map]
  rcases h with h | ⟨a, ha, hn⟩
  · refine ⟨parseApp st.sectionName st.sectionData, ?_, (parseApp_name_parent _ _).2, ?_⟩
    · rw [(parseApp_name_parent _ _).1, h.2.1]
    · right
      exact ⟨_, by simp [h.1, h.2.2], rfl⟩
  · exact ⟨a, hn.1, hn.2, Or.inl ⟨a, ha, rfl⟩⟩

theorem span_all {p : Char → Bool} (a : List Char) (ha : ∀ x ∈ a, p x = true) :
    a.span p = (a, []) := by
  induction a with
  | nil => rfl
  | cons x xs ih =>
    have hx : p x = true := ha x (List.mem_cons_self _ _)
    have ih' := ih (fun y hy => ha y (List.mem_cons_of_mem _ hy))
    simp only [List.span_eq_take_drop] at ih' ⊢
    injection ih' with h1 h2
    simp [List.takeWhile, List.dropWhile, hx, h1, h2]

theorem setParent_slash (a : App) (parent rest : String)
    (hn : a.Name = parent ++ "/" ++ rest) (hp : '/' ∉ parent.data) :
    Load.setParent a = { a with Parent := parent } := by
  unfold Load.setParent
  have e : a.Name.data = parent.data ++ '/' :: rest.data := by
    rw [hn]
    simp [String.data_append]
  rw [e, span_append_stop (p := fun c => c != '/') parent.data rest.data '/'
    (fun x hx => by
      simp only [bne_iff_ne, ne_eq]
      intro h
      exact hp (h ▸ hx)) (by decide)]

theorem setParent_no_slash (a : App) (hs : '/' ∉ a.Name.data) : Load.setParent a = a := by
  unfold Load.setParent
  rw [span_all (p := fun c => c != '/') a.Name.data (fun x hx => by
    simp only [bne_iff_ne, ne_eq]
    intro h
    exact hs (h ▸ hx))]

theorem trimPrefix_append (pre rest : String) : TrimPrefix (pre ++ rest) pre = rest := by
  unfold TrimPrefix
  have h : pre.data.isPrefixOf (pre ++ rest).data = true := by
    rw [List.isPrefixOf_iff_prefix, String.data_append]
    exact List.prefix_append _ _
  rw [if_pos h]
  simp [String.data_append]

/-- The header line of an app section, read outside a continued value, opens the
section with the text after the first colon as its name. -/
theorem step_app_header (joinHome : String → String) (st : LoadState) (name : String)
    (hst : st.continuationKey = "") (hn : ']' ∉ name.data) :
    (Load.step joinHome st ("[app:" ++ name ++ "]")).sectionType = "app" ∧
    (Load.step joinHome st ("[app:" ++ name ++ "]")).sectionName = name ∧
    (Load.step joinHome st ("[app:" ++ name ++ "]")).sectionData = [] ∧
    (Load.step joinHome st ("[app:" ++ name ++ "]")).currentSection = "app:" ++ name ∧
    (Load.step joinHome st ("[app:" ++ name ++ "]")).continuationKey = "" := by
  have ht : TrimSpace ("[app:" ++ name ++ "]") = String.mk ('[' :: ("app:".data ++ name.data ++ [']'])) := by
    unfold TrimSpace
    have e : ("[app:" ++ name ++ "]").data = ('[' :: ("app:".data ++ name.data)) ++ [']'] := by
      simp [String.data_append]
    have e2 : trimLeft (('[' :: ("app:".data ++ name.data)) ++ [']']) =
        ('[' :: ("app:".data ++ name.data)) ++ [']'] := by
      simp [trimLeft, List.dropWhile, show isSpace '[' = false by decide]
    rw [e, e2, trimRight_append_stop _ _ (show isSpace ']' = false by decide)]
    simp
  have h1 : ¬ (String.mk ('[' :: ("app:".data ++ name.data ++ [']'])) = "" ∨
      HasPrefix (String.mk ('[' :: ("app:".data ++ name.data ++ [']']))) "#" = true) := by
    rw [not_or]
    constructor
    · intro h
      have := congrArg String.data h
      simp at this
    · simp [HasPrefix, List.isPrefixOf]
  have h2 : matchSection (String.mk ('[' :: ("app:".data ++ name.data ++ [']']))) =
      some ("app:" ++ name) := by
    unfold matchSection
    simp only [List.reverse_append, List.reverse_cons, List.reverse_nil, List.nil_append,
      List.singleton_append]
    have : ¬ (']' ∈ name.data.reverse ++ "app:".data.reverse) := by
      simp [hn]
    simp [this, String.ext_iff, String.data_append, hn]
  have h3 : parseSection ("app:" ++ name) = ("app", name) := by
    unfold parseSection
    have e : ("app:" ++ name).data = ['a', 'p', 'p'] ++ ':' :: name.data := by
      simp [String.data_append]
    rw [e, span_append_stop (p := fun c => c != ':') ['a', 'p', 'p'] name.data ':'
      (by decide) (by decide)]
  unfold Load.step
  simp only [ht, h1, if_false, hst, ne_eq, not_true_eq_false, h2, h3, and_self]

theorem setParent_name (a : App) : (Load.setParent a).Name = a.Name := by
  unfold Load.setParent
  split <;> rfl

/-! ### C17: the items that BuildMenu renders -/

theorem sinkLeft_map {α β : Type} (less : β → β → Bool) (f : α → β) (x : α) (l : List α) :
    sinkLeft less (f x) (l.map f) = (sinkLeft (fun a b => less (f a) (f b)) x l).map f := by
  induction l with
  | nil => rfl
  | cons y ys ih =>
    simp only [List.map_cons, sinkLeft]
    split_ifs
    · simp [ih]
    · simp

theorem foldl_sinkLeft_map {α β : Type} (less : β → β → Bool) (f : α → β) (l acc : List α) :
    (l.map f).foldl (fun sortedRev x => sinkLeft less x sortedRev) (acc.map f) =
      (l.foldl (fun sortedRev x => sinkLeft (fun a b => less (f a) (f b)) x sortedRev) acc).map
        f := by
  induction l generalizing acc with
  | nil => rfl
  | cons x xs ih =>
    simp only [List.map_cons, List.foldl_cons, sinkLeft_map, ih]

theorem sortSlice_map {α β : Type} (less : β → β → Bool) (f : α → β) (l : List α) :
    sortSlice less (l.map f) = (sortSlice (fun a b => less (f a) (f b)) l).map f := by
  unfold sortSlice
  have := foldl_sinkLeft_map less f l []
  simp only [List.map_nil] at this
  rw [this, List.map_reverse]

/-- C17: the lines of `BuildMenu` are the rendered lines of a reordering of the
filtered items, which are the registry items whose parent is the scope (the empty
parent at root), followed at root by the lines of all task-runner items in
registry order and by nothing in a submenu; in a submenu every filtered item is
an app, so no menu and no dirbrowser appears. -/
theorem buildMenu_items (r : Registry) (env : Env) (runningWindows : String → Bool)
    (scope : String) :
    r.filtered scope = r.Items.filter (fun item => decide (item.Parent = scope)) ∧
    (∃ items : List Item, items.Perm (r.filtered scope) ∧
      r.regularLines env runningWindows scope =
        items.map (fun item =>
          if r.Settings.ShowHelp then
            addShortcutPrefix (alignDisplayColumn
              (item.FormatLine env (runningWindows item.Name)) (r.maxWidth scope))
          else alignDisplayColumn
              (item.FormatLine env (runningWindows item.Name)) (r.maxWidth scope))) ∧
    (scope = "" →
      r.taskrunnerLines env runningWindows scope =
        r.TaskrunnerItems.map (fun item =>
          if r.Settings.ShowHelp then
            addShortcutPrefix (match item with
              | .divider _ => item.FormatLine env false
              | .taskrunner t =>
                alignDisplayColumn (item.FormatLine env (runningWindows t.WindowName))
                  (r.maxWidth scope)
              | _ => alignDisplayColumn (item.FormatLine env false) (r.maxWidth scope))
          else (match item with
              | .divider _ => item.FormatLine env false
              | .taskrunner t =>
                alignDisplayColumn (item.FormatLine env (runningWindows t.WindowName))
                  (r.maxWidth scope)
              | _ => alignDisplayColumn (item.FormatLine env false) (r.maxWidth scope)))) ∧
    (scope ≠ "" →
      r.taskrunnerLines env runningWindows scope = [] ∧
      ∀ item ∈ r.filtered scope, ∃ a, item = Item.app a) ∧
    r.BuildMenu env runningWindows scope =
      String.intercalate "\n"
        (r.regularLines env runningWindows scope ++
          r.taskrunnerLines env runningWindows scope) := by
  refine ⟨?_, ?_, ?_, ?_, rfl⟩
  · unfold Registry.filtered
    by_cases hs : scope = ""
    · subst hs
      simp
    · simp [hs]
  · refine ⟨sortSlice (fun a b : Item =>
        sortLess (orderMap (r.orderList scope))
          { name := a.Name, line := a.FormatLine env (runningWindows a.Name) }
          { name := b.Name, line := b.FormatLine env (runningWindows b.Name) })
        (r.filtered scope), sortSlice_perm _ _, ?_⟩
    unfold Registry.regularLines Registry.sortResults Registry.results
    rw [sortSlice_map, List.map_map]
    rfl
  · intro hs
    subst hs
    unfold Registry.taskrunnerLines
    by_cases hl : r.TaskrunnerItems.length > 0
    · simp only [hl, and_self, if_true]
      apply List.map_congr_left
      intro item _
      cases item <;> rfl
    · have : r.TaskrunnerItems = [] := by
        cases h : r.TaskrunnerItems with
        | nil => rfl
        | cons a l => simp [h] at hl
      simp [this]
  · intro hs
    constructor
    · unfold Registry.taskrunnerLines
      simp [hs]
    · intro item hitem
      unfold Registry.filtered at hitem
      simp only [hs, if_false, List.mem_filter, decide_eq_true_eq] at hitem
      have hp := hitem.2
      cases item with
      | app a => exact ⟨a, rfl⟩
      | menu m => exact absurd hp.symm hs
      | dirbrowser d => exact absurd hp.symm hs
      | taskrunner t => exact absurd hp.symm hs
      | divider d => exact absurd hp.symm hs

/-- C17 (witness): in the submenu `sys` of a registry with the app `sys/htop`, the
menu `sys` and the dirbrowser `cfg`, no task-runner line is added and every
filtered item is an app. -/
theorem buildMenu_items_witness :
    (NewRegistry (sampleConfig DefaultSettings [{ sampleApp "sys/htop" "" "" with Parent := "sys" }]
      [sampleMenu "sys" ""] [sampleDirbrowser "cfg"] [])).taskrunnerLines sampleEnv
        (fun _ => false) "sys" = [] ∧
    ∀ item ∈ (NewRegistry (sampleConfig DefaultSettings
        [{ sampleApp "sys/htop" "" "" with Parent := "sys" }]
        [sampleMenu "sys" ""] [sampleDirbrowser "cfg"] [])).filtered "sys",
      ∃ a, item = Item.app a :=
  (buildMenu_items _ sampleEnv (fun _ => false) "sys").2.2.2.1 (by decide)

/-! ### C18: the task-runner items after LoadTaskrunners -/

theorem foldl_append_singleton {α β : Type} (f : α → β) (l : List α) (acc : List β) :
    l.foldl (fun items a => items ++ [f a]) acc = acc ++ l.map f := by
  induction l generalizing acc with
  | nil => simp
  | cons a rest ih => simp [List.foldl_cons, ih]

theorem loadTaskrunners_fold (settings : Settings)
    (load : TaskrunnerConfig → Settings → ProviderResult) (cfgs : List TaskrunnerConfig)
    (acc : List Item) :
    cfgs.foldl (fun (items : List Item) cfg =>
      if !cfg.Enabled then items
      else if (load cfg settings).err ∨ (load cfg settings).tasks.length = 0 then items
      else
        (load cfg settings).tasks.foldl (fun (items : List Item) task =>
          items ++ [Item.taskrunner
            { Runner := cfg.Name, Task := task, Config := cfg, Settings := settings,
              Icon := (load cfg settings).icon, Label := (load cfg settings).label }])
          (items ++ [Item.divider
            { Runner := cfg.Name, Icon := (load cfg settings).icon,
              Label := (load cfg settings).label }])) acc =
    acc ++ ((cfgs.filter (fun cfg => cfg.Enabled && !(load cfg settings).err &&
        decide ((load cfg settings).tasks ≠ []))).map (runnerItems settings load)).flatten := by
  induction cfgs generalizing acc with
  | nil => simp
  | cons cfg rest ih =>
    rw [List.foldl_cons, ih]
    by_cases he : cfg.Enabled = true
    · by_cases herr : (load cfg settings).err = true
      · simp [he, herr]
      · by_cases ht : (load cfg settings).tasks = []
        · simp [he, herr, ht]
        · have hlen : ¬ (load cfg settings).tasks.length = 0 := by
            simpa [List.length_eq_zero] using ht
          simp [he, herr, ht, hlen, foldl_append_singleton, runnerItems]
    · simp [he]

/-- C18: after `LoadTaskrunners` the task-runner items are the concatenation, over the
enabled configs in configuration order whose load returned no error and at least
one task, of the divider of the runner followed by one item per task in provider
order, each named `runner:taskName`; the result does not depend on the items held
before, and a second call changes nothing. -/
theorem loadTaskrunners_items (r : Registry)
    (load : TaskrunnerConfig → Settings → ProviderResult) :
    (r.LoadTaskrunners load).TaskrunnerItems =
      ((r.TaskrunnerConfig.filter (fun cfg => cfg.Enabled && !(load cfg r.Settings).err &&
          decide ((load cfg r.Settings).tasks ≠ []))).map (fun cfg =>
        Item.divider { Runner := cfg.Name, Icon := (load cfg r.Settings).icon,
                       Label := (load cfg r.Settings).label } ::
          (load cfg r.Settings).tasks.map (fun task =>
            Item.taskrunner { Runner := cfg.Name, Task := task, Config := cfg,
                              Settings := r.Settings, Icon := (load cfg r.Settings).icon,
                              Label := (load cfg r.Settings).label }))).flatten ∧
    (∀ (cfg : TaskrunnerConfig) (task : TaskrunnerTask) (icon label : String),
      (Item.taskrunner { Runner := cfg.Name, Task := task, Config := cfg,
                         Settings := r.Settings, Icon := icon, Label := label }).Name =
        cfg.Name ++ ":" ++ task.TaskName) ∧
    (∀ before : List Item,
      ({ r with TaskrunnerItems := before }.LoadTaskrunners load).TaskrunnerItems =
        (r.LoadTaskrunners load).TaskrunnerItems) ∧
    (r.LoadTaskrunners load).LoadTaskrunners load = r.LoadTaskrunners load := by
  refine ⟨?_, fun _ _ _ _ => rfl, fun _ => rfl, rfl⟩
  unfold Registry.LoadTaskrunners
  simp only
  rw [loadTaskrunners_fold]
  rfl

/-! ### C12: sortEntries by path and by time -/

section ExchangeSort

variable {α : Type} (less : α → α → Bool) (le : α → α → Prop)

theorem exchangePass_perm (x : α) (l : List α) :
    ((exchangePass less x l).1 :: (exchangePass less x l).2).Perm (x :: l) := by
  induction l generalizing x with
  | nil => exact List.Perm.refl _
  | cons y ys ih =>
    unfold exchangePass
    split_ifs
    · exact ((List.Perm.swap _ _ _).trans (List.Perm.cons y (ih x))).trans
        (List.Perm.swap _ _ _)
    · exact ((List.Perm.swap _ _ _).trans (List.Perm.cons x (ih y))).trans
        (List.Perm.refl _)

theorem exchangePass_length (x : α) (l : List α) :
    (exchangePass less x l).2.length = l.length := by
  have := (exchangePass_perm less x l).length_eq
  simpa using this

theorem exchangePass_least (hrefl : ∀ a, le a a) (htrans : ∀ a b c, le a b → le b c → le a c)
    (hkeep : ∀ a b, less a b = true → le a b) (hswap : ∀ a b, less a b = false → le b a)
    (x : α) (l : List α) :
    le (exchangePass less x l).1 x ∧ ∀ z ∈ (exchangePass less x l).2, le (exchangePass less x l).1 z := by
  induction l generalizing x with
  | nil => exact ⟨hrefl x, by simp [exchangePass]⟩
  | cons y ys ih =>
    unfold exchangePass
    by_cases h : less x y = true
    · simp only [h, if_true]
      refine ⟨(ih x).1, ?_⟩
      intro z hz
      rcases List.mem_cons.mp hz with hzy | hzy
      · rw [hzy]
        exact htrans _ _ _ (ih x).1 (hkeep x y h)
      · exact (ih x).2 z hzy
    · have h' : less x y = false := by simpa using h
      simp only [h', Bool.false_eq_true, if_false]
      have hyx : le y x := hswap x y h'
      refine ⟨htrans _ _ _ (ih y).1 hyx, ?_⟩
      intro z hz
      rcases List.mem_cons.mp hz with hzx | hzx
      · rw [hzx]
        exact htrans _ _ _ (ih y).1 hyx
      · exact (ih y).2 z hzx

theorem exchangeLoop_perm (n : Nat) (l : List α) : (exchangeLoop less n l).Perm l := by
  induction n generalizing l with
  | zero => exact List.Perm.refl _
  | succ n ih =>
    cases l with
    | nil => exact List.Perm.refl _
    | cons x rest =>
      unfold exchangeLoop
      exact (List.Perm.cons _ (ih _)).trans (exchangePass_perm less x rest)

theorem exchangeLoop_sorted (hrefl : ∀ a, le a a) (htrans : ∀ a b c, le a b → le b c → le a c)
    (hkeep : ∀ a b, less a b = true → le a b) (hswap : ∀ a b, less a b = false → le b a)
    (n : Nat) (l : List α) (hn : l.length ≤ n + 1) : (exchangeLoop less n l).Pairwise le := by
  induction n generalizing l with
  | zero =>
    unfold exchangeLoop
    cases l with
    | nil => exact List.Pairwise.nil
    | cons x rest =>
      cases rest with
      | nil => simp
      | cons y ys => simp at hn
  | succ n ih =>
    cases l with
    | nil => simp [exchangeLoop]
    | cons x rest =>
      unfold exchangeLoop
      rw [List.pairwise_cons]
      constructor
      · intro z hz
        have hz' := (exchangeLoop_perm less n _).mem_iff.mp hz
        exact (exchangePass_least less le hrefl htrans hkeep hswap x rest).2 z hz'
      · apply ih
        rw [exchangePass_length]
        simpa using hn

/-- The nested loops of `sortEntries` return a permutation of the entries. -/
theorem exchangeSort_perm (l : List α) : (exchangeSort less l).Perm l :=
  exchangeLoop_perm less _ l

/-- The nested loops of `sortEntries` order the entries by every transitive,
reflexive relation that holds where `less` keeps a pair and holds in the other
direction where `less` exchanges it. -/
theorem exchangeSort_sorted (hrefl : ∀ a, le a a) (htrans : ∀ a b c, le a b → le b c → le a c)
    (hkeep : ∀ a b, less a b = true → le a b) (hswap : ∀ a b, less a b = false → le b a)
    (l : List α) : (exchangeSort less l).Pairwise le :=
  exchangeLoop_sorted less le hrefl htrans hkeep hswap _ l (by omega)

end ExchangeSort

theorem exchangeSort_by_key {α β : Type} [LinearOrder β] (key : α → β) (lt : α → α → Bool)
    (hlt : ∀ a b, lt a b = true ↔ key a < key b) (descending : Bool) (l : List α) :
    (descending = true →
      (exchangeSort (fun a b => if descending = true then !(lt a b) else lt a b) l).Pairwise
        (fun a b => key b ≤ key a)) ∧
    (descending = false →
      (exchangeSort (fun a b => if descending = true then !(lt a b) else lt a b) l).Pairwise
        (fun a b => key a ≤ key b)) := by
  constructor
  · intro hd
    subst hd
    apply exchangeSort_sorted _ (fun a b => key b ≤ key a) (fun a => le_refl _)
      (fun a b c hab hbc => le_trans hbc hab)
    · intro a b h
      simp only [if_true, Bool.not_eq_true'] at h
      exact not_lt.mp (fun hlt' => by rw [(hlt a b).mpr hlt'] at h; cases h)
    · intro a b h
      simp only [if_true, Bool.not_eq_false'] at h
      exact le_of_lt ((hlt a b).mp h)
  · intro hd
    subst hd
    apply exchangeSort_sorted _ (fun a b => key a ≤ key b) (fun a => le_refl _)
      (fun a b c hab hbc => le_trans hab hbc)
    · intro a b h
      simp only [Bool.false_eq_true, if_false] at h
      exact le_of_lt ((hlt a b).mp h)
    · intro a b h
      simp only [Bool.false_eq_true, if_false] at h
      exact not_lt.mp (fun hlt' => by rw [(hlt a b).mpr hlt'] at h; cases h)

theorem descending_iff (dir : String) :
    decide ((if dir = "" then "descending" else dir) = "descending") = true ↔
      (dir = "descending" ∨ dir = "") := by
  by_cases h : dir = ""
  · simp [h]
  · simp [h]

theorem descending_false_iff (dir : String) :
    decide ((if dir = "" then "descending" else dir) = "descending") = false ↔
      ¬ (dir = "descending" ∨ dir = "") := by
  rw [← descending_iff]
  simp

/-- C12: `sortEntries` returns a permutation of its input; in the mode `alphabetical`
the result is ordered by `RelPath`, in the mode `modified`, the empty mode and
every mode other than `alphabetical` and `modified-folder` by `ModTime`:
non-increasing when the direction is `descending` or empty, non-decreasing for
every other direction. -/
theorem sortEntries_ordered (d : DirbrowserItem) (entries : List FileEntry) :
    (d.sortEntries entries).Perm entries ∧
    (d.Dirbrowser.SortPolicy = "alphabetical" →
      ((d.Dirbrowser.SortDirection = "descending" ∨ d.Dirbrowser.SortDirection = "") →
        (d.sortEntries entries).Pairwise (fun a b => b.RelPath ≤ a.RelPath)) ∧
      (¬ (d.Dirbrowser.SortDirection = "descending" ∨ d.Dirbrowser.SortDirection = "") →
        (d.sortEntries entries).Pairwise (fun a b => a.RelPath ≤ b.RelPath))) ∧
    (d.Dirbrowser.SortPolicy ≠ "alphabetical" → d.Dirbrowser.SortPolicy ≠ "modified-folder" →
      ((d.Dirbrowser.SortDirection = "descending" ∨ d.Dirbrowser.SortDirection = "") →
        (d.sortEntries entries).Pairwise (fun a b => b.ModTime ≤ a.ModTime)) ∧
      (¬ (d.Dirbrowser.SortDirection = "descending" ∨ d.Dirbrowser.SortDirection = "") →
        (d.sortEntries entries).Pairwise (fun a b => a.ModTime ≤ b.ModTime))) := by
  refine ⟨?_, ?_, ?_⟩
  · unfold DirbrowserItem.sortEntries
    dsimp only
    split_ifs <;> exact exchangeSort_perm _ _
  · intro hmode
    have hm : (if d.Dirbrowser.SortPolicy = "" then "modified" else d.Dirbrowser.SortPolicy) =
        "alphabetical" := by
      rw [hmode]
      decide
    have key := exchangeSort_by_key (fun e : FileEntry => e.RelPath)
      (fun a b => strLess a.RelPath b.RelPath) (fun a b => strLess_iff _ _)
      (decide ((if d.Dirbrowser.SortDirection = "" then "descending"
        else d.Dirbrowser.SortDirection) = "descending")) entries
    unfold DirbrowserItem.sortEntries
    dsimp only
    rw [if_pos hm]
    exact ⟨fun h => key.1 ((descending_iff _).mpr h),
      fun h => key.2 ((descending_false_iff _).mpr h)⟩
  · intro h1 h2
    have hm1 : ¬ (if d.Dirbrowser.SortPolicy = "" then "modified" else d.Dirbrowser.SortPolicy) =
        "alphabetical" := by
      split_ifs
      · decide
      · exact h1
    have hm2 : ¬ (if d.Dirbrowser.SortPolicy = "" then "modified" else d.Dirbrowser.SortPolicy) =
        "modified-folder" := by
      split_ifs
      · decide
      · exact h2
    have key := exchangeSort_by_key (fun e : FileEntry => e.ModTime)
      (fun a b => decide (a.ModTime < b.ModTime)) (fun a b => by simp)
      (decide ((if d.Dirbrowser.SortDirection = "" then "descending"
        else d.Dirbrowser.SortDirection) = "descending")) entries
    unfold DirbrowserItem.sortEntries
    dsimp only
    rw [if_neg hm1, if_neg hm2]
    exact ⟨fun h => key.1 ((descending_iff _).mpr h),
      fun h => key.2 ((descending_false_iff _).mpr h)⟩

/-- Witness of C12: the five sample files, sorted alphabetically in ascending direction
and sorted by an unrecognised mode with the empty direction. -/
theorem sortEntries_ordered_witness :
    (((sortItem "alphabetical" "ascending").sortEntries sampleEntries).map
        (fun e => e.RelPath) = ["A/x", "A/y", "B/w", "B/z", "c"] ∧
      ((sortItem "alphabetical" "ascending").sortEntries sampleEntries).Pairwise
        (fun a b => a.RelPath ≤ b.RelPath)) ∧
    (((sortItem "newest" "").sortEntries sampleEntries).map
        (fun e => e.ModTime) = [10, 10, 8, 7, 5] ∧
      ((sortItem "newest" "").sortEntries sampleEntries).Pairwise
        (fun a b => b.ModTime ≤ a.ModTime)) :=
  ⟨⟨by decide,
    ((sortEntries_ordered (sortItem "alphabetical" "ascending") sampleEntries).2.1 rfl).2
      (by decide)⟩,
   ⟨by decide,
    ((sortEntries_ordered (sortItem "newest" "") sampleEntries).2.2
      (by decide) (by decide)).1 (Or.inr rfl)⟩⟩

/-! ### C13: sortEntries by folder -/

theorem folderMaxOf_step (m : List (String × Int)) (p : List FileEntry) (e : FileEntry)
    (h : folderMaxOf m p) :
    folderMaxOf (match mapGet m e.Folder with
      | some t => if e.ModTime > t then mapSet m e.Folder e.ModTime else m
      | none => mapSet m e.Folder e.ModTime) (p ++ [e]) := by
  obtain ⟨hA, hB⟩ := h
  have hset : folderMaxOf m p → (∀ x ∈ p, x.Folder = e.Folder → x.ModTime ≤ e.ModTime) →
      folderMaxOf (mapSet m e.Folder e.ModTime) (p ++ [e]) := by
    intro _ hbound
    constructor
    · intro f t hft
      rw [mapGet_mapSet] at hft
      by_cases hf : e.Folder = f
      · rw [if_pos hf] at hft
        injection hft with hft
        subst hft
        refine ⟨⟨e, by simp, hf, rfl⟩, ?_⟩
        intro x hx hxf
        rcases List.mem_append.mp hx with hx | hx
        · exact hbound x hx (hxf.trans hf.symm)
        · simp only [List.mem_singleton] at hx
          rw [hx]
      · rw [if_neg hf] at hft
        obtain ⟨⟨x, hx, hxf, hxt⟩, hub⟩ := hA f t hft
        refine ⟨⟨x, List.mem_append_left _ hx, hxf, hxt⟩, ?_⟩
        intro y hy hyf
        rcases List.mem_append.mp hy with hy | hy
        · exact hub y hy hyf
        · simp only [List.mem_singleton] at hy
          rw [hy] at hyf
          exact absurd hyf hf
    · intro x hx
      rw [mapGet_mapSet]
      by_cases hf : e.Folder = x.Folder
      · exact ⟨e.ModTime, by rw [if_pos hf]⟩
      · rw [if_neg hf]
        rcases List.mem_append.mp hx with hx | hx
        · exact hB x hx
        · simp only [List.mem_singleton] at hx
          rw [hx] at hf
          exact absurd rfl hf
  cases hm : mapGet m e.Folder with
  | none =>
    simp only
    apply hset ⟨hA, hB⟩
    intro x hx hxf
    obtain ⟨t, ht⟩ := hB x hx
    rw [hxf, hm] at ht
    cases ht
  | some t0 =>
    simp only
    obtain ⟨⟨w, hw, hwf, hwt⟩, hub⟩ := hA e.Folder t0 hm
    by_cases hgt : e.ModTime > t0
    · rw [if_pos hgt]
      apply hset ⟨hA, hB⟩
      intro x hx hxf
      exact le_of_lt (lt_of_le_of_lt (hub x hx hxf) hgt)
    · rw [if_neg hgt]
      constructor
      · intro f t hft
        obtain ⟨⟨x, hx, hxf, hxt⟩, hub'⟩ := hA f t hft
        refine ⟨⟨x, List.mem_append_left _ hx, hxf, hxt⟩, ?_⟩
        intro y hy hyf
        rcases List.mem_append.mp hy with hy | hy
        · exact hub' y hy hyf
        · simp only [List.mem_singleton] at hy
          subst hy
          rw [hyf, hft] at hm
          injection hm with hm
          rw [hm]
          exact not_lt.mp hgt
      · intro x hx
        rcases List.mem_append.mp hx with hx | hx
        · exact hB x hx
        · simp only [List.mem_singleton] at hx
          rw [hx]
          exact ⟨t0, hm⟩

theorem folderMaxOf_foldl (l : List FileEntry) (m : List (String × Int)) (p : List FileEntry)
    (h : folderMaxOf m p) :
    folderMaxOf (l.foldl (fun m e =>
      match mapGet m e.Folder with
      | some t => if e.ModTime > t then mapSet m e.Folder e.ModTime else m
      | none => mapSet m e.Folder e.ModTime) m) (p ++ l) := by
  induction l generalizing m p with
  | nil => simpa using h
  | cons e rest ih =>
    rw [List.foldl_cons]
    have := ih _ _ (folderMaxOf_step m p e h)
    simpa using this

theorem folderMaxTime_spec (entries : List FileEntry) :
    folderMaxOf (folderMaxTime entries) entries := by
  have := folderMaxOf_foldl entries [] [] ⟨by simp [mapGet], by simp⟩
  simpa [folderMaxTime] using this

/-- C13: in the mode `modified-folder`, with `folderMax f` the value of the map
`folderMaxTime` at `f`, which for the folder of every input entry is the latest
modification time among the input entries of that folder, `sortEntries` returns a
permutation of its input ordered lexicographically by the pair
(`folderMax` of the folder, own `ModTime`): for an entry `a` before an entry `b`,
when the direction is `descending` or empty the pair of `b` is not greater, for every
other direction it is not smaller; so entries with equal folder maximum are ordered
by their own modification time. -/
theorem sortEntries_modified_folder (d : DirbrowserItem) (entries : List FileEntry)
    (hmode : d.Dirbrowser.SortPolicy = "modified-folder") :
    (∀ e ∈ entries,
      (∃ x ∈ entries, x.Folder = e.Folder ∧
        x.ModTime = (mapGet (folderMaxTime entries) e.Folder).getD zeroTime) ∧
      ∀ x ∈ entries, x.Folder = e.Folder →
        x.ModTime ≤ (mapGet (folderMaxTime entries) e.Folder).getD zeroTime) ∧
    (d.sortEntries entries).Perm entries ∧
    ((d.Dirbrowser.SortDirection = "descending" ∨ d.Dirbrowser.SortDirection = "") →
      (d.sortEntries entries).Pairwise (fun a b =>
        (mapGet (folderMaxTime entries) b.Folder).getD zeroTime <
            (mapGet (folderMaxTime entries) a.Folder).getD zeroTime ∨
        ((mapGet (folderMaxTime entries) b.Folder).getD zeroTime =
            (mapGet (folderMaxTime entries) a.Folder).getD zeroTime ∧
          b.ModTime ≤ a.ModTime))) ∧
    (¬ (d.Dirbrowser.SortDirection = "descending" ∨ d.Dirbrowser.SortDirection = "") →
      (d.sortEntries entries).Pairwise (fun a b =>
        (mapGet (folderMaxTime entries) a.Folder).getD zeroTime <
            (mapGet (folderMaxTime entries) b.Folder).getD zeroTime ∨
        ((mapGet (folderMaxTime entries) a.Folder).getD zeroTime =
            (mapGet (folderMaxTime entries) b.Folder).getD zeroTime ∧
          a.ModTime ≤ b.ModTime))) := by
  have hm1 : ¬ (if d.Dirbrowser.SortPolicy = "" then "modified" else d.Dirbrowser.SortPolicy) =
      "alphabetical" := by
    rw [hmode]
    decide
  have hm2 : (if d.Dirbrowser.SortPolicy = "" then "modified" else d.Dirbrowser.SortPolicy) =
      "modified-folder" := by
    rw [hmode]
    decide
  have hsort : d.sortEntries entries =
      exchangeSort (fun ei ej =>
        if decide ((if d.Dirbrowser.SortDirection = "" then "descending"
            else d.Dirbrowser.SortDirection) = "descending") = true then
          !(if (mapGet (folderMaxTime entries) ei.Folder).getD zeroTime =
              (mapGet (folderMaxTime entries) ej.Folder).getD zeroTime
            then decide (ei.ModTime < ej.ModTime)
            else decide ((mapGet (folderMaxTime entries) ei.Folder).getD zeroTime <
              (mapGet (folderMaxTime entries) ej.Folder).getD zeroTime))
        else (if (mapGet (folderMaxTime entries) ei.Folder).getD zeroTime =
              (mapGet (folderMaxTime entries) ej.Folder).getD zeroTime
            then decide (ei.ModTime < ej.ModTime)
            else decide ((mapGet (folderMaxTime entries) ei.Folder).getD zeroTime <
              (mapGet (folderMaxTime entries) ej.Folder).getD zeroTime))) entries := by
    unfold DirbrowserItem.sortEntries
    dsimp only
    rw [if_neg hm1, if_pos hm2]
  have key := exchangeSort_by_key
    (fun e : FileEntry =>
      toLex ((mapGet (folderMaxTime entries) e.Folder).getD zeroTime, e.ModTime))
    (fun ei ej =>
      if (mapGet (folderMaxTime entries) ei.Folder).getD zeroTime =
          (mapGet (folderMaxTime entries) ej.Folder).getD zeroTime
      then decide (ei.ModTime < ej.ModTime)
      else decide ((mapGet (folderMaxTime entries) ei.Folder).getD zeroTime <
        (mapGet (folderMaxTime entries) ej.Folder).getD zeroTime))
    (fun a b => by
      rw [Prod.Lex.lt_iff]
      by_cases h : (mapGet (folderMaxTime entries) a.Folder).getD zeroTime =
          (mapGet (folderMaxTime entries) b.Folder).getD zeroTime
      · simp [h]
      · simp only [h, if_false, decide_eq_true_eq, false_and, or_false])
    (decide ((if d.Dirbrowser.SortDirection = "" then "descending"
      else d.Dirbrowser.SortDirection) = "descending")) entries
  refine ⟨?_, ?_, ?_, ?_⟩
  · intro e he
    obtain ⟨hA, hB⟩ := folderMaxTime_spec entries
    obtain ⟨t, ht⟩ := hB e he
    rw [ht]
    exact hA e.Folder t ht
  · rw [hsort]
    exact exchangeSort_perm _ _
  · intro hdir
    rw [hsort]
    refine (key.1 ((descending_iff _).mpr hdir)).imp ?_
    intro a b hab
    rw [Prod.Lex.le_iff] at hab
    exact hab
  · intro hdir
    rw [hsort]
    refine (key.2 ((descending_false_iff _).mpr hdir)).imp ?_
    intro a b hab
    rw [Prod.Lex.le_iff] at hab
    exact hab

/-- Witness of C13: the five sample files in the mode `modified-folder` with the empty
direction; the two folders have the same latest time 10. -/
theorem sortEntries_modified_folder_witness :
    (sortItem "modified-folder" "").Dirbrowser.SortPolicy = "modified-folder" ∧
    ((sortItem "modified-folder" "").sortEntries sampleEntries).map
      (fun e => e.RelPath) = ["B/z", "A/x", "B/w", "A/y", "c"] ∧
    ((sortItem "modified-folder" "").sortEntries sampleEntries).Perm sampleEntries ∧
    ((sortItem "modified-folder" "").sortEntries sampleEntries).Pairwise (fun a b =>
      (mapGet (folderMaxTime sampleEntries) b.Folder).getD zeroTime <
          (mapGet (folderMaxTime sampleEntries) a.Folder).getD zeroTime ∨
      ((mapGet (folderMaxTime sampleEntries) b.Folder).getD zeroTime =
          (mapGet (folderMaxTime sampleEntries) a.Folder).getD zeroTime ∧
        b.ModTime ≤ a.ModTime)) :=
  ⟨rfl, by decide,
    (sortEntries_modified_folder (sortItem "modified-folder" "") sampleEntries rfl).2.1,
    (sortEntries_modified_folder (sortItem "modified-folder" "") sampleEntries rfl).2.2.1
      (Or.inr rfl)⟩

/-! ### C21: own action before the settings -/

/-- C21: an app item and a dirbrowser item resolve the primary action to the own
`PrimaryAction` of the entity when it is not empty and to `Settings.PrimaryAction`
otherwise, and the secondary action likewise with `SecondaryAction`. -/
theorem getAction_own_then_settings (a : AppItem) (d : DirbrowserItem) :
    (a.App.PrimaryAction ≠ "" → a.GetPrimaryAction = a.App.PrimaryAction) ∧
    (a.App.PrimaryAction = "" → a.GetPrimaryAction = a.Settings.PrimaryAction) ∧
    (a.App.SecondaryAction ≠ "" → a.GetSecondaryAction = a.App.SecondaryAction) ∧
    (a.App.SecondaryAction = "" → a.GetSecondaryAction = a.Settings.SecondaryAction) ∧
    (d.Dirbrowser.PrimaryAction ≠ "" → d.GetPrimaryAction = d.Dirbrowser.PrimaryAction) ∧
    (d.Dirbrowser.PrimaryAction = "" → d.GetPrimaryAction = d.Settings.PrimaryAction) ∧
    (d.Dirbrowser.SecondaryAction ≠ "" →
      d.GetSecondaryAction = d.Dirbrowser.SecondaryAction) ∧
    (d.Dirbrowser.SecondaryAction = "" →
      d.GetSecondaryAction = d.Settings.SecondaryAction) := by
  refine ⟨fun h => ?_, fun h => ?_, fun h => ?_, fun h => ?_, fun h => ?_, fun h => ?_,
    fun h => ?_, fun h => ?_⟩
  · unfold AppItem.GetPrimaryAction
    rw [if_pos h]
  · unfold AppItem.GetPrimaryAction
    rw [if_neg (not_not.mpr h)]
  · unfold AppItem.GetSecondaryAction
    rw [if_pos h]
  · unfold AppItem.GetSecondaryAction
    rw [if_neg (not_not.mpr h)]
  · unfold DirbrowserItem.GetPrimaryAction
    rw [if_pos h]
  · unfold DirbrowserItem.GetPrimaryAction
    rw [if_neg (not_not.mpr h)]
  · unfold DirbrowserItem.GetSecondaryAction
    rw [if_pos h]
  · unfold DirbrowserItem.GetSecondaryAction
    rw [if_neg (not_not.mpr h)]

/-- C21 (witness): under settings with primary action `window` and secondary action
`popup`, an app with the own primary action `pane_right` and no secondary action,
and a dirbrowser with no primary action and the own secondary action `pane_left`. -/
theorem getAction_own_then_settings_witness :
    (AppItem.mk { sampleApp "a" "" "" with PrimaryAction := ActionPaneRight }
      { DefaultSettings with PrimaryAction := ActionWindow,
                             SecondaryAction := ActionPopup }).GetPrimaryAction =
      ActionPaneRight ∧
    (AppItem.mk { sampleApp "a" "" "" with PrimaryAction := ActionPaneRight }
      { DefaultSettings with PrimaryAction := ActionWindow,
                             SecondaryAction := ActionPopup }).GetSecondaryAction =
      ActionPopup ∧
    (DirbrowserItem.mk
      { sampleDirbrowser "d" with PrimaryAction := "", SecondaryAction := ActionPaneLeft }
      { DefaultSettings with PrimaryAction := ActionWindow,
                             SecondaryAction := ActionPopup }).GetPrimaryAction =
      ActionWindow ∧
    (DirbrowserItem.mk
      { sampleDirbrowser "d" with PrimaryAction := "", SecondaryAction := ActionPaneLeft }
      { DefaultSettings with PrimaryAction := ActionWindow,
                             SecondaryAction := ActionPopup }).GetSecondaryAction =
      ActionPaneLeft :=
  ⟨(getAction_own_then_settings _ (DirbrowserItem.mk (sampleDirbrowser "d")
      DefaultSettings)).1 (by decide),
   (getAction_own_then_settings _ (DirbrowserItem.mk (sampleDirbrowser "d")
      DefaultSettings)).2.2.2.1 rfl,
   (getAction_own_then_settings (AppItem.mk (sampleApp "a" "" "") DefaultSettings)
      _).2.2.2.2.2.1 rfl,
   (getAction_own_then_settings (AppItem.mk (sampleApp "a" "" "") DefaultSettings)
      _).2.2.2.2.2.2.1 (by decide)⟩

/-! ### C22: the key whitelist and the case of a key -/

theorem char_ofNat_toNat_of_lt (n : Nat) (h : n < 55296) : (Char.ofNat n).toNat = n := by
  have hv : Nat.isValidChar n := Or.inl h
  unfold Char.ofNat
  rw [dif_pos hv]
  simp [Char.toNat, Char.ofNatAux, UInt32.toNat]

/-- Lower-casing after upper-casing is lower-casing, for every character but the
dotless i and the long s. -/
theorem toLowerRune_toUpperRune (c : Char) (h1 : c ≠ 'ı') (h2 : c ≠ 'ſ') :
    toLowerRune (toUpperRune c) = toLowerRune c := by
  unfold toUpperRune
  rw [if_neg h1, if_neg h2]
  by_cases h : c.toNat ≥ 97 ∧ c.toNat ≤ 122
  · have e1 : c.toUpper = Char.ofNat (c.toNat - 32) := by simp [Char.toUpper, h]
    have e2 : (Char.ofNat (c.toNat - 32)).toNat = c.toNat - 32 :=
      char_ofNat_toNat_of_lt _ (by omega)
    have e3 : (Char.ofNat (c.toNat - 32)).toLower = c := by
      unfold Char.toLower
      simp only [e2]
      rw [if_pos (by omega)]
      have : c.toNat - 32 + 32 = c.toNat := by omega
      rw [this]
      exact Char.ofNat_toNat c
    have e4 : c.toLower = c := by
      unfold Char.toLower
      simp only
      rw [if_neg (by omega)]
    have n1 : ∀ d : Char, d.toNat ≤ 122 → d ≠ 'K' ∧ d ≠ 'İ' := by
      intro d hd
      constructor
      · intro he
        rw [he] at hd
        exact absurd hd (by decide)
      · intro he
        rw [he] at hd
        exact absurd hd (by decide)
    rw [e1]
    unfold toLowerRune
    rw [if_neg (n1 _ (by rw [e2]; omega)).1, if_neg (n1 _ (by rw [e2]; omega)).2,
      if_neg (n1 c h.2).1, if_neg (n1 c h.2).2, e3, e4]
  · have e1 : c.toUpper = c := by simp [Char.toUpper, h]
    rw [e1]

theorem ToLower_ToUpper (k : String) (h1 : 'ı' ∉ k.data) (h2 : 'ſ' ∉ k.data) :
    ToLower (ToUpper k) = ToLower k := by
  unfold ToLower ToUpper
  simp only [List.map_map]
  congr 1
  apply List.map_congr_left
  intro c hc
  exact toLowerRune_toUpperRune c (fun h => h1 (h ▸ hc)) (fun h => h2 (h ▸ hc))

/-- C22 (counterexample): the key `ctrl-ı`, written with the dotless i U+0131, is not
valid, since its lower case is the key itself; its upper case is `CTRL-I`, which
is valid. -/
theorem isValidFzfKey_dotless_i :
    ToLower "ctrl-ı" = "ctrl-ı" ∧
    IsValidFzfKey "ctrl-ı" = false ∧
    ToUpper "ctrl-ı" = "CTRL-I" ∧
    IsValidFzfKey (ToUpper "ctrl-ı") = true := by
  decide

/-- C22 (amended): `IsValidFzfKey k` holds exactly when the lower-cased `k` is in
`SupportedFzfKeys`; it has the same value on `k` and on the lower-cased `k`, and
the same value on `k` and on the upper-cased `k` when `k` holds neither the dotless
i U+0131 nor the long s U+017F, so for every ASCII key; `CTRL-A` is valid, and the
empty text, `a`, `hello` and `ctrl-1` are not. -/
theorem isValidFzfKey_iff (k : String) :
    (IsValidFzfKey k = true ↔ ToLower k ∈ SupportedFzfKeys) ∧
    IsValidFzfKey (ToLower k) = IsValidFzfKey k ∧
    ('ı' ∉ k.data → 'ſ' ∉ k.data →
      IsValidFzfKey (ToUpper k) = IsValidFzfKey k) ∧
    IsValidFzfKey "CTRL-A" = true ∧ IsValidFzfKey "" = false ∧
    IsValidFzfKey "a" = false ∧ IsValidFzfKey "hello" = false ∧
    IsValidFzfKey "ctrl-1" = false := by
  refine ⟨by simp [IsValidFzfKey], IsValidFzfKey_ToLower k, ?_, by decide, by decide,
    by decide, by decide, by decide⟩
  intro h1 h2
  unfold IsValidFzfKey
  rw [ToLower_ToUpper k h1 h2]

/-- C22 (witness): the mixed-case key `Alt-X`, its upper case `ALT-X`, both valid. -/
theorem isValidFzfKey_iff_witness :
    ToUpper "Alt-X" = "ALT-X" ∧ IsValidFzfKey (ToUpper "Alt-X") = IsValidFzfKey "Alt-X" ∧
    IsValidFzfKey "Alt-X" = true :=
  ⟨by decide, (isValidFzfKey_iff "Alt-X").2.2.1 (by decide) (by decide), by decide⟩

/-! ### C23: the empty shortcut -/

/-- C23: the empty key is valid whatever the item name, the settings and the
registered shortcuts are, and `Register` with the empty key returns nil and leaves
the validator as it is: no shortcut is added and no error is recorded. -/
theorem empty_shortcut_valid_unregistered (name : String) (settings : Settings)
    (registered : List (String × String)) (v : ShortcutValidator) :
    ValidateShortcut "" name settings registered = none ∧
    (v.Register "" name).1 = none ∧
    (v.Register "" name).2 = v ∧
    (v.Register "" name).2.Shortcuts = v.Shortcuts ∧
    (v.Register "" name).2.Errors = v.Errors := by
  refine ⟨?_, ?_, ?_, ?_, ?_⟩
  · unfold ValidateShortcut
    rw [if_pos rfl]
  all_goals
    unfold ShortcutValidator.Register
    rw [if_pos rfl]

/-! ### C24: the age of a file in words -/

theorem roundFloat64_zero : roundFloat64 0 = 0 := by
  unfold roundFloat64
  rw [if_pos rfl]

/-- A whole number below 2^53 is a float64. -/
theorem roundFloat64_nat (m : Nat) (h : m < 2 ^ 53) : roundFloat64 (m : ℚ) = m := by
  by_cases h0 : m = 0
  · subst h0
    simpa using roundFloat64_zero
  have hpos : (0 : ℚ) < m := by exact_mod_cast Nat.pos_of_ne_zero h0
  have hne : (m : ℚ) ≠ 0 := ne_of_gt hpos
  have habs : |(m : ℚ)| = m := abs_of_pos hpos
  have he : Int.log 2 (m : ℚ) = (Nat.log 2 m : ℤ) := Int.log_natCast 2 m
  have hle : Nat.log 2 m ≤ 52 := by
    have := Nat.log_lt_of_lt_pow h0 h
    omega
  obtain ⟨k, hk⟩ : ∃ k : ℕ, (52 : ℤ) - (Nat.log 2 m : ℤ) = k := ⟨52 - Nat.log 2 m, by omega⟩
  have hk2 : ((Nat.log 2 m : ℤ)) - 52 = -(k : ℤ) := by omega
  have hn : (m : ℚ) * (2 : ℚ) ^ ((52 : ℤ) - (Nat.log 2 m : ℤ)) = ((m * 2 ^ k : ℤ) : ℚ) := by
    rw [hk, zpow_natCast]
    push_cast
    rfl
  unfold roundFloat64
  rw [if_neg hne]
  simp only [habs, he, hn, Int.floor_intCast, sub_self]
  have h12 : (0 : ℚ) < 1 / 2 := by norm_num
  have hnl : ¬ ((m : ℚ) < 0) := not_lt.mpr (le_of_lt hpos)
  simp only [h12, hnl, if_true, if_false]
  rw [hk2, zpow_neg, zpow_natCast]
  push_cast
  field_simp

/-- For a duration of whole seconds, `Seconds` is the number of seconds. -/
theorem seconds_whole (s : Nat) (h : (s : Int) * 1000000000 ≤ maxInt) :
    Duration.Seconds ((s : Int) * 1000000000) = s := by
  have hs : s < 2 ^ 53 := by
    unfold maxInt at h
    have : (s : Int) < 2 ^ 53 := by omega
    exact_mod_cast this
  have e1 : Int.tdiv ((s : Int) * 1000000000) Second = s := by
    unfold Second
    rw [Int.tdiv_eq_ediv (by positivity) (by norm_num)]
    exact Int.mul_ediv_cancel _ (by norm_num)
  have e2 : Int.tmod ((s : Int) * 1000000000) Second = 0 := by
    unfold Second
    rw [Int.tmod_eq_emod (by positivity) (by norm_num)]
    exact Int.mul_emod_left _ _
  unfold Duration.Seconds
  simp only [e1, e2, Int.cast_zero, roundFloat64_zero, zero_div, add_zero, Int.cast_natCast,
    roundFloat64_nat s hs]

/-- C24: for a duration of `s` whole seconds, `s` not negative (and within the range
of a `Duration`), `formatAgo` gives `s` with `s ago` below 60, `s / 60` with `m ago`
below 3600, `s / 3600` with `h ago` below 86400 and `s / 86400` with `d ago` from
there on, the quotients rounded down. -/
theorem formatAgo_whole_seconds (s : Nat) (h : (s : Int) * 1000000000 ≤ maxInt) :
    formatAgo ((s : Int) * 1000000000) =
      if s < 60 then toString s ++ "s ago"
      else if s < 3600 then toString (s / 60) ++ "m ago"
      else if s < 86400 then toString (s / 3600) ++ "h ago"
      else toString (s / 86400) ++ "d ago" := by
  have e : truncInt (Duration.Seconds ((s : Int) * 1000000000)) = (s : Int) := by
    rw [seconds_whole s h]
    unfold truncInt
    rw [if_pos (by positivity)]
    exact Int.floor_natCast s
  have t : ∀ n : Nat, toString (n : Int) = toString n := fun _ => rfl
  have q : ∀ n : Nat, Int.tdiv (s : Int) (n : Int) = ((s / n : Nat) : Int) := fun _ => rfl
  unfold formatAgo
  simp only [e]
  have q60 := q 60
  have q3600 := q 3600
  have q86400 := q 86400
  simp only [Nat.cast_ofNat] at q60 q3600 q86400
  rw [q60, q3600, q86400, t, t, t, t]
  have c1 : ((s : Int) < 60) ↔ s < 60 := by omega
  have c2 : ((s : Int) < 3600) ↔ s < 3600 := by omega
  have c3 : ((s : Int) < 86400) ↔ s < 86400 := by omega
  simp only [c1, c2, c3]

/-- C24 (witness): 59 seconds, 60 seconds, 3725 seconds and 200000 seconds. -/
theorem formatAgo_whole_seconds_witness :
    formatAgo (59 * 1000000000) = "59s ago" ∧ formatAgo (60 * 1000000000) = "1m ago" ∧
    formatAgo (3725 * 1000000000) = "1h ago" ∧ formatAgo (200000 * 1000000000) = "2d ago" :=
  ⟨(formatAgo_whole_seconds 59 (by decide)).trans (by decide),
   (formatAgo_whole_seconds 60 (by decide)).trans (by decide),
   (formatAgo_whole_seconds 3725 (by decide)).trans (by decide),
   (formatAgo_whole_seconds 200000 (by decide)).trans (by decide)⟩

/-! ### C25: the output of fzf -/

theorem hasSuffix_append (a suf : List Char) :
    HasSuffix (String.mk (a ++ suf)) (String.mk suf) = true := by
  simp [HasSuffix, List.isPrefixOf_iff_prefix]

theorem trimSuffix_append (a suf : List Char) :
    TrimSuffix (String.mk (a ++ suf)) (String.mk suf) = String.mk a := by
  unfold TrimSuffix
  rw [hasSuffix_append]
  simp

theorem splitOn_ne_nil (sep : Char) (cs : List Char) : splitOn sep cs ≠ [] := by
  cases cs with
  | nil => simp [splitOn]
  | cons c cs =>
    unfold splitOn
    split_ifs
    · simp
    · split <;> simp

/-- The fields of a text, joined by the separator, are the text. -/
theorem splitOn_join (sep : Char) (cs : List Char) :
    ∀ f fs, splitOn sep cs = f :: fs → f ++ (fs.map (fun x => sep :: x)).flatten = cs := by
  induction cs with
  | nil =>
    intro f fs h
    simp only [splitOn, List.cons.injEq] at h
    obtain ⟨rfl, rfl⟩ := h
    rfl
  | cons c cs ih =>
    intro f fs h
    unfold splitOn at h
    by_cases hc : c = sep
    · rw [if_pos hc] at h
      simp only [List.cons.injEq] at h
      obtain ⟨rfl, rfl⟩ := h
      cases hs : splitOn sep cs with
      | nil => exact absurd hs (splitOn_ne_nil sep cs)
      | cons g gs =>
        have := ih g gs hs
        simp only [List.map_cons, List.flatten_cons, List.nil_append, List.cons_append]
        rw [this, hc]
    · rw [if_neg hc] at h
      cases hs : splitOn sep cs with
      | nil => exact absurd hs (splitOn_ne_nil sep cs)
      | cons g gs =>
        rw [hs] at h
        simp only [List.cons.injEq] at h
        obtain ⟨rfl, rfl⟩ := h
        have := ih g gs hs
        simp only [List.cons_append]
        rw [this]

theorem intercalate_go_mk (sep : Char) (fields : List (List Char)) :
    ∀ acc : String, String.intercalate.go acc (String.mk [sep]) (fields.map String.mk) =
      String.mk (acc.data ++ (fields.map (fun x => sep :: x)).flatten) := by
  induction fields with
  | nil =>
    intro acc
    simp [String.intercalate.go]
  | cons f fs ih =>
    intro acc
    simp only [List.map_cons, String.intercalate.go, ih, List.flatten_cons]
    congr 1
    simp [String.data_append]

/-- Joining the tab-separated fields of a line with tabs gives the line. -/
theorem intercalate_splitTab (l : String) : String.intercalate "\t" (SplitTab l) = l := by
  unfold SplitTab
  cases hs : splitOn '\t' l.data with
  | nil => exact absurd hs (splitOn_ne_nil _ _)
  | cons f fs =>
    have e : ("\t" : String) = String.mk ['\t'] := rfl
    rw [List.map_cons, String.intercalate, e, intercalate_go_mk, splitOn_join _ _ f fs hs]

theorem splitN_two (sep : Char) (a b : List Char) (ha : sep ∉ a) :
    SplitN sep 2 (a ++ sep :: b) = [a, b] := by
  have hspan : (a ++ sep :: b).span (fun c => c != sep) = (a, sep :: b) :=
    span_append_stop a b sep
      (fun x hx => by
        have : x ≠ sep := fun e => ha (e ▸ hx)
        simpa using this)
      (by simp)
  unfold SplitN
  rw [hspan]
  simp only
  unfold SplitN
  rfl

/-- C25: for a key `k` and a line `l` without newline, the output `k`, newline, `l`,
newline is parsed to the selection with key `k`, line `l` and the tab-separated
fields of `l`, not canceled; joining the fields with tabs gives back `l`; the empty
output and the output of one newline are parsed to a canceled selection. -/
theorem parseOutput_key_and_line (k l : String) (hk : '\n' ∉ k.data) (_hl : '\n' ∉ l.data) :
    ParseOutput (k ++ "\n" ++ l ++ "\n") =
      { Key := k, Line := l, Fields := SplitTab l, Canceled := false } ∧
    String.intercalate "\t" (SplitTab l) = l ∧
    (ParseOutput "").Canceled = true ∧ (ParseOutput "\n").Canceled = true := by
  refine ⟨?_, intercalate_splitTab l, by decide, by decide⟩
  have e1 : k ++ "\n" ++ l ++ "\n" = String.mk ((k.data ++ '\n' :: l.data) ++ ['\n']) := by
    apply String.ext
    simp [String.data_append]
  have e2 : ("\n" : String) = String.mk ['\n'] := rfl
  unfold ParseOutput
  rw [e1, e2, trimSuffix_append]
  simp only [splitN_two '\n' k.data l.data hk, List.map_cons, List.map_nil, List.length_cons,
    List.length_nil]
  simp

/-- C25 (witness): the key `ctrl-o` and a menu line of three fields; the empty key
with the same line. -/
theorem parseOutput_key_and_line_witness :
    ParseOutput ("ctrl-o" ++ "\n" ++ "○ htop\talt-h\thtop" ++ "\n") =
      { Key := "ctrl-o", Line := "○ htop\talt-h\thtop",
        Fields := ["○ htop", "alt-h", "htop"], Canceled := false } ∧
    ParseOutput ("" ++ "\n" ++ "○ htop\talt-h\thtop" ++ "\n") =
      { Key := "", Line := "○ htop\talt-h\thtop",
        Fields := ["○ htop", "alt-h", "htop"], Canceled := false } :=
  ⟨(parseOutput_key_and_line "ctrl-o" "○ htop\talt-h\thtop" (by decide) (by decide)).1.trans
    (by decide),
   (parseOutput_key_and_line "" "○ htop\talt-h\thtop" (by decide) (by decide)).1.trans
    (by decide)⟩

/-! ### C26: grouping by folder -/

/-- C26 (failing input): the five sample files, folders `A` (files of time 10 and 5)
and `B` (files of time 10 and 7) with the same latest time 10.  In the mode
`modified-folder` the files of the two folders alternate, in the descending and in
the ascending direction: the output is not grouped by folder. -/
theorem sortEntries_modified_folder_not_grouped :
    sampleEntries.map (fun e => (e.RelPath, e.Folder, e.ModTime)) =
      [("A/y", "A", 5), ("c", "c", 8), ("B/z", "B", 10), ("A/x", "A", 10), ("B/w", "B", 7)] ∧
    ((sortItem "modified-folder" "descending").sortEntries sampleEntries).map
      (fun e => e.RelPath) = ["B/z", "A/x", "B/w", "A/y", "c"] ∧
    groupedByFolder ((sortItem "modified-folder" "descending").sortEntries sampleEntries) =
      false ∧
    ((sortItem "modified-folder" "ascending").sortEntries sampleEntries).map
      (fun e => e.RelPath) = ["c", "A/y", "B/w", "A/x", "B/z"] ∧
    groupedByFolder ((sortItem "modified-folder" "ascending").sortEntries sampleEntries) =
      false := by
  decide

/-! ### C27: the actions of a parsed dirbrowser -/

/-- The extent of the defect of C27: whatever other keys a dirbrowser section sets,
without the key `primary_action` the parsed dirbrowser has the own action `popup`. -/
theorem parseDirbrowser_primary (joinHome : String → String) (name : String)
    (data : List (String × String)) (h : ∀ kv ∈ data, kv.1 ≠ "primary_action") :
    (parseDirbrowser joinHome name data).PrimaryAction = ActionPopup := by
  induction data using List.reverseRecOn with
  | nil => rfl
  | append_singleton l kv ih =>
    have hkv : ¬ kv.1 = "primary_action" := h kv (by simp)
    have ih' := ih (fun x hx => h x (by simp [hx]))
    unfold parseDirbrowser at ih' ⊢
    rw [List.foldl_append, List.foldl_cons, List.foldl_nil]
    simp only [apply_ite Dirbrowser.PrimaryAction, hkv, if_false, ite_self]
    exact ih'

/-- Likewise, without the key `secondary_action` the parsed dirbrowser has the own
action `window`. -/
theorem parseDirbrowser_secondary (joinHome : String → String) (name : String)
    (data : List (String × String)) (h : ∀ kv ∈ data, kv.1 ≠ "secondary_action") :
    (parseDirbrowser joinHome name data).SecondaryAction = ActionWindow := by
  induction data using List.reverseRecOn with
  | nil => rfl
  | append_singleton l kv ih =>
    have hkv : ¬ kv.1 = "secondary_action" := h kv (by simp)
    have ih' := ih (fun x hx => h x (by simp [hx]))
    unfold parseDirbrowser at ih' ⊢
    rw [List.foldl_append, List.foldl_cons, List.foldl_nil]
    simp only [apply_ite Dirbrowser.SecondaryAction, hkv, if_false, ite_self]
    exact ih'

/-- C27 (failing input): the settings give `primary_action = window` and
`secondary_action = pane_right`, the section `[dirbrowser:d]` sets only the
directory.  The parsed dirbrowser has the actions `popup` and `window` that
`DefaultDirbrowser` fills in, so the fallback of the accessors to the settings is
not taken: the item resolves to `popup` and `window`, not to the actions of the
settings. -/
theorem dirbrowser_ignores_settings_action :
    (Load id ("[settings]\nprimary_action = window\nsecondary_action = pane_right\n" ++
      "[dirbrowser:d]\ndirectory = /tmp\n")).map (fun cfg => cfg.Settings.PrimaryAction) =
      some ActionWindow ∧
    (Load id ("[settings]\nprimary_action = window\nsecondary_action = pane_right\n" ++
      "[dirbrowser:d]\ndirectory = /tmp\n")).map (fun cfg => cfg.Settings.SecondaryAction) =
      some ActionPaneRight ∧
    (Load id ("[settings]\nprimary_action = window\n" ++
      "secondary_action = pane_right\n[dirbrowser:d]\ndirectory = /tmp\n")).map
      (fun cfg => (NewRegistry cfg).Items.map
        (fun item => match item with
          | .dirbrowser d => (d.Name, d.GetPrimaryAction, d.GetSecondaryAction)
          | _ => ("", "", ""))) = some [("d", ActionPopup, ActionWindow)] := by
  decide

/-! ### C28: the item of a shortcut -/

theorem validateShortcut_error_fields (key name : String) (s : Settings)
    (registered : List (String × String)) (err : ValidationError)
    (h : ValidateShortcut key name s registered = some err) :
    err.Key = key ∧ err.ItemName = name := by
  unfold ValidateShortcut at h
  by_cases hk : key = ""
  · rw [if_pos hk] at h
    cases h
  · rw [if_neg hk] at h
    dsimp only at h
    split_ifs at h
    · split at h
      · injection h with h
        subst h
        exact ⟨rfl, rfl⟩
      · split at h
        · injection h with h
          subst h
          exact ⟨rfl, rfl⟩
        · cases h
    · injection h with h
      subst h
      exact ⟨rfl, rfl⟩

theorem register_errors_mono (v : ShortcutValidator) (sc name : String) (x : ValidationError)
    (hx : x ∈ v.errors) : x ∈ (v.Register sc name).2.errors := by
  unfold ShortcutValidator.Register
  split_ifs
  · exact hx
  · split
    · exact List.mem_append_left _ hx
    · exact hx

theorem registerAll_errors_mono (es : List (String × String)) (v : ShortcutValidator)
    (x : ValidationError) (hx : x ∈ v.errors) :
    x ∈ (es.foldl (fun v e => (v.Register e.1 e.2).2) v).errors := by
  induction es generalizing v with
  | nil => exact hx
  | cons e rest ih =>
    rw [List.foldl_cons]
    exact ih _ (register_errors_mono v e.1 e.2 x hx)

/-- Every entity with a shortcut either leaves an error with its key and name, or is
bound under its lower-cased key when all entities are registered. -/
theorem registerAll_error_or_bound (es : List (String × String)) (v : ShortcutValidator)
    (s n : String) (hmem : (s, n) ∈ es) (hs : s ≠ "") :
    (∃ e ∈ (es.foldl (fun v e => (v.Register e.1 e.2).2) v).errors,
      e.Key = s ∧ e.ItemName = n) ∨
    mapGet (es.foldl (fun v e => (v.Register e.1 e.2).2) v).registered (ToLower s) =
      some n := by
  induction es generalizing v with
  | nil => cases hmem
  | cons e rest ih =>
    rw [List.foldl_cons]
    rcases List.mem_cons.mp hmem with he | hrest
    · subst he
      cases hv : ValidateShortcut s n v.settings v.registered with
      | some err =>
        left
        have hreg : (v.Register s n).2 = { v with errors := v.errors ++ [err] } := by
          unfold ShortcutValidator.Register
          rw [if_neg hs, hv]
        refine ⟨err, registerAll_errors_mono rest _ err ?_,
          validateShortcut_error_fields s n _ _ err hv⟩
        rw [hreg]
        simp
      | none =>
        right
        have hreg : (v.Register s n).2 =
            { v with registered := mapSet v.registered (ToLower s) n } := by
          unfold ShortcutValidator.Register
          rw [if_neg hs, hv]
        rw [registerAll_mapGet, hreg]
        simp only [mapGet_mapSet, if_true]
    · exact ih _ hrest

/-- C28 (counterexample): the app `a` with the configured shortcut `ALT-A`.  The
shortcut is accepted without a validation error and is registered under the key
`alt-a`; the search for the shortcut as configured finds nothing. -/
theorem getItemByShortcut_configured_case :
    (Load id "[app:a]\ncmd = x\nshortcut = ALT-A\n").map
      (fun cfg => (NewRegistry cfg).ValidationErrors) = some [] ∧
    (Load id "[app:a]\ncmd = x\nshortcut = ALT-A\n").map
      (fun cfg => (NewRegistry cfg).Shortcuts) = some [("alt-a", "a")] ∧
    (Load id "[app:a]\ncmd = x\nshortcut = ALT-A\n").map
      (fun cfg => (NewRegistry cfg).GetItemByShortcut "ALT-A") = some "" ∧
    (Load id "[app:a]\ncmd = x\nshortcut = ALT-A\n").map
      (fun cfg => (NewRegistry cfg).GetItemByShortcut "alt-a") = some "a" := by
  decide

/-- C28 (amended): for an app, menu or dirbrowser of the config with the non-empty
shortcut `s` and the name `n`, when no validation error carries that key and that
name, `GetItemByShortcut` returns `n` for the lower-cased `s`, and so for `s` itself
when `s` is written in lower case. -/
theorem getItemByShortcut_accepted (cfg : Config) (s n : String)
    (hmem : (s, n) ∈ cfg.entities) (hs : s ≠ "")
    (hok : ∀ e ∈ (NewRegistry cfg).ValidationErrors, ¬ (e.Key = s ∧ e.ItemName = n)) :
    (NewRegistry cfg).GetItemByShortcut (ToLower s) = n ∧
    (ToLower s = s → (NewRegistry cfg).GetItemByShortcut s = n) := by
  have h1 : (NewRegistry cfg).Shortcuts =
      (cfg.entities.foldl (fun v e => (v.Register e.1 e.2).2)
        (NewShortcutValidator cfg.Settings)).registered := by
    simp only [NewRegistry, ShortcutValidator.Shortcuts, loops_validator]
  have h2 : (NewRegistry cfg).ValidationErrors =
      (cfg.entities.foldl (fun v e => (v.Register e.1 e.2).2)
        (NewShortcutValidator cfg.Settings)).errors := by
    simp only [NewRegistry, ShortcutValidator.Errors, loops_validator]
  have key : (NewRegistry cfg).GetItemByShortcut (ToLower s) = n := by
    rcases registerAll_error_or_bound cfg.entities (NewShortcutValidator cfg.Settings) s n
      hmem hs with ⟨e, he, hk⟩ | hb
    · rw [← h2] at he
      exact absurd hk (hok e he)
    · unfold Registry.GetItemByShortcut
      rw [h1, hb]
      rfl
  refine ⟨key, fun hl => ?_⟩
  rw [hl] at key
  exact key

/-- C28 (witness): the apps `a` with the shortcut `ALT-A` and `b` with the shortcut
`alt-b`: the lower-cased key `alt-a` finds `a`, the key `alt-b` as configured finds
`b`. -/
theorem getItemByShortcut_accepted_witness :
    (NewRegistry (sampleConfig DefaultSettings
      [sampleApp "a" "" "ALT-A", sampleApp "b" "" "alt-b"] [] [] [])).GetItemByShortcut
        "alt-a" = "a" ∧
    (NewRegistry (sampleConfig DefaultSettings
      [sampleApp "a" "" "ALT-A", sampleApp "b" "" "alt-b"] [] [] [])).GetItemByShortcut
        "alt-b" = "b" :=
  ⟨(getItemByShortcut_accepted (sampleConfig DefaultSettings
      [sampleApp "a" "" "ALT-A", sampleApp "b" "" "alt-b"] [] [] []) "ALT-A" "a"
      (by decide) (by decide) (by decide)).1,
   (getItemByShortcut_accepted (sampleConfig DefaultSettings
      [sampleApp "a" "" "ALT-A", sampleApp "b" "" "alt-b"] [] [] []) "alt-b" "b"
      (by decide) (by decide) (by decide)).2 (by decide)⟩

/-! ### C29: a section without keys -/

theorem matchSection_some_not_skipped (t inner : String) (h : matchSection t = some inner) :
    ¬ (t = "" ∨ HasPrefix t "#" = true) := by
  unfold matchSection at h
  rcases hd : t.data with _ | ⟨c, rest⟩
  · rw [hd] at h
    cases h
  · rw [hd] at h
    by_cases hc : c = '['
    · subst hc
      rw [not_or]
      constructor
      · intro he
        rw [he] at hd
        cases hd
      · simp [HasPrefix, hd, List.isPrefixOf]
    · exfalso
      split at h
      · rename_i heq
        injection heq with h1 h2
        exact hc h1
      · cases h

/-- A section header, read outside a continued value, flushes the section before it
and opens the new section without data. -/
theorem step_header (joinHome : String → String) (st : LoadState) (h inner : String)
    (hc : st.continuationKey = "") (hh : matchSection (TrimSpace h) = some inner) :
    Load.step joinHome st h =
      { st with
        cfg := flushSection joinHome st.cfg st.sectionType st.sectionName st.sectionData
        sectionData := []
        currentSection := inner
        sectionType := (parseSection inner).1
        sectionName := (parseSection inner).2 } := by
  unfold Load.step
  dsimp only
  rw [if_neg (matchSection_some_not_skipped _ _ hh), if_neg (not_not.mpr hc), hh]

/-- A line that is no header and no `key = value` line, read outside a continued
value in a section that is no order section, changes nothing. -/
theorem step_bare (joinHome : String → String) (st : LoadState) (l : String)
    (hc : st.continuationKey = "")
    (hno : ¬ (st.currentSection = "order" ∨ HasPrefix st.currentSection "order:" = true))
    (hb : isBareLine l) : Load.step joinHome st l = st := by
  rcases hb with hb | ⟨h1, h2⟩
  · exact step_skip joinHome st l hb
  · by_cases hs : TrimSpace l = "" ∨ HasPrefix (TrimSpace l) "#" = true
    · exact step_skip joinHome st l hs
    · unfold Load.step
      dsimp only
      rw [if_neg hs, if_neg (not_not.mpr hc), h1, h2]
      dsimp only
      rw [if_neg hno]

theorem foldl_step_bare (joinHome : String → String) (bare : List String) (st : LoadState)
    (hc : st.continuationKey = "")
    (hno : ¬ (st.currentSection = "order" ∨ HasPrefix st.currentSection "order:" = true))
    (hb : ∀ l ∈ bare, isBareLine l) : bare.foldl (Load.step joinHome) st = st := by
  induction bare with
  | nil => rfl
  | cons l rest ih =>
    rw [List.foldl_cons, step_bare joinHome st l hc hno (hb l (List.mem_cons_self _ _))]
    exact ih (fun x hx => hb x (List.mem_cons_of_mem _ hx))

/-- A header whose type is one of the four entity kinds does not open an order
section. -/
theorem parseSection_kind_not_order (inner : String)
    (hk : (parseSection inner).1 ∈ ["app", "menu", "dirbrowser", "taskrunner"]) :
    ¬ (inner = "order" ∨ HasPrefix inner "order:" = true) := by
  rintro (h | h)
  · subst h
    revert hk
    decide
  · unfold HasPrefix at h
    rw [List.isPrefixOf_iff_prefix] at h
    obtain ⟨rest, hr⟩ := h
    have e : parseSection inner = ("order", String.mk rest) := by
      unfold parseSection
      have hd : inner.data = ['o', 'r', 'd', 'e', 'r'] ++ ':' :: rest := by
        rw [← hr]
        rfl
      rw [hd, span_append_stop (p := fun c => c != ':') ['o', 'r', 'd', 'e', 'r'] rest ':'
        (by decide) (by decide)]
    rw [e] at hk
    have hk' : "order" ∈ ["app", "menu", "dirbrowser", "taskrunner"] := hk
    exact absurd hk' (by decide)

theorem flushSection_no_data (joinHome : String → String) (cfg : Config) (ty name : String)
    (hty : ty ≠ "order") : flushSection joinHome cfg ty name [] = cfg := by
  unfold flushSection
  rw [if_pos (Or.inr ⟨rfl, hty⟩)]

/-- C29: a section of type app, menu, dirbrowser or taskrunner whose header (read
outside a continued value) is followed only by lines that are neither headers nor
`key = value` lines, up to the end of the input or the next header, adds nothing:
`Load` returns the same config as for the lines without that section, so no app,
menu, dirbrowser or taskrunner is created for it. -/
theorem load_section_without_keys (joinHome : String → String) (pre bare post : List String)
    (h inner h2 inner2 : String)
    (hc : (pre.foldl (Load.step joinHome) Load.init).continuationKey = "")
    (hh : matchSection (TrimSpace h) = some inner)
    (hk : (parseSection inner).1 ∈ ["app", "menu", "dirbrowser", "taskrunner"])
    (hb : ∀ l ∈ bare, isBareLine l)
    (hh2 : matchSection (TrimSpace h2) = some inner2) :
    Load.ofLines joinHome (pre ++ h :: bare) = Load.ofLines joinHome pre ∧
    Load.ofLines joinHome (pre ++ h :: (bare ++ h2 :: post)) =
      Load.ofLines joinHome (pre ++ h2 :: post) := by
  have hty : (parseSection inner).1 ≠ "order" := by
    intro e
    rw [e] at hk
    revert hk
    decide
  have hno := parseSection_kind_not_order inner hk
  have hs1 := step_header joinHome (pre.foldl (Load.step joinHome) Load.init) h inner hc hh
  have hbare : bare.foldl (Load.step joinHome)
      (Load.step joinHome (pre.foldl (Load.step joinHome) Load.init) h) =
      Load.step joinHome (pre.foldl (Load.step joinHome) Load.init) h := by
    apply foldl_step_bare joinHome bare _ _ _ hb
    · rw [hs1]
      exact hc
    · rw [hs1]
      exact hno
  constructor
  · unfold Load.ofLines
    rw [List.foldl_append, List.foldl_cons, hbare, hs1]
    dsimp only
    rw [flushSection_no_data joinHome _ _ _ hty]
  · unfold Load.ofLines
    rw [List.foldl_append, List.foldl_cons, List.foldl_append, List.foldl_cons, hbare,
      List.foldl_append, List.foldl_cons]
    have e : Load.step joinHome
        (Load.step joinHome (pre.foldl (Load.step joinHome) Load.init) h) h2 =
        Load.step joinHome (pre.foldl (Load.step joinHome) Load.init) h2 := by
      rw [step_header joinHome _ h2 inner2 (by rw [hs1]; exact hc) hh2,
        step_header joinHome _ h2 inner2 hc hh2, hs1]
      dsimp only
      rw [flushSection_no_data joinHome _ _ _ hty]
    rw [e]

/-- C29 (witness): the menu section `[menu:m]` with a stray line and no key, between
the app sections `a` and `b`, and at the end of the input: the config holds the
two apps, or the one app, and no menu. -/
theorem load_section_without_keys_witness :
    Load.ofLines id (["[app:a]", "cmd = x"] ++ "[menu:m]" :: (["stray", "# c = d"] ++
      "[app:b]" :: ["cmd = y"])) =
      Load.ofLines id (["[app:a]", "cmd = x"] ++ "[app:b]" :: ["cmd = y"]) ∧
    (Load.ofLines id (["[app:a]", "cmd = x"] ++ "[menu:m]" :: (["stray", "# c = d"] ++
      "[app:b]" :: ["cmd = y"]))).Menus = [] ∧
    (Load.ofLines id (["[app:a]", "cmd = x"] ++ "[menu:m]" :: (["stray", "# c = d"] ++
      "[app:b]" :: ["cmd = y"]))).Apps.map (fun a => a.Name) = ["a", "b"] ∧
    Load.ofLines id (["[app:a]", "cmd = x"] ++ "[menu:m]" :: ["stray", "# c = d"]) =
      Load.ofLines id ["[app:a]", "cmd = x"] :=
  ⟨(load_section_without_keys id ["[app:a]", "cmd = x"] ["stray", "# c = d"] ["cmd = y"]
      "[menu:m]" "menu:m" "[app:b]" "app:b" (by decide) (by decide) (by decide)
      (by
        intro l hl
        simp only [List.mem_cons, List.mem_singleton, List.not_mem_nil, or_false] at hl
        rcases hl with rfl | rfl
        · exact Or.inr (by decide)
        · exact Or.inl (Or.inr (by decide)))
      (by decide)).2,
   by decide, by decide,
   (load_section_without_keys id ["[app:a]", "cmd = x"] ["stray", "# c = d"] []
      "[menu:m]" "menu:m" "[app:b]" "app:b" (by decide) (by decide) (by decide)
      (by
        intro l hl
        simp only [List.mem_cons, List.mem_singleton, List.not_mem_nil, or_false] at hl
        rcases hl with rfl | rfl
        · exact Or.inr (by decide)
        · exact Or.inl (Or.inr (by decide)))
      (by decide)).1⟩

/-! ### C30: a continued value in the settings -/

/-- C30 (failing input): the setting `fzf_colors` written on one line, and written
across two physical lines joined by a trailing backslash.  The one-line form sets
`FzfColors` to the value; the continued form leaves all settings at their defaults:
the joined value is stored in the data of the section, which `flushSection` drops
for the section `settings`.  The same continued entry in an app section is stored
with the joined value. -/
theorem load_settings_continuation_dropped :
    (Load id "[settings]\nfzf_colors = fg+:white, bg+:237\n").map
      (fun cfg => cfg.Settings.FzfColors) = some "fg+:white, bg+:237" ∧
    (Load id "[settings]\nfzf_colors = fg+:white,\\\nbg+:237\n").map
      (fun cfg => cfg.Settings.FzfColors) = some DefaultSettings.FzfColors ∧
    DefaultSettings.FzfColors ≠ "fg+:white, bg+:237" ∧
    (Load id "[settings]\nfzf_colors = fg+:white,\\\nbg+:237\n").map
      (fun cfg => cfg.Settings) = some DefaultSettings ∧
    (["[settings]", "fzf_colors = fg+:white,\\", "bg+:237"].foldl (Load.step id)
      Load.init).sectionData = [("fzf_colors", "fg+:white, bg+:237")] ∧
    (Load id "[app:x]\ncmd = fg+:white,\\\nbg+:237\n").map
      (fun cfg => cfg.Apps.map (fun a => a.Cmd)) = some ["fg+:white, bg+:237"] := by
  refine ⟨by decide, by decide, by decide, rfl, by decide, by decide⟩

/-! ### C2: the order of the regular items in BuildMenu -/

theorem filtered_eq (r : Registry) (scope : String) :
    r.filtered scope = r.Items.filter (fun item => decide (item.Parent = scope)) := by
  unfold Registry.filtered
  by_cases hs : scope = ""
  · subst hs
    simp
  · simp [hs]

theorem orderList_eq (r : Registry) (scope : String) :
    r.orderList scope =
      if scope = "" then r.Order.Main else (mapGet r.Order.Submenus scope).getD [] := by
  unfold Registry.orderList
  split_ifs
  · rfl
  · cases mapGet r.Order.Submenus scope <;> rfl

/-- C2: let the visible items be the registry items whose parent is the scope, with
pairwise distinct names, and let the order list be `Order.Main` at root and
`Order.Submenus[scope]` in a submenu (the empty list when the submenu has none),
without repeated names.  Then `BuildMenu` emits, before the task-runner lines, the
rendered lines of the visible items arranged so that their names are the names of
the order list that are visible, in list order, followed by the remaining names in
ascending order.  The same order of names results from every arrangement of the
results that is sorted by the comparison function of `sortResults`, whatever
algorithm `sort.Slice` runs. -/
theorem buildMenu_order (r : Registry) (env : Env) (runningWindows : String → Bool)
    (scope : String) (visible : List Item) (orderList : List String)
    (hv : visible = r.Items.filter (fun item => decide (item.Parent = scope)))
    (hol : orderList =
      if scope = "" then r.Order.Main else (mapGet r.Order.Submenus scope).getD [])
    (hn : (visible.map Item.Name).Nodup) (ho : orderList.Nodup) :
    (∃ items : List Item, items.Perm visible ∧
      items.map Item.Name =
        orderList.filter (fun n => decide (n ∈ visible.map Item.Name)) ++
          List.insertionSort (fun a b => a ≤ b)
            ((visible.map Item.Name).filter (fun n => decide (n ∉ orderList))) ∧
      r.BuildMenu env runningWindows scope =
        String.intercalate "\n"
          (items.map (fun item =>
            if r.Settings.ShowHelp then
              addShortcutPrefix (alignDisplayColumn
                (item.FormatLine env (runningWindows item.Name)) (r.maxWidth scope))
            else alignDisplayColumn
                (item.FormatLine env (runningWindows item.Name)) (r.maxWidth scope)) ++
            r.taskrunnerLines env runningWindows scope)) ∧
    (∀ out : List menuResult,
      out.Perm (visible.map (fun item =>
        ({ name := item.Name, line := item.FormatLine env (runningWindows item.Name) } :
          menuResult))) →
      out.Pairwise (fun a b => sortLess (orderMap orderList) b a = false) →
      out.map (fun res => res.name) =
        orderList.filter (fun n => decide (n ∈ visible.map Item.Name)) ++
          List.insertionSort (fun a b => a ≤ b)
            ((visible.map Item.Name).filter (fun n => decide (n ∉ orderList)))) := by
  have hnames : (visible.map (fun item =>
      ({ name := item.Name, line := item.FormatLine env (runningWindows item.Name) } :
        menuResult))).map (fun x => x.name) = visible.map Item.Name := by
    simp [Function.comp_def]
  have hfil : r.filtered scope = visible := by rw [hv, filtered_eq]
  have hord : r.orderList scope = orderList := by rw [hol, orderList_eq]
  constructor
  · refine ⟨sortSlice (fun a b : Item =>
        sortLess (orderMap orderList)
          { name := a.Name, line := a.FormatLine env (runningWindows a.Name) }
          { name := b.Name, line := b.FormatLine env (runningWindows b.Name) })
        visible, sortSlice_perm _ _, ?_, ?_⟩
    · have h := sorted_names_unique orderList ho
        (visible.map (fun item =>
          ({ name := item.Name, line := item.FormatLine env (runningWindows item.Name) } :
            menuResult)))
        (sortSlice (sortLess (orderMap orderList)) (visible.map (fun item =>
          ({ name := item.Name, line := item.FormatLine env (runningWindows item.Name) } :
            menuResult))))
        (by rw [hnames]; exact hn)
        (sortSlice_perm _ _)
        (by
          have hs := sortSlice_sorted (sortLess (orderMap orderList))
            (fun x : menuResult => nameKey (orderMap orderList) x.name)
            (sortLess_iff _) (visible.map (fun item =>
              ({ name := item.Name, line := item.FormatLine env (runningWindows item.Name) } :
                menuResult)))
          refine hs.imp ?_
          intro a b hab
          cases hl : sortLess (orderMap orderList) b a
          · rfl
          · exact absurd ((sortLess_iff _ _ _).mp hl) (not_lt.mpr hab))
      rw [hnames, sortSlice_map, List.map_map] at h
      exact h
    · unfold Registry.BuildMenu Registry.regularLines Registry.sortResults Registry.results
      rw [hfil, hord, sortSlice_map, List.map_map]
      rfl
  · intro out hperm hsorted
    have h := sorted_names_unique orderList ho _ out (by rw [hnames]; exact hn) hperm hsorted
    rw [hnames] at h
    exact h

/-- C2 (witness): at root, the order list `[b, a]` and the apps `a`, `b`, `c` give the
names `b, a, c`; in the submenu `sys`, the order list `[sys/c, sys/a]` of that
submenu and the apps `sys/a`, `sys/b`, `sys/c` give `sys/c, sys/a, sys/b`, while
the order list of the root, `[top, sys/b]`, is not used there. -/
theorem buildMenu_order_witness :
    (∃ items : List Item, items.map Item.Name = ["b", "a", "c"] ∧
      (NewRegistry (sampleConfig DefaultSettings
        [sampleApp "a" "" "", sampleApp "b" "" "", sampleApp "c" "" ""] [] []
        ["b", "a"])).BuildMenu sampleEnv (fun _ => false) "" =
        String.intercalate "\n" (items.map (fun item =>
          alignDisplayColumn (item.FormatLine sampleEnv false) 1))) ∧
    (NewRegistry (sampleConfig DefaultSettings
        [sampleApp "a" "" "", sampleApp "b" "" "", sampleApp "c" "" ""] [] []
        ["b", "a"])).BuildMenu sampleEnv (fun _ => false) "" =
      "○ b  \t\tb\n○ a  \t\ta\n○ c  \t\tc" ∧
    (∃ items : List Item, items.map Item.Name = ["sys/c", "sys/a", "sys/b"] ∧
      (NewRegistry sampleSubmenuConfig).BuildMenu sampleEnv (fun _ => false) "sys" =
        String.intercalate "\n" (items.map (fun item =>
          alignDisplayColumn (item.FormatLine sampleEnv false) 1))) ∧
    (NewRegistry sampleSubmenuConfig).BuildMenu sampleEnv (fun _ => false) "sys" =
      "○ c  \t\tsys/c\n○ a  \t\tsys/a\n○ b  \t\tsys/b" := by
  refine ⟨?_, by decide, ?_, by decide⟩
  · obtain ⟨items, _, hnames, hb⟩ :=
      (buildMenu_order (NewRegistry (sampleConfig DefaultSettings
        [sampleApp "a" "" "", sampleApp "b" "" "", sampleApp "c" "" ""] [] []
        ["b", "a"])) sampleEnv (fun _ => false) "" _ _ rfl rfl (by decide) (by decide)).1
    exact ⟨items, hnames.trans (by decide), hb.trans (by
      congr 1
      rw [show (NewRegistry (sampleConfig DefaultSettings
        [sampleApp "a" "" "", sampleApp "b" "" "", sampleApp "c" "" ""] [] []
        ["b", "a"])).taskrunnerLines sampleEnv (fun _ => false) "" = [] by decide,
        List.append_nil]
      rfl)⟩
  · obtain ⟨items, _, hnames, hb⟩ :=
      (buildMenu_order (NewRegistry sampleSubmenuConfig) sampleEnv (fun _ => false) "sys"
        _ _ rfl rfl (by decide) (by decide)).1
    exact ⟨items, hnames.trans (by decide), hb.trans (by
      congr 1
      rw [show (NewRegistry sampleSubmenuConfig).taskrunnerLines sampleEnv
        (fun _ => false) "sys" = [] by decide, List.append_nil]
      rfl)⟩

/-! ### C19: blank lines and comments in a file -/

theorem joinLines_cons (x : String) (xs : List String) :
    (joinLines (x :: xs)).data = x.data ++ '\n' :: (joinLines xs).data := by
  simp [joinLines]

theorem splitOn_joinLines (lines : List String) (tail : List Char)
    (hl : ∀ x ∈ lines, '\n' ∉ x.data) (ht : '\n' ∉ tail) :
    splitOn '\n' ((joinLines lines).data ++ tail) = lines.map (fun l => l.data) ++ [tail] := by
  induction lines with
  | nil => simpa [joinLines] using splitOn_no_sep '\n' tail ht
  | cons x xs ih =>
    rw [joinLines_cons, List.append_assoc, List.cons_append,
      splitOn_append_sep '\n' x.data _ (hl x (List.mem_cons_self _ _)),
      ih (fun y hy => hl y (List.mem_cons_of_mem _ hy))]
    rfl

/-- The scanner reads a text to its end exactly when every physical line, and the
rest after the last newline, has at most `maxLineBytes` bytes. -/
theorem scanFits_joinLines (lines : List String) (tail : String)
    (hl : ∀ x ∈ lines, '\n' ∉ x.data) (ht : '\n' ∉ tail.data) :
    scanFits (joinLines lines ++ tail) = true ↔
      (∀ x ∈ lines, x.utf8ByteSize ≤ maxLineBytes) ∧ tail.utf8ByteSize ≤ maxLineBytes := by
  have e : ∀ x : String, x.utf8ByteSize = String.utf8Len x.data := fun _ => rfl
  unfold scanFits
  rw [String.data_append, splitOn_joinLines lines tail.data hl ht]
  simp [List.all_append, e]

theorem scanLines_joinLines (lines : List String) (tail : String)
    (hl : ∀ x ∈ lines, '\n' ∉ x.data) (ht : '\n' ∉ tail.data) :
    scanLines (joinLines lines ++ tail) =
      (lines ++ if tail = "" then [] else [tail]).map (fun l => dropCR l.data) := by
  unfold scanLines
  rw [String.data_append, splitOn_joinLines lines tail.data hl ht]
  by_cases h : tail = ""
  · subst h
    simp [dropCR, Function.comp_def]
  · have hd : tail.data ≠ [] := fun e => h (String.ext e)
    simp [h, hd, dropCR, Function.comp_def]

theorem trimSpace_append_space (a : List Char) (c : Char) (hc : isSpace c = true) :
    trimRight (trimLeft (a ++ [c])) = trimRight (trimLeft a) := by
  induction a with
  | nil => simp [trimLeft, trimRight, List.dropWhile, hc]
  | cons x xs ih =>
    by_cases hx : isSpace x = true
    · simp only [trimLeft, List.cons_append, List.dropWhile, hx] at ih ⊢
      exact ih
    · have hx' : isSpace x = false := by simpa using hx
      have e1 : trimLeft (x :: xs ++ [c]) = (x :: xs) ++ [c] := by
        simp [trimLeft, List.dropWhile, hx']
      have e2 : trimLeft (x :: xs) = x :: xs := by
        simp [trimLeft, List.dropWhile, hx']
      rw [e1, e2, trimRight_append_space _ _ hc]

/-- The carriage return that the scanner drops is white space: the trimmed line is
the same with it and without it. -/
theorem trimSpace_dropCR (l : String) : TrimSpace (dropCR l.data) = TrimSpace l := by
  unfold dropCR
  split
  · rename_i r h
    have e : l.data = r.reverse ++ ['\r'] := by
      have := congrArg List.reverse h
      simpa using this
    unfold TrimSpace
    rw [e, trimSpace_append_space _ _ (by decide)]
  · rfl

/-- A blank line or a comment among the scanned lines changes nothing. -/
theorem ofLines_skip_line (joinHome : String → String) (pre post : List String)
    (l : String) (hl : TrimSpace l = "" ∨ HasPrefix (TrimSpace l) "#" = true) :
    Load.ofLines joinHome (pre ++ l :: post) = Load.ofLines joinHome (pre ++ post) := by
  unfold Load.ofLines
  simp only [List.foldl_append, List.foldl_cons, step_skip joinHome _ l hl]

theorem utf8Len_replicate (n : Nat) (c : Char) :
    String.utf8Len (List.replicate n c) = n * c.utf8Size := by
  induction n with
  | zero => simp
  | succ k ih =>
    rw [List.replicate_succ, String.utf8Len_cons, ih]
    ring

theorem longComment_size : longComment.utf8ByteSize = 70000 := by
  unfold longComment
  rw [String.utf8ByteSize_mk, String.utf8Len_cons, utf8Len_replicate]
  decide

theorem longComment_no_newline : '\n' ∉ longComment.data := by
  unfold longComment
  simp only [List.mem_cons, List.mem_replicate, not_or]
  exact ⟨by decide, fun h => absurd h.2 (by decide)⟩

theorem trimSpace_hash_xs (n : Nat) :
    TrimSpace (String.mk ('#' :: List.replicate (n + 1) 'x')) =
      String.mk ('#' :: List.replicate (n + 1) 'x') := by
  unfold TrimSpace
  have h1 : trimLeft ('#' :: List.replicate (n + 1) 'x') =
      '#' :: List.replicate (n + 1) 'x' := by
    unfold trimLeft
    rw [List.dropWhile_cons_of_neg (by decide)]
  have h2 : ('#' :: List.replicate (n + 1) 'x') = ('#' :: List.replicate n 'x') ++ ['x'] := by
    rw [List.cons_append, ← List.replicate_succ']
  show String.mk (trimRight (trimLeft ('#' :: List.replicate (n + 1) 'x'))) = _
  rw [h1, h2, trimRight_append_stop _ _ (by decide)]

theorem longComment_is_comment : HasPrefix (TrimSpace longComment) "#" = true := by
  have e : TrimSpace longComment = longComment := trimSpace_hash_xs 69998
  rw [e]
  rfl

/-- C19 (counterexample): the text with the lines `[app:x]` and `cmd = a` is read to
the config with the app `x`; with `longComment`, a comment line of 70000 bytes,
inserted between the two lines, the scanner stops with `ErrTooLong` and `Load`
returns no config. -/
theorem load_long_comment_fails :
    HasPrefix (TrimSpace longComment) "#" = true ∧
    longComment.utf8ByteSize = 70000 ∧
    (Load id (joinLines (["[app:x]"] ++ ["cmd = a"]))).map
      (fun cfg => cfg.Apps.map (fun a => (a.Name, a.Cmd))) = some [("x", "a")] ∧
    Load id (joinLines (["[app:x]"] ++ longComment :: ["cmd = a"])) = none := by
  refine ⟨longComment_is_comment, longComment_size, by decide, ?_⟩
  have hfit : ¬ (scanFits (joinLines (["[app:x]"] ++ longComment :: ["cmd = a"]) ++ "") =
      true) := by
    rw [scanFits_joinLines _ _ (by
        intro x hx
        simp only [List.singleton_append, List.mem_cons, List.mem_singleton,
          List.not_mem_nil, or_false] at hx
        rcases hx with rfl | rfl | rfl
        · decide
        · exact longComment_no_newline
        · decide) (by decide)]
    intro h
    have := h.1 longComment (by simp)
    rw [longComment_size] at this
    exact absurd this (by decide)
  rw [String.append_empty] at hfit
  unfold Load
  rw [if_neg hfit]

/-- C19 (amended): in a text of physical lines, each ended by a newline, and a rest
after the last newline, a blank line or a line whose trimmed content starts with
`#`, of at most 65535 bytes, inserted at any position (also between the physical
lines of a continued value) does not change what `Load` returns; and `Load` returns
a config exactly when no line of the text, and not the rest, has more than 65535
bytes. -/
theorem load_ignores_blank_and_comment (joinHome : String → String) (pre post : List String)
    (l tail : String)
    (hpre : ∀ x ∈ pre, '\n' ∉ x.data) (hpost : ∀ x ∈ post, '\n' ∉ x.data)
    (hl0 : '\n' ∉ l.data) (htail : '\n' ∉ tail.data)
    (hl : TrimSpace l = "" ∨ HasPrefix (TrimSpace l) "#" = true)
    (hfit : l.utf8ByteSize ≤ maxLineBytes) :
    Load joinHome (joinLines (pre ++ l :: post) ++ tail) =
      Load joinHome (joinLines (pre ++ post) ++ tail) ∧
    ((Load joinHome (joinLines (pre ++ post) ++ tail)).isSome = true ↔
      (∀ x ∈ pre ++ post, x.utf8ByteSize ≤ maxLineBytes) ∧
        tail.utf8ByteSize ≤ maxLineBytes) := by
  have h0 : ∀ x ∈ pre ++ post, '\n' ∉ x.data := by
    intro x hx
    rcases List.mem_append.mp hx with h | h
    · exact hpre x h
    · exact hpost x h
  have h1 : ∀ x ∈ pre ++ l :: post, '\n' ∉ x.data := by
    intro x hx
    rcases List.mem_append.mp hx with h | h
    · exact hpre x h
    · rcases List.mem_cons.mp h with h | h
      · rw [h]
        exact hl0
      · exact hpost x h
  have hf : scanFits (joinLines (pre ++ l :: post) ++ tail) =
      scanFits (joinLines (pre ++ post) ++ tail) := by
    rw [Bool.eq_iff_iff, scanFits_joinLines _ _ h1 htail, scanFits_joinLines _ _ h0 htail]
    constructor
    · rintro ⟨ha, ht⟩
      refine ⟨fun x hx => ha x ?_, ht⟩
      rcases List.mem_append.mp hx with h | h
      · exact List.mem_append_left _ h
      · exact List.mem_append_right _ (List.mem_cons_of_mem _ h)
    · rintro ⟨ha, ht⟩
      refine ⟨fun x hx => ?_, ht⟩
      rcases List.mem_append.mp hx with h | h
      · exact ha x (List.mem_append_left _ h)
      · rcases List.mem_cons.mp h with h | h
        · rw [h]
          exact hfit
        · exact ha x (List.mem_append_right _ h)
  have hs : Load.ofLines joinHome (scanLines (joinLines (pre ++ l :: post) ++ tail)) =
      Load.ofLines joinHome (scanLines (joinLines (pre ++ post) ++ tail)) := by
    rw [scanLines_joinLines _ _ h1 htail, scanLines_joinLines _ _ h0 htail]
    simp only [List.append_assoc, List.cons_append, List.map_append, List.map_cons]
    exact ofLines_skip_line joinHome _ _ _ (by rw [trimSpace_dropCR]; exact hl)
  constructor
  · unfold Load
    rw [hf, hs]
  · rw [← scanFits_joinLines _ _ h0 htail]
    unfold Load
    split_ifs with h
    · simp [h]
    · simp [h]

/-- C19 (witness): a comment line between the first and the second physical line of
a continued value, in a text whose last line has no newline. -/
theorem load_ignores_blank_and_comment_witness :
    Load id (joinLines (["[app:x]", "cmd = a\\"] ++ "  # note" :: []) ++ "b") =
      Load id (joinLines (["[app:x]", "cmd = a\\"] ++ []) ++ "b") ∧
    (Load id (joinLines (["[app:x]", "cmd = a\\"] ++ []) ++ "b")).map
      (fun cfg => cfg.Apps.map (fun a => a.Cmd)) = some ["a b"] ∧
    joinLines (["[app:x]", "cmd = a\\"] ++ "  # note" :: []) ++ "b" =
      "[app:x]\ncmd = a\\\n  # note\nb" :=
  ⟨(load_ignores_blank_and_comment id ["[app:x]", "cmd = a\\"] [] "  # note" "b"
    (by decide) (by decide) (by decide) (by decide) (Or.inr (by decide)) (by decide)).1,
   by decide, by decide⟩

/-! ### C20: the parent of an app named with a slash, from a file -/

/-- An app section that is open with a stored key yields an app of its name, with
the parent and the display name split at the first `/`. -/
theorem ofLines_app_parent (joinHome : String → String) (settings : Settings) (name : String)
    (pre post : List String)
    (hsec : (pre.foldl (Load.step joinHome) Load.init).sectionType = "app" ∧
      (pre.foldl (Load.step joinHome) Load.init).sectionName = name)
    (hkey : (pre.foldl (Load.step joinHome) Load.init).sectionData ≠ []) :
    ∃ app ∈ (Load.ofLines joinHome (pre ++ post)).Apps, app.Name = name ∧
      (∀ parent rest : String, name = parent ++ "/" ++ rest → '/' ∉ parent.data →
        parent ≠ "" →
        app.Parent = parent ∧ (AppItem.mk app settings).DisplayName = rest) ∧
      ('/' ∉ name.data →
        app.Parent = "" ∧ (AppItem.mk app settings).DisplayName = name) := by
  have hp : appPending name ((pre ++ post).foldl (Load.step joinHome) Load.init) := by
    rw [List.foldl_append]
    exact foldl_appPending joinHome name post _ (Or.inl ⟨hsec.1, hsec.2, hkey⟩)
  obtain ⟨a, hname, hparent, hmem⟩ := finish_appPending joinHome name _ hp
  rw [← ofLines_eq_finish] at hmem
  refine ⟨Load.setParent a, hmem, (setParent_name a).trans hname, ?_, ?_⟩
  · intro parent rest hn hs hne
    have e := setParent_slash a parent rest (hname.trans hn) hs
    rw [e]
    refine ⟨rfl, ?_⟩
    unfold AppItem.DisplayName
    simp only [ne_eq, hne, not_false_eq_true, if_true]
    rw [hname, hn, String.append_assoc]
    have : parent ++ ("/" ++ rest) = (parent ++ "/") ++ rest := by rw [String.append_assoc]
    rw [this]
    exact trimPrefix_append _ _
  · intro hs
    have e := setParent_no_slash a (hname ▸ hs)
    rw [e]
    refine ⟨hparent, ?_⟩
    unfold AppItem.DisplayName
    simp [hparent, hname]

/-- A `key = value` line whose value does not end in a backslash, read outside a
continued value in a section other than `[settings]` and the global
`[taskrunner]`, stores its key in the data of the open section. -/
theorem step_key_value_stored (joinHome : String → String) (st : LoadState)
    (line m1 m2 : String)
    (hc : st.continuationKey = "")
    (hskip : ¬ (TrimSpace line = "" ∨ HasPrefix (TrimSpace line) "#" = true))
    (hsec : matchSection (TrimSpace line) = none)
    (hkv : matchKeyValue (TrimSpace line) = some (m1, m2))
    (hval : HasSuffix (TrimSpace m2) "\\" = false)
    (hs1 : st.currentSection ≠ "settings") (hs2 : st.currentSection ≠ "taskrunner") :
    Load.step joinHome st line =
      { st with sectionData := mapSet st.sectionData (TrimSpace m1) (TrimSpace m2) } := by
  unfold Load.step
  dsimp only
  rw [if_neg hskip, if_neg (not_not.mpr hc), hsec, hkv]
  dsimp only
  rw [if_neg (by rw [hval]; decide), if_neg hs1, if_neg hs2]

/-- C20 (counterexample): the section `[app:a/b]` whose only key `cmd` has a value
that ends in a backslash on the last line of the file: the value is never stored,
the section is flushed without data, and `Load` returns a config without any app.
With the value complete, the app `a/b` with the parent `a` is there. -/
theorem load_app_unterminated_value :
    (Load id "[app:a/b]\ncmd = x\\\n").map (fun cfg => cfg.Apps) = some [] ∧
    (Load id "[app:a/b]\ncmd = x\n").map
      (fun cfg => cfg.Apps.map (fun a => (a.Name, a.Parent))) = some [("a/b", "a")] := by
  decide

/-- C20 (amended): let the scanner read the text to its end (no line is too long),
and let the lines be `pre` followed by `post`, where after `pre` the open section is
an app section `name` in which at least one key has been stored.  Then `Load`
returns a config with an app whose `Name` is `name`; if `name` is `parent/rest`
with a non-empty `parent` free of `/`, its `Parent` is `parent` and the display
name of its item is `rest`; if `name` holds no `/`, its `Parent` is empty and the
display name is `name`.  The header line `[app:name]`, read outside a continued
value, opens the section with the full text after `app:` as name and without data;
a `key = value` line whose value does not end in a backslash, read there outside a
continued value, stores its key and keeps the section open. -/
theorem load_app_parent (joinHome : String → String) (settings : Settings) (name : String)
    (content : String) (pre post : List String)
    (hfit : scanFits content = true) (hlines : scanLines content = pre ++ post)
    (hsec : (pre.foldl (Load.step joinHome) Load.init).sectionType = "app" ∧
      (pre.foldl (Load.step joinHome) Load.init).sectionName = name)
    (hkey : (pre.foldl (Load.step joinHome) Load.init).sectionData ≠ []) :
    (∃ cfg, Load joinHome content = some cfg ∧
      ∃ app ∈ cfg.Apps, app.Name = name ∧
        (∀ parent rest : String, name = parent ++ "/" ++ rest → '/' ∉ parent.data →
          parent ≠ "" →
          app.Parent = parent ∧ (AppItem.mk app settings).DisplayName = rest) ∧
        ('/' ∉ name.data →
          app.Parent = "" ∧ (AppItem.mk app settings).DisplayName = name)) ∧
    (∀ st : LoadState, st.continuationKey = "" → ']' ∉ name.data →
      (Load.step joinHome st ("[app:" ++ name ++ "]")).sectionType = "app" ∧
      (Load.step joinHome st ("[app:" ++ name ++ "]")).sectionName = name ∧
      (Load.step joinHome st ("[app:" ++ name ++ "]")).sectionData = [] ∧
      (Load.step joinHome st ("[app:" ++ name ++ "]")).currentSection = "app:" ++ name ∧
      (Load.step joinHome st ("[app:" ++ name ++ "]")).continuationKey = "") ∧
    (∀ (st : LoadState) (line m1 m2 : String),
      st.continuationKey = "" → st.currentSection = "app:" ++ name →
      ¬ (TrimSpace line = "" ∨ HasPrefix (TrimSpace line) "#" = true) →
      matchSection (TrimSpace line) = none →
      matchKeyValue (TrimSpace line) = some (m1, m2) →
      HasSuffix (TrimSpace m2) "\\" = false →
      (Load.step joinHome st line).sectionData ≠ [] ∧
      (Load.step joinHome st line).sectionType = st.sectionType ∧
      (Load.step joinHome st line).sectionName = st.sectionName) := by
  refine ⟨?_, fun st hst hn => step_app_header joinHome st name hst hn, ?_⟩
  · refine ⟨Load.ofLines joinHome (scanLines content), ?_, ?_⟩
    · unfold Load
      rw [if_pos hfit]
    · rw [hlines]
      exact ofLines_app_parent joinHome settings name pre post hsec hkey
  · intro st line m1 m2 hc hcur hskip hs hkv hval
    have h1 : st.currentSection ≠ "settings" := by
      rw [hcur]
      intro e
      have := congrArg String.data e
      simp [String.data_append] at this
    have h2 : st.currentSection ≠ "taskrunner" := by
      rw [hcur]
      intro e
      have := congrArg String.data e
      simp [String.data_append] at this
    rw [step_key_value_stored joinHome st line m1 m2 hc hskip hs hkv hval h1 h2]
    exact ⟨mapSet_ne_nil _ _ _, rfl, rfl⟩

/-- C20 (witness): the section `[app:a/b/c]` with the key `cmd`, followed by a menu
section: `Load` returns a config whose app has name `a/b/c`, parent `a` and display
name `b/c`. -/
theorem load_app_parent_witness :
    ∃ cfg, Load id "[app:a/b/c]\ncmd = x\n[menu:a]\ndesc = y\n" = some cfg ∧
      ∃ app ∈ cfg.Apps, app.Name = "a/b/c" ∧ app.Parent = "a" ∧
        (AppItem.mk app DefaultSettings).DisplayName = "b/c" := by
  obtain ⟨cfg, hload, app, hmem, hname, hslash, _⟩ :=
    (load_app_parent id DefaultSettings "a/b/c" "[app:a/b/c]\ncmd = x\n[menu:a]\ndesc = y\n"
      ["[app:a/b/c]", "cmd = x"] ["[menu:a]", "desc = y"] (by decide) (by decide)
      (by decide) (by decide)).1
  exact ⟨cfg, hload, app, hmem, hname, hslash "a" "b/c" (by decide) (by decide) (by decide)⟩

end Nunchux
